import Mathlib

/-!
Verification development for the Rosenbridge bridge-security simulation
(`src/simulation.py`, `src/participants.py`, `src/blockchain.py`,
`src/config.py`, `src/datatypes.py`; the standalone `sim.py` contains the
same core logic with the configuration passed as constructor arguments).

Modelling conventions (shallow embedding):
* Python dicts become insertion-ordered association lists (`lookupA`,
  `setA`, `eraseA`); assignment to an existing key updates in place,
  a new key is appended at the end, matching dict iteration order.
* `uuid.uuid4()` produces fresh unique identifiers; it is modelled by a
  monotone counter `nextUuid` carried in the simulation state.  Event ids
  are `EId.real n` (ledger events) or `EId.fake n` (ids of the form
  "fake-<uuid>" fabricated by malicious watchers); `fake-...` can never
  collide with a real uuid4 string, which the two constructors reflect.
* The `random` module is an explicit stream `rng : List Nat` consumed
  sequentially: `randint(500, 5000)` draws `n` and yields `500 + n % 4501`,
  and `random.random() < 0.5` draws `n` and is true iff `n % 2 = 0`.
  `random.sample` / `random.choice` in `setup` are modelled by oracle
  arguments (the sampled index set and the per-watcher chain picks).
* Payloads (`data` dicts) are records over the keys actually used by the
  program (`amount`, `recipient`, `tx_id`); dict equality is structural
  equality, `data.get('amount', 0)` is `Payload.get_amount`.
* A `Watcher` holds a reference to its monitored chain and a `Guard` holds
  a reference to the simulation's blockchain table; references are
  modelled by looking the chain up by id in the simulation state.
-/

/-- Event identifier: a ledger uuid (`real`) or a malicious watcher's
"fake-<uuid>" id (`fake`).  `isFake` is Python's
`event_id.startswith("fake-")`. -/
inductive EId where
  | real : Nat → EId
  | fake : Nat → EId
deriving DecidableEq, Repr

/-- Python's `event_id.startswith("fake-")`. -/
def EId.isFake : EId → Bool
  | EId.real _ => false
  | EId.fake _ => true

/-- The underlying uuid counter value of an identifier. -/
def EId.tok : EId → Nat
  | EId.real n => n
  | EId.fake n => n

/-- An event payload: the `data` dict of the program, over the keys the
program actually stores (`amount`, `recipient`, `tx_id`). -/
structure Payload where
  amount : Option Int
  recipient : Option String
  txId : Option String
deriving DecidableEq, Repr

/-- Python's `data.get('amount', 0)`. -/
def Payload.get_amount (p : Payload) : Int := p.amount.getD 0

/-- The `Event` namedtuple of `datatypes.py`. -/
structure Event where
  event_id : EId
  source_chain_id : String
  target_chain_id : String
  data : Payload
  is_valid : Bool
deriving DecidableEq, Repr

/-- The `ReportedEvent` namedtuple of `datatypes.py`. -/
structure ReportedEvent where
  event_id : EId
  source_chain_id : String
  target_chain_id : String
  data : Payload
  reporter_id : String
deriving DecidableEq, Repr

/-- Association-list lookup: Python `dict.get`. -/
def lookupA {α β : Type} [DecidableEq α] : List (α × β) → α → Option β
  | [], _ => none
  | (k, v) :: rest, a => if k = a then some v else lookupA rest a

/-- Python `key in dict`. -/
def memA {α β : Type} [DecidableEq α] (m : List (α × β)) (a : α) : Bool :=
  (lookupA m a).isSome

/-- Python `dict[key] = value`: update in place if present, append at the
end otherwise (dict insertion order). -/
def setA {α β : Type} [DecidableEq α] : List (α × β) → α → β → List (α × β)
  | [], a, b => [(a, b)]
  | (k, v) :: rest, a, b =>
    if k = a then (k, b) :: rest else (k, v) :: setA rest a b

/-- Python `del dict[key]`. -/
def eraseA {α β : Type} [DecidableEq α] : List (α × β) → α → List (α × β)
  | [], _ => []
  | (k, v) :: rest, a => if k = a then rest else (k, v) :: eraseA rest a

/-- Draw the next value from the random stream (`random` module). -/
def drawNat : List Nat → Nat × List Nat
  | [] => (0, [])
  | n :: rest => (n, rest)

/-- Fuel-driven binary logarithm: `log2fuel fuel n` is `⌊log₂ n⌋` whenever
`1 ≤ n` and the recursion depth `⌊log₂ n⌋` is at most `fuel` (so `fuel = n`
always suffices).  Written with explicit fuel, not well-founded recursion,
so that the kernel can evaluate it. -/
def log2fuel : Nat → Nat → Nat
  | 0, _ => 0
  | fuel + 1, n => if 2 ≤ n then log2fuel fuel (n / 2) + 1 else 0

/-- `⌊log₂ n⌋` (0 for `n = 0`). -/
def natLog2 (n : Nat) : Nat := log2fuel n n

/-- Decides `2^d ≤ a / b` for a rational given as `a / b` with `b > 0`. -/
def le2pow (d : Int) (a b : Nat) : Bool :=
  if 0 ≤ d then decide (b * 2 ^ d.toNat ≤ a) else decide (b ≤ a * 2 ^ (-d).toNat)

/-- `⌊log₂ (a / b)⌋` for positive `a` and `b`: the difference of the two
integer logarithms is off by at most one, and the comparison picks the
exponent `e` with `2^e ≤ a / b < 2^(e+1)`. -/
def floorLog2 (a b : Nat) : Int :=
  let d : Int := (natLog2 a : Int) - (natLog2 b : Int)
  if le2pow d a b then d else d - 1

/-- Round the nonnegative rational `A / B` (with `B > 0`) to the nearest
natural number, ties to even: IEEE-754 round-to-nearest-even on the scaled
significand. -/
def rnearestEven (A B : Nat) : Nat :=
  let Q := A / B
  let R := A % B
  if 2 * R < B then Q
  else if B < 2 * R then Q + 1
  else if Q % 2 = 0 then Q else Q + 1

/-- Fuel-driven 2-adic valuation: the number of factors 2 in a positive
number (0 for 0); `fuel = n` always suffices. -/
def twoAdicFuel : Nat → Nat → Nat
  | 0, _ => 0
  | fuel + 1, n => if n ≠ 0 ∧ n % 2 = 0 then twoAdicFuel fuel (n / 2) + 1 else 0

/-- The dyadic rational `m / 2^k`, constructed directly in lowest terms
(cancel the common factors 2, leaving an odd numerator, which is coprime
to the remaining power of two).  `Rat.mk'` takes the fraction as given, so
no gcd normalisation runs and the kernel can evaluate the result. -/
def dyadic (m : Int) (k : Nat) : ℚ :=
  let t := min k (twoAdicFuel m.natAbs m.natAbs)
  let m2 := m / ((2 ^ t : Nat) : Int)
  let k2 := k - t
  if h2 : k2 = 0 then (m2 : ℚ)
  else if hodd : m2.natAbs % 2 = 1 then
    Rat.mk' m2 (2 ^ k2) (pow_ne_zero k2 (by norm_num))
      ((Nat.coprime_two_right.mpr (Nat.odd_iff.mpr hodd)).pow_right k2)
  else 0

/-- Round the rational `num / den` (`den > 0`) to the nearest IEEE-754
binary64 value, ties to even, with gradual underflow below `2^(-1022)`
(unit in the last place `2^(-1074)`).  Overflow to infinity (beyond
`2^1024`, where CPython's float conversion raises) is not modelled; every
quantity in this development stays far below it. -/
def roundF64Q (num : Int) (den : Nat) : ℚ :=
  if num = 0 then 0
  else
    let na := num.natAbs
    let e := floorLog2 na den
    let s : Int := max (e - 52) (-1074)
    let m :=
      if 0 ≤ s then rnearestEven na (den * 2 ^ s.toNat)
      else rnearestEven (na * 2 ^ (-s).toNat) den
    let sm : Int := if num < 0 then -(m : Int) else (m : Int)
    if 0 ≤ s then ((sm * 2 ^ s.toNat : Int) : ℚ) else dyadic sm (-s).toNat

/-- CPython's conversion of a nonnegative `int` to a `float`: the nearest
binary64 value (exact below `2^53`). -/
def floatOfNat (n : Nat) : ℚ := roundF64Q (n : Int) 1

/-- The IEEE-754 binary64 product of two doubles (each given by its exact
rational value): the exact product, rounded to the nearest binary64. -/
def floatMul (x y : ℚ) : ℚ := roundF64Q (x.num * y.num) (x.den * y.den)

/-- Python `int()` on a finite float value (an exact dyadic rational):
truncation toward zero; `Int.tdiv` is integer division truncated toward
zero. -/
def ratTrunc (q : ℚ) : Int := q.num.tdiv q.den

/-- The `SimpleBlockchain` class of `blockchain.py`: a chain id and an
insertion-ordered store `events : event_id -> Event`. -/
structure SimpleBlockchain where
  chain_id : String
  events : List (EId × Event)
deriving DecidableEq, Repr

/-- `SimpleBlockchain.add_event`: create and store a fresh valid event.
The fresh uuid is passed in from the simulation's counter. -/
def SimpleBlockchain.add_event (c : SimpleBlockchain) (uuid : Nat)
    (target_chain_id : String) (data : Payload) : Event × SimpleBlockchain :=
  let e : Event := ⟨EId.real uuid, c.chain_id, target_chain_id, data, true⟩
  (e, { c with events := c.events ++ [(e.event_id, e)] })

/-- `SimpleBlockchain.get_event`. -/
def SimpleBlockchain.get_event (c : SimpleBlockchain) (id : EId) : Option Event :=
  lookupA c.events id

/-- `SimpleBlockchain.get_all_event_ids`. -/
def SimpleBlockchain.get_all_event_ids (c : SimpleBlockchain) : List EId :=
  c.events.map Prod.fst

/-- The `Watcher` class of `participants.py`.  The monitored chain is held
by reference in the source; here it is recorded by chain id and looked up
in the simulation's blockchain table. -/
structure Watcher where
  watcher_id : String
  monitored_chain_id : String
  is_malicious : Bool
  seen_event_ids : List EId
deriving DecidableEq, Repr

/-- The `Guard` class of `participants.py`.  `known_blockchains` is an
alias of the simulation's blockchain table in the source and is passed to
`verify_event` explicitly here. -/
structure Guard where
  guard_id : String
  is_malicious : Bool
deriving DecidableEq, Repr

/-- Helper for the honest branch of `Watcher.monitor_and_report`: scan the
new event ids, and for each id found on the chain produce the faithful
report and remember the id as seen (the `if event:` body of the loop). -/
def honestScan (chain : SimpleBlockchain) (wid : String) :
    List EId → List ReportedEvent × List EId
  | [] => ([], [])
  | id :: rest =>
    let tail := honestScan chain wid rest
    match chain.get_event id with
    | some e =>
      (⟨e.event_id, e.source_chain_id, e.target_chain_id, e.data, wid⟩ :: tail.1,
       id :: tail.2)
    | none => tail

/-- `Watcher.monitor_and_report`.  The honest branch reports every
on-chain id not yet seen; the malicious branch fabricates exactly one
fresh `fake-` report with a random amount in `[500, 5000]`.  The fresh
uuid counter and the random stream are threaded explicitly. -/
def Watcher.monitor_and_report (chains : List (String × SimpleBlockchain))
    (w : Watcher) (uuid : Nat) (rng : List Nat) :
    List ReportedEvent × Watcher × Nat × List Nat :=
  if !w.is_malicious then
    match lookupA chains w.monitored_chain_id with
    | none => ([], w, uuid, rng)
    | some chain =>
      let new_event_ids :=
        chain.get_all_event_ids.filter (fun id => decide (id ∉ w.seen_event_ids))
      let scanned := honestScan chain w.watcher_id new_event_ids
      (scanned.1, { w with seen_event_ids := w.seen_event_ids ++ scanned.2 },
       uuid, rng)
  else
    let d := drawNat rng
    let fake_report : ReportedEvent :=
      ⟨EId.fake uuid, w.monitored_chain_id, "target-chain-malicious",
       ⟨some ((500 : Int) + (d.1 % 4501 : Nat)), some "attacker_addr", none⟩,
       w.watcher_id⟩
    ([fake_report], w, uuid + 1, d.2)

/-- `Guard.verify_event`: unknown source chain fails closed; otherwise
`actuallyValid = (event exists) and (payload matches)`; honest guards
return that, malicious guards approve every `fake-` report and deny a real
report with probability 1/2 (one draw from the stream). -/
def Guard.verify_event (chains : List (String × SimpleBlockchain)) (g : Guard)
    (reported_event : ReportedEvent) (rng : List Nat) : Bool × List Nat :=
  match lookupA chains reported_event.source_chain_id with
  | none => (false, rng)
  | some source_chain =>
    let is_actually_valid :=
      match source_chain.get_event reported_event.event_id with
      | some e => decide (e.data = reported_event.data)
      | none => false
    if !g.is_malicious then (is_actually_valid, rng)
    else if reported_event.event_id.isFake then (true, rng)
    else
      let d := drawNat rng
      if d.1 % 2 = 0 then (false, d.2) else (is_actually_valid, d.2)

/-- The configuration read by `RosenbridgeSimulation.__init__`
(`config.py` constants, or the constructor arguments in `sim.py`).
Ratios are modelled as exact rationals. -/
structure Config where
  num_watchers : Nat
  num_guards : Nat
  watcher_malicious_ratio : ℚ
  guard_malicious_ratio : ℚ
  guard_threshold_ratio : ℚ
deriving DecidableEq, Repr

/-- The mutable state of `RosenbridgeSimulation`, plus the explicit
uuid counter and random stream that model the ambient `uuid` and `random`
modules. -/
structure SimState where
  num_watchers : Nat
  num_guards : Nat
  watcher_malicious_ratio : ℚ
  guard_malicious_ratio : ℚ
  guard_threshold : Nat
  blockchains : List (String × SimpleBlockchain)
  watchers : List Watcher
  guards : List Guard
  pending_reports : List (EId × List ReportedEvent)
  guard_signatures : List (EId × List (String × Bool))
  finalized_events : List EId
  processed_event_ids : List EId
  event_first_reported_step : List (EId × Nat)
  confirmation_latencies : List Int
  stats_valid_events_created : Nat
  stats_fabricated_events_reported : Nat
  stats_valid_events_finalized : Nat
  stats_fabricated_events_finalized : Nat
  stats_attack_impact_value : Int
  nextUuid : Nat
  rng : List Nat
deriving DecidableEq, Repr

/-- `RosenbridgeSimulation.__init__`: copy the configuration and compute
`guard_threshold = max(1, int(num_guards * guard_threshold_ratio))`; all
tracking state starts empty.  `rng` seeds the explicit random stream.
The product is computed in IEEE-754 double arithmetic exactly as CPython
does: the guard count is converted to the nearest binary64, the product is
rounded to binary64, and `int()` truncates the rounded product (not the
exact one) toward zero.  `guard_threshold_ratio` holds the exact value of
the configured double. -/
def mkSimulation (cfg : Config) (rng : List Nat) : SimState :=
  { num_watchers := cfg.num_watchers
    num_guards := cfg.num_guards
    watcher_malicious_ratio := cfg.watcher_malicious_ratio
    guard_malicious_ratio := cfg.guard_malicious_ratio
    guard_threshold :=
      (max 1 (ratTrunc (floatMul (floatOfNat cfg.num_guards)
        cfg.guard_threshold_ratio))).toNat
    blockchains := []
    watchers := []
    guards := []
    pending_reports := []
    guard_signatures := []
    finalized_events := []
    processed_event_ids := []
    event_first_reported_step := []
    confirmation_latencies := []
    stats_valid_events_created := 0
    stats_fabricated_events_reported := 0
    stats_valid_events_finalized := 0
    stats_fabricated_events_finalized := 0
    stats_attack_impact_value := 0
    nextUuid := 0
    rng := rng }

/-- Build the watcher list of `setup`: watcher `i` is malicious iff `i` is
in the sampled index set, and monitors the chain chosen by the oracle
`chain_picks` (Python `random.choice(available_chains)`). -/
def setupWatchers (available : List SimpleBlockchain) (malicious_indices : List Nat)
    (chain_picks : List Nat) : Nat → List Watcher
  | 0 => []
  | n + 1 =>
    setupWatchers available malicious_indices chain_picks n ++
      [{ watcher_id := "W" ++ toString n
         monitored_chain_id :=
           (available.getD ((chain_picks.getD n 0) % available.length)
             ⟨"", []⟩).chain_id
         is_malicious := decide (n ∈ malicious_indices)
         seen_event_ids := [] }]

/-- Build the guard list of `setup`. -/
def setupGuards (malicious_indices : List Nat) : Nat → List Guard
  | 0 => []
  | n + 1 =>
    setupGuards malicious_indices n ++
      [{ guard_id := "G" ++ toString n
         is_malicious := decide (n ∈ malicious_indices) }]

/-- `RosenbridgeSimulation.setup`: create the blockchains; if none were
defined, print an error and return early (no watchers or guards are
created); otherwise create the watchers and guards.  The
`random.sample` results and `random.choice` picks are oracle inputs. -/
def setup (s : SimState) (chain_ids : List String)
    (malicious_indices_w malicious_indices_g : List Nat)
    (chain_picks : List Nat) : SimState :=
  let s :=
    { s with
      blockchains :=
        chain_ids.foldl (fun m cid => setA m cid ⟨cid, []⟩) s.blockchains }
  if s.blockchains.isEmpty then s
  else
    let available := s.blockchains.map Prod.snd
    { s with
      watchers :=
        s.watchers ++
          setupWatchers available malicious_indices_w chain_picks s.num_watchers
      guards := s.guards ++ setupGuards malicious_indices_g s.num_guards }

/-- `RosenbridgeSimulation.trigger_event`: on a known source chain add a
fresh valid event and count it; on an unknown chain print an error and
return `None` with the state unchanged. -/
def trigger_event (s : SimState) (source_chain_id target_chain_id : String)
    (data : Payload) : Option Event × SimState :=
  match lookupA s.blockchains source_chain_id with
  | some c =>
    let r := c.add_event s.nextUuid target_chain_id data
    (some r.1,
     { s with
       blockchains := setA s.blockchains source_chain_id r.2
       nextUuid := s.nextUuid + 1
       stats_valid_events_created := s.stats_valid_events_created + 1 })
  | none => (none, s)

/-- Phase 1 loop of `run_simulation_step`: call `monitor_and_report` on
every watcher in order, collecting the reports and the updated watchers
while threading the uuid counter and random stream. -/
def monitorList (chains : List (String × SimpleBlockchain)) :
    List Watcher → Nat → List Nat →
    List ReportedEvent × List Watcher × Nat × List Nat
  | [], uuid, rng => ([], [], uuid, rng)
  | w :: ws, uuid, rng =>
    let r := Watcher.monitor_and_report chains w uuid rng
    let rest := monitorList chains ws r.2.2.1 r.2.2.2
    (r.1 ++ rest.1, r.2.1 :: rest.2.1, rest.2.2.1, rest.2.2.2)

/-- Append a report to the pending buffer (`defaultdict(list)` append). -/
def appendPending (m : List (EId × List ReportedEvent)) (id : EId)
    (r : ReportedEvent) : List (EId × List ReportedEvent) :=
  match lookupA m id with
  | some l => setA m id (l ++ [r])
  | none => m ++ [(id, [r])]

/-- Collation body of phase 1: record the first-reported step (and the
fabricated-attempt counter) for an id seen for the very first time, then
append the report to the pending buffer. -/
def collateOne (s : SimState) (step_num : Nat) (r : ReportedEvent) : SimState :=
  let id := r.event_id
  let is_newly_reported :=
    !memA s.pending_reports id && !decide (id ∈ s.finalized_events) &&
      !decide (id ∈ s.processed_event_ids)
  let s1 :=
    if is_newly_reported && !memA s.event_first_reported_step id then
      { s with
        event_first_reported_step :=
          s.event_first_reported_step ++ [(id, step_num)]
        stats_fabricated_events_reported :=
          if id.isFake then s.stats_fabricated_events_reported + 1
          else s.stats_fabricated_events_reported }
    else s
  { s1 with pending_reports := appendPending s1.pending_reports id r }

/-- Collation loop of phase 1. -/
def collateList (s : SimState) (step_num : Nat) :
    List ReportedEvent → SimState
  | [] => s
  | r :: rest => collateList (collateOne s step_num r) step_num rest

/-- Inner loop of phase 2: each guard that has not yet voted on the event
verifies the representative report and its vote is recorded. -/
def guardVotes (chains : List (String × SimpleBlockchain)) :
    List Guard → ReportedEvent → List (String × Bool) → List Nat →
    List (String × Bool) × List Nat
  | [], _, inner, rng => (inner, rng)
  | g :: gs, rep, inner, rng =>
    if memA inner g.guard_id then guardVotes chains gs rep inner rng
    else
      let r := Guard.verify_event chains g rep rng
      guardVotes chains gs rep (setA inner g.guard_id r.1) r.2

/-- Body of phase 2 for one event id: skip ids already finalized or
processed, otherwise mark the id processed and gather the guard votes on
the representative (first) report.  The signature-table key is created at
the first vote, exactly as in the source. -/
def verifyOne (s : SimState) (id : EId) : SimState :=
  if id ∈ s.finalized_events ∨ id ∈ s.processed_event_ids then s
  else
    match (lookupA s.pending_reports id).getD [] with
    | [] => s
    | rep :: _ =>
      let s1 := { s with processed_event_ids := s.processed_event_ids ++ [id] }
      let prev := lookupA s1.guard_signatures id
      let voted := guardVotes s1.blockchains s1.guards rep (prev.getD []) s1.rng
      { s1 with
        guard_signatures :=
          if prev.isNone && voted.1.isEmpty then s1.guard_signatures
          else setA s1.guard_signatures id voted.1
        rng := voted.2 }

/-- Phase 2 loop over a snapshot of the pending keys. -/
def verifyList (s : SimState) : List EId → SimState
  | [] => s
  | id :: rest => verifyList (verifyOne s id) rest

/-- Phase 2 of `run_simulation_step`. -/
def verifyPhase (s : SimState) : SimState :=
  verifyList s (s.pending_reports.map Prod.fst)

/-- Number of positive signatures: `sum(1 for sig in values if sig is True)`. -/
def posCount (l : List (String × Bool)) : Nat :=
  (l.filter (fun p => p.2)).length

/-- The signature set currently recorded for an id. -/
def sigsOf (s : SimState) (id : EId) : List (String × Bool) :=
  (lookupA s.guard_signatures id).getD []

/-- The ledger cross-check of the finalization phase:
`actual_event and actual_event.is_valid and actual_event.data == rep.data`
with `actual_event = None` when the source chain is unknown. -/
def ledgerAgrees (s : SimState) (id : EId) (rep : ReportedEvent) : Bool :=
  match lookupA s.blockchains rep.source_chain_id with
  | none => false
  | some source_chain =>
    match source_chain.get_event id with
    | none => false
    | some e => e.is_valid && decide (e.data = rep.data)

/-- Fallback representative used to model the (unreachable in any run)
`pending_reports[event_id][0]` access on a missing key, which would raise
in Python. -/
def defaultReport : ReportedEvent :=
  ⟨EId.real 0, "", "", ⟨none, none, none⟩, ""⟩

/-- Body of phase 3 for one event id: if the id is not yet finalized and
its positive signatures reach the threshold, finalize it, record the
latency, and classify it (fraud-marked or ledger-mismatched finalizations
count as fabricated and add the representative amount to the attack
impact).  Returns the updated state and whether the id newly finalized. -/
def finalizeOne (s : SimState) (step_num : Nat) (id : EId) : SimState × Bool :=
  if id ∈ s.finalized_events then (s, false)
  else
    let signatures := sigsOf s id
    if s.guard_threshold ≤ posCount signatures then
      let s1 := { s with finalized_events := s.finalized_events ++ [id] }
      let report_step := (lookupA s1.event_first_reported_step id).getD step_num
      let latency : Int := (step_num : Int) - (report_step : Int)
      let s2 :=
        { s1 with
          confirmation_latencies := s1.confirmation_latencies ++ [latency] }
      let rep := ((lookupA s2.pending_reports id).getD []).headD defaultReport
      let amount := rep.data.get_amount
      let s3 :=
        if id.isFake then
          { s2 with
            stats_fabricated_events_finalized :=
              s2.stats_fabricated_events_finalized + 1
            stats_attack_impact_value := s2.stats_attack_impact_value + amount }
        else if ledgerAgrees s2 id rep then
          { s2 with
            stats_valid_events_finalized := s2.stats_valid_events_finalized + 1 }
        else
          { s2 with
            stats_fabricated_events_finalized :=
              s2.stats_fabricated_events_finalized + 1
            stats_attack_impact_value := s2.stats_attack_impact_value + amount }
      (s3, true)
    else (s, false)

/-- Phase 3 loop: returns the updated state and `newly_finalized_ids`. -/
def finalizeList (s : SimState) (step_num : Nat) :
    List EId → SimState × List EId
  | [] => (s, [])
  | id :: rest =>
    let r := finalizeOne s step_num id
    let tail := finalizeList r.1 step_num rest
    (tail.1, (if r.2 then [id] else []) ++ tail.2)

/-- Phase 3 of `run_simulation_step`, over a snapshot of the signature
table keys. -/
def finalizePhase (s : SimState) (step_num : Nat) : SimState × List EId :=
  finalizeList s step_num (s.guard_signatures.map Prod.fst)

/-- Phase 4: delete every newly finalized id from the pending buffer. -/
def erasePendingList (p : List (EId × List ReportedEvent)) :
    List EId → List (EId × List ReportedEvent)
  | [] => p
  | id :: rest =>
    erasePendingList (if memA p id then eraseA p id else p) rest

/-- `RosenbridgeSimulation.run_simulation_step`: watchers report, reports
are collated, guards verify, quorum finalization updates the metrics, and
newly finalized ids are removed from the pending buffer. -/
def run_simulation_step (s : SimState) (step_num : Nat) : SimState :=
  let monitored := monitorList s.blockchains s.watchers s.nextUuid s.rng
  let s1 :=
    { s with
      watchers := monitored.2.1
      nextUuid := monitored.2.2.1
      rng := monitored.2.2.2 }
  let s2 := collateList s1 step_num monitored.1
  let s3 := verifyPhase s2
  let fin := finalizePhase s3 step_num
  { fin.1 with
    pending_reports := erasePendingList fin.1.pending_reports fin.2 }

/-- The phase-1 output of a step (reports, updated watchers, uuid, rng). -/
def stepM (s : SimState) : List ReportedEvent × List Watcher × Nat × List Nat :=
  monitorList s.blockchains s.watchers s.nextUuid s.rng

/-- The state after phase 1 of a step. -/
def stepS1 (s : SimState) : SimState :=
  { s with
    watchers := (stepM s).2.1
    nextUuid := (stepM s).2.2.1
    rng := (stepM s).2.2.2 }

/-- The state after phase 2 (collation) of a step. -/
def stepS2 (s : SimState) (n : Nat) : SimState :=
  collateList (stepS1 s) n (stepM s).1

/-- The state after phase 3 (guard verification) of a step. -/
def stepS3 (s : SimState) (n : Nat) : SimState :=
  verifyPhase (stepS2 s n)

/-- The state and newly-finalized list after the finalization phase. -/
def stepFin (s : SimState) (n : Nat) : SimState × List EId :=
  finalizePhase (stepS3 s n) n

/-- One transition of a run: either the external event-trigger API or one
simulation step (this is how `main.py` drives the core). -/
inductive SimTrans : SimState → SimState → Prop where
  | trigger (s : SimState) (source_chain_id target_chain_id : String)
      (data : Payload) :
      SimTrans s (trigger_event s source_chain_id target_chain_id data).2
  | step (s : SimState) (step_num : Nat) :
      SimTrans s (run_simulation_step s step_num)

/-- Reflexive-transitive closure of `SimTrans`. -/
inductive SimStar : SimState → SimState → Prop where
  | refl (s : SimState) : SimStar s s
  | tail {s t u : SimState} : SimStar s t → SimTrans t u → SimStar s u

/-- States reachable in an actual run: a configured simulation after
`setup`, followed by any interleaving of event triggers and steps. -/
inductive Reachable : SimState → Prop where
  | init (cfg : Config) (rng : List Nat) (chain_ids : List String)
      (malicious_indices_w malicious_indices_g chain_picks : List Nat) :
      Reachable (setup (mkSimulation cfg rng) chain_ids malicious_indices_w
        malicious_indices_g chain_picks)
  | next {s t : SimState} : Reachable s → SimTrans s t → Reachable t

/-- The event ids on the chain registered under `cid` (empty when the
chain is unknown). -/
def chainIdsOf (chains : List (String × SimpleBlockchain)) (cid : String) :
    List EId :=
  match lookupA chains cid with
  | none => []
  | some c => c.get_all_event_ids

/-- An id that has never been seen by the collation, verification or
finalization machinery: not processed, not finalized, not pending and
not in the first-reported table. -/
def NewId (s : SimState) (id : EId) : Prop :=
  id ∉ s.processed_event_ids ∧ id ∉ s.finalized_events ∧
    memA s.pending_reports id = false ∧
    memA s.event_first_reported_step id = false

/-- Relation between a watcher before and after one `monitor_and_report`
call (with the blockchain table fixed for the step): identity fields are
preserved, the seen set grows, only on-chain ids are added, and an honest
watcher ends up having seen every id currently on its chain. -/
def WatcherStep (chains : List (String × SimpleBlockchain))
    (w w' : Watcher) : Prop :=
  w'.watcher_id = w.watcher_id ∧
    w'.monitored_chain_id = w.monitored_chain_id ∧
    w'.is_malicious = w.is_malicious ∧
    (∀ id ∈ w.seen_event_ids, id ∈ w'.seen_event_ids) ∧
    (∀ id ∈ w'.seen_event_ids,
      id ∈ w.seen_event_ids ∨ id ∈ chainIdsOf chains w.monitored_chain_id) ∧
    (w.is_malicious = false →
      ∀ id ∈ chainIdsOf chains w.monitored_chain_id, id ∈ w'.seen_event_ids)

/-- Loop invariant of the collation phase relative to the state `s1` at
the start of the phase, the step number `n`, and a predicate `R` covering
the ids reported this step. -/
structure CollSpec (s1 : SimState) (n : Nat) (R : EId → Prop)
    (sc : SimState) : Prop where
  frameGuards : sc.guards = s1.guards
  frameWatchers : sc.watchers = s1.watchers
  frameChains : sc.blockchains = s1.blockchains
  frameSigs : sc.guard_signatures = s1.guard_signatures
  frameFin : sc.finalized_events = s1.finalized_events
  frameProc : sc.processed_event_ids = s1.processed_event_ids
  frameLat : sc.confirmation_latencies = s1.confirmation_latencies
  frameUuid : sc.nextUuid = s1.nextUuid
  frameRng : sc.rng = s1.rng
  frameThreshold : sc.guard_threshold = s1.guard_threshold
  pendingKeys : ∀ p ∈ sc.pending_reports,
    memA s1.pending_reports p.1 = true ∨ R p.1
  firstEntries : ∀ p ∈ sc.event_first_reported_step,
    p ∈ s1.event_first_reported_step ∨ (R p.1 ∧ p.2 = n)
  pendingNodup : (sc.pending_reports.map Prod.fst).Nodup
  firstNodup : (sc.event_first_reported_step.map Prod.fst).Nodup
  pendingWF : ∀ p ∈ sc.pending_reports, p.2 ≠ [] ∧ ∀ r ∈ p.2, r.event_id = p.1
  pendingOld : ∀ id, memA s1.pending_reports id = true →
    lookupA sc.pending_reports id = lookupA s1.pending_reports id
  firstOld : ∀ id, memA s1.event_first_reported_step id = true →
    lookupA sc.event_first_reported_step id =
      lookupA s1.event_first_reported_step id
  pendingNewFirst : ∀ id, memA sc.pending_reports id = true →
    memA s1.pending_reports id = true ∨
      lookupA sc.event_first_reported_step id = some n
  pendingNewFree : ∀ id, memA sc.pending_reports id = true →
    memA s1.pending_reports id = true ∨
      (id ∉ s1.processed_event_ids ∧ id ∉ s1.finalized_events)
  firstPendOld : ∀ p ∈ sc.event_first_reported_step,
    p ∈ s1.event_first_reported_step ∨ memA sc.pending_reports p.1 = true

/-- Loop invariant of the verification phase relative to the state `s2`
at the start of the phase. -/
structure VerSpec (s2 : SimState) (sc : SimState) : Prop where
  framePending : sc.pending_reports = s2.pending_reports
  frameFirst : sc.event_first_reported_step = s2.event_first_reported_step
  frameFin : sc.finalized_events = s2.finalized_events
  frameLat : sc.confirmation_latencies = s2.confirmation_latencies
  frameWatchers : sc.watchers = s2.watchers
  frameChains : sc.blockchains = s2.blockchains
  frameGuards : sc.guards = s2.guards
  frameUuid : sc.nextUuid = s2.nextUuid
  frameThreshold : sc.guard_threshold = s2.guard_threshold
  procSuper : ∀ id ∈ s2.processed_event_ids, id ∈ sc.processed_event_ids
  procSub : ∀ id ∈ sc.processed_event_ids,
    id ∈ s2.processed_event_ids ∨ memA s2.pending_reports id = true
  sigsDichot : ∀ id,
    lookupA sc.guard_signatures id = lookupA s2.guard_signatures id ∨
      (id ∉ s2.processed_event_ids ∧ memA s2.pending_reports id = true ∧
        id ∈ sc.processed_event_ids)
  sigsKeysNodup : (sc.guard_signatures.map Prod.fst).Nodup
  sigsProcessed : ∀ p ∈ sc.guard_signatures, p.1 ∈ sc.processed_event_ids
  sigsInnerNodup : ∀ id, ((sigsOf sc id).map Prod.fst).Nodup
  sigsInnerGuards : ∀ id, ∀ q ∈ sigsOf sc id,
    q.1 ∈ s2.guards.map Guard.guard_id
  processedFull : ∀ id ∈ sc.processed_event_ids, ∀ g ∈ s2.guards,
    g.guard_id ∈ (sigsOf sc id).map Prod.fst

/-- Loop invariant of the finalization phase relative to the state `s3`
at the start of the phase and the accumulated newly-finalized ids. -/
structure FinSpec (s3 : SimState) (sc : SimState) (newly : List EId) :
    Prop where
  framePending : sc.pending_reports = s3.pending_reports
  frameSigs : sc.guard_signatures = s3.guard_signatures
  frameProc : sc.processed_event_ids = s3.processed_event_ids
  frameFirst : sc.event_first_reported_step = s3.event_first_reported_step
  frameWatchers : sc.watchers = s3.watchers
  frameChains : sc.blockchains = s3.blockchains
  frameGuards : sc.guards = s3.guards
  frameRng : sc.rng = s3.rng
  frameUuid : sc.nextUuid = s3.nextUuid
  frameThreshold : sc.guard_threshold = s3.guard_threshold
  finEq : sc.finalized_events = s3.finalized_events ++ newly
  latNew : ∀ x ∈ sc.confirmation_latencies,
    x ∈ s3.confirmation_latencies ∨ x = 0
  newlySigs : ∀ id ∈ newly, memA s3.guard_signatures id = true

/-- The invariant maintained by every reachable simulation state. -/
structure SimInv (s : SimState) : Prop where
  boundChains : ∀ p ∈ s.blockchains, ∀ q ∈ p.2.events, q.1.tok < s.nextUuid
  boundPending : ∀ p ∈ s.pending_reports, p.1.tok < s.nextUuid
  boundSigs : ∀ p ∈ s.guard_signatures, p.1.tok < s.nextUuid
  boundFin : ∀ id ∈ s.finalized_events, id.tok < s.nextUuid
  boundProc : ∀ id ∈ s.processed_event_ids, id.tok < s.nextUuid
  boundFirst : ∀ p ∈ s.event_first_reported_step, p.1.tok < s.nextUuid
  boundSeen : ∀ w ∈ s.watchers, ∀ id ∈ w.seen_event_ids, id.tok < s.nextUuid
  chainWF : ∀ p ∈ s.blockchains, (p.2.events.map Prod.fst).Nodup ∧
    ∀ q ∈ p.2.events, q.2.event_id = q.1 ∧ q.1.isFake = false
  pendingKeysNodup : (s.pending_reports.map Prod.fst).Nodup
  sigsKeysNodup : (s.guard_signatures.map Prod.fst).Nodup
  firstKeysNodup : (s.event_first_reported_step.map Prod.fst).Nodup
  pendingWF : ∀ p ∈ s.pending_reports, p.2 ≠ [] ∧ ∀ r ∈ p.2, r.event_id = p.1
  pendingProcessed : ∀ p ∈ s.pending_reports, p.1 ∈ s.processed_event_ids
  sigsProcessed : ∀ p ∈ s.guard_signatures, p.1 ∈ s.processed_event_ids
  sigsInnerNodup : ∀ id, ((sigsOf s id).map Prod.fst).Nodup
  sigsInnerGuards : ∀ id, ∀ q ∈ sigsOf s id,
    q.1 ∈ s.guards.map Guard.guard_id
  processedFull : ∀ id ∈ s.processed_event_ids, ∀ g ∈ s.guards,
    g.guard_id ∈ (sigsOf s id).map Prod.fst
  stuck : ∀ id, id ∉ s.finalized_events →
    posCount (sigsOf s id) < s.guard_threshold
  thresholdPos : 1 ≤ s.guard_threshold
  finPending : ∀ id ∈ s.finalized_events, memA s.pending_reports id = false
  firstProcessed : ∀ p ∈ s.event_first_reported_step,
    p.1 ∈ s.processed_event_ids
  watcherFresh : ∀ w ∈ s.watchers, w.is_malicious = false →
    ∀ id ∈ chainIdsOf s.blockchains w.monitored_chain_id,
      id ∉ w.seen_event_ids → NewId s id
  latencies : ∀ x ∈ s.confirmation_latencies, x = 0

/-- A small honest configuration used as a concrete run: one honest
watcher, two honest guards, quorum 2, one chain. -/
def witnessConfig : Config := ⟨1, 2, 0, 0, 1⟩

/-- The concrete run after `setup`. -/
def witnessInit : SimState :=
  setup (mkSimulation witnessConfig []) ["A"] [] [] [0]

/-- The concrete run after one triggered event. -/
def witnessTrig : SimState :=
  (trigger_event witnessInit "A" "B" ⟨some 7, none, none⟩).2

/-- The concrete run after one simulation step: the event is reported,
unanimously verified and finalized with latency 0. -/
def witnessStep : SimState := run_simulation_step witnessTrig 1

/-- Configuration for the order-dependence counterexample: one honest
watcher and two malicious guards with quorum 2. -/
def cexConfig : Config := ⟨1, 2, 0, 1, 1⟩

/-- The counterexample state: after setup (random stream `[1, 0]`) and one
legitimate triggered event, one real report is pending and the two
malicious guards are about to draw from the shared random stream. -/
def cexState : SimState :=
  (trigger_event (setup (mkSimulation cexConfig [1, 0]) ["A"] [] [0, 1] [0])
    "A" "B" ⟨some 100, some "u", some "t"⟩).2

/-- Configuration producing zero guards. -/
def zeroGuardConfig : Config := ⟨1, 0, 0, 0, 1⟩

/-- State after `setup` with zero guards: setup completes normally. -/
def zeroGuardState : SimState :=
  setup (mkSimulation zeroGuardConfig []) ["A"] [] [] [0]

/-- A step run with zero guards: the core proceeds (the triggered event is
reported and processed), no abort happens. -/
def zeroGuardStep : SimState :=
  run_simulation_step
    (trigger_event zeroGuardState "A" "B" ⟨some 7, none, none⟩).2 1

/-- A concrete state in which a non-fraud-marked id has reached quorum
while the ledger disagrees (its source chain is unknown), exercising the
mismatch branch of the finalization phase. -/
def mismatchState : SimState :=
  { mkSimulation ⟨0, 1, 0, 0, 1⟩ [] with
    guards := [⟨"G0", false⟩]
    pending_reports :=
      [(EId.real 0, [⟨EId.real 0, "X", "B", ⟨some 42, none, none⟩, "W0"⟩])]
    guard_signatures := [(EId.real 0, [("G0", true)])]
    processed_event_ids := [EId.real 0]
    event_first_reported_step := [(EId.real 0, 1)] }

/-- The `actuallyValid` value computed inside `Guard.verify_event`:
the event exists on the (known) source chain and its payload matches the
report; false when the chain is unknown. -/
def actually_valid (chains : List (String × SimpleBlockchain))
    (re : ReportedEvent) : Bool :=
  match lookupA chains re.source_chain_id with
  | none => false
  | some source_chain =>
    match source_chain.get_event re.event_id with
    | some e => decide (e.data = re.data)
    | none => false

/-- The counterexample state with its two malicious guards reordered:
identical to `cexState` except that the guard list is reversed. -/
def cexStateRev : SimState := { cexState with guards := cexState.guards.reverse }

/-- A fresh honest watcher monitoring chain `A`. -/
def w8 : Watcher := ⟨"W0", "A", false, []⟩

/-- A one-chain table whose chain `A` carries a single valid event. -/
def chains8 : List (String × SimpleBlockchain) :=
  [("A", ⟨"A", [(EId.real 0,
    ⟨EId.real 0, "A", "B", ⟨some 7, none, none⟩, true⟩)]⟩)]

/-- Two successive monitoring contexts over the same unchanged chain. -/
def ctxs8 : List (List (String × SimpleBlockchain) × Nat × List Nat) :=
  [(chains8, 0, []), (chains8, 0, [])]

/-- The exact value of the binary64 double nearest 0.6 (the stored value
of a `0.6` literal): `5404319552844595 / 2^53`. -/
def r06 : ℚ := ⟨5404319552844595, 9007199254740992, by norm_num, by norm_num⟩

/-- The exact value of the binary64 double nearest 0.29 (the stored value
of a `0.29` literal): `5224175567749775 / 2^54`. -/
def r029 : ℚ := ⟨5224175567749775, 18014398509481984, by norm_num, by norm_num⟩

/-- The rational 3/4, which is exactly representable as a binary64. -/
def q34 : ℚ := ⟨3, 4, by norm_num, by norm_num⟩

/-- Five guards with threshold ratio 0.6 (as stored): `int(5 * 0.6)` is 3
in double arithmetic but the exact product truncates to 2. -/
def cfg2a : Config := ⟨1, 5, 0, 0, r06⟩

/-- One hundred guards with threshold ratio 0.29 (as stored):
`int(100 * 0.29)` is 28 in double arithmetic, not `⌊29⌋ = 29`. -/
def cfg2b : Config := ⟨1, 100, 0, 0, r029⟩

/-- One watcher driven through a whole run: `monitor_and_report` is called
once per simulation step, each time against the blockchain table, uuid
counter and random stream of that moment (the oracle list `ctxs`), and the
watcher state is threaded from call to call.  Returns every report the
watcher ever emitted together with its final state. -/
def monRun (w : Watcher) :
    List (List (String × SimpleBlockchain) × Nat × List Nat) →
      List ReportedEvent × Watcher
  | [] => ([], w)
  | c :: rest =>
    let r := Watcher.monitor_and_report c.1 w c.2.1 c.2.2
    let tail := monRun r.2.1 rest
    (r.1 ++ tail.1, tail.2)

/-! ### Association-list lemmas -/

theorem lookupA_mem {α β : Type} [DecidableEq α] {m : List (α × β)} {a : α}
    {b : β} (h : lookupA m a = some b) : (a, b) ∈ m := by
  induction m with
  | nil => simp [lookupA] at h
  | cons p rest ih =>
    obtain ⟨k, v⟩ := p
    by_cases hk : k = a
    · subst hk
      simp [lookupA] at h
      simp [h]
    · simp only [lookupA, if_neg hk] at h
      exact List.mem_cons_of_mem _ (ih h)

theorem memA_of_mem {α β : Type} [DecidableEq α] {m : List (α × β)} {a : α}
    {b : β} (h : (a, b) ∈ m) : memA m a = true := by
  induction m with
  | nil => simp at h
  | cons p rest ih =>
    obtain ⟨k, v⟩ := p
    by_cases hk : k = a
    · subst hk
      simp [memA, lookupA]
    · rcases List.mem_cons.1 h with h' | h'
      · exact absurd (congrArg Prod.fst h').symm hk
      · simpa [memA, lookupA, hk] using ih h'

theorem memA_iff_keys {α β : Type} [DecidableEq α] {m : List (α × β)}
    {a : α} : memA m a = true ↔ a ∈ m.map Prod.fst := by
  constructor
  · intro h
    unfold memA at h
    cases hl : lookupA m a with
    | none => rw [hl] at h; simp at h
    | some b => exact List.mem_map.2 ⟨(a, b), lookupA_mem hl, rfl⟩
  · intro h
    rcases List.mem_map.1 h with ⟨⟨k, v⟩, hp, hk⟩
    cases hk
    exact memA_of_mem hp

theorem memA_false_iff {α β : Type} [DecidableEq α] {m : List (α × β)}
    {a : α} : memA m a = false ↔ lookupA m a = none := by
  unfold memA
  cases lookupA m a <;> simp

theorem lookupA_append_left {α β : Type} [DecidableEq α]
    {m₁ m₂ : List (α × β)} {a : α} {b : β} (h : lookupA m₁ a = some b) :
    lookupA (m₁ ++ m₂) a = some b := by
  induction m₁ with
  | nil => simp [lookupA] at h
  | cons p rest ih =>
    obtain ⟨k, v⟩ := p
    by_cases hk : k = a
    · subst hk
      simp [lookupA] at h ⊢
      exact h
    · simp only [lookupA, if_neg hk] at h
      simpa [lookupA, hk] using ih h

theorem lookupA_append_right {α β : Type} [DecidableEq α]
    {m₁ m₂ : List (α × β)} {a : α} (h : lookupA m₁ a = none) :
    lookupA (m₁ ++ m₂) a = lookupA m₂ a := by
  induction m₁ with
  | nil => simp
  | cons p rest ih =>
    obtain ⟨k, v⟩ := p
    by_cases hk : k = a
    · subst hk; simp [lookupA] at h
    · simp only [lookupA, if_neg hk] at h
      simpa [lookupA, hk] using ih h

theorem setA_eq_append {α β : Type} [DecidableEq α] {m : List (α × β)}
    {a : α} (b : β) (h : memA m a = false) : setA m a b = m ++ [(a, b)] := by
  induction m with
  | nil => simp [setA]
  | cons p rest ih =>
    obtain ⟨k, v⟩ := p
    by_cases hk : k = a
    · subst hk
      simp [memA, lookupA] at h
    · simp only [memA, lookupA, if_neg hk] at h
      simp only [setA, if_neg hk, List.cons_append, List.cons.injEq, true_and]
      exact ih h

theorem lookupA_setA_self {α β : Type} [DecidableEq α] {m : List (α × β)}
    {a : α} {b : β} : lookupA (setA m a b) a = some b := by
  induction m with
  | nil => simp [setA, lookupA]
  | cons p rest ih =>
    obtain ⟨k, v⟩ := p
    by_cases hk : k = a
    · subst hk; simp [setA, lookupA]
    · simp [setA, lookupA, hk, ih]

theorem lookupA_setA_ne {α β : Type} [DecidableEq α] {m : List (α × β)}
    {a c : α} {b : β} (h : c ≠ a) :
    lookupA (setA m a b) c = lookupA m c := by
  induction m with
  | nil =>
    have hac : a ≠ c := fun hh => h hh.symm
    simp [setA, lookupA, hac]
  | cons p rest ih =>
    obtain ⟨k, v⟩ := p
    by_cases hk : k = a
    · subst hk
      simp only [setA, if_pos rfl]
      by_cases hkc : k = c
      · exact absurd hkc.symm h
      · simp [lookupA, hkc]
    · by_cases hkc : k = c
      · subst hkc
        simp [setA, lookupA, hk]
      · simp [setA, lookupA, hk, hkc, ih]

theorem keys_setA_of_mem {α β : Type} [DecidableEq α] {m : List (α × β)}
    {a : α} (b : β) (h : memA m a = true) :
    (setA m a b).map Prod.fst = m.map Prod.fst := by
  induction m with
  | nil => simp [memA, lookupA] at h
  | cons p rest ih =>
    obtain ⟨k, v⟩ := p
    by_cases hk : k = a
    · subst hk; simp [setA]
    · simp only [memA, lookupA, if_neg hk] at h
      simp [setA, hk, ih h]

theorem mem_setA {α β : Type} [DecidableEq α] {m : List (α × β)}
    {a : α} {b : β} {p : α × β} (h : p ∈ setA m a b) :
    p ∈ m ∨ p = (a, b) := by
  induction m with
  | nil => simpa [setA] using h
  | cons q rest ih =>
    obtain ⟨k, v⟩ := q
    by_cases hk : k = a
    · subst hk
      simp only [setA, if_pos rfl] at h
      rcases List.mem_cons.1 h with h' | h'
      · exact Or.inr h'
      · exact Or.inl (List.mem_cons_of_mem _ h')
    · simp only [setA, if_neg hk] at h
      rcases List.mem_cons.1 h with h' | h'
      · exact Or.inl (h' ▸ List.mem_cons_self _ _)
      · rcases ih h' with h'' | h''
        · exact Or.inl (List.mem_cons_of_mem _ h'')
        · exact Or.inr h''

theorem mem_eraseA {α β : Type} [DecidableEq α] {m : List (α × β)}
    {a : α} {p : α × β} (h : p ∈ eraseA m a) : p ∈ m := by
  induction m with
  | nil => simp [eraseA] at h
  | cons q rest ih =>
    obtain ⟨k, v⟩ := q
    by_cases hk : k = a
    · subst hk
      simp only [eraseA, if_pos rfl] at h
      exact List.mem_cons_of_mem _ h
    · simp only [eraseA, if_neg hk] at h
      rcases List.mem_cons.1 h with h' | h'
      · exact h' ▸ List.mem_cons_self _ _
      · exact List.mem_cons_of_mem _ (ih h')

theorem lookupA_eraseA_ne {α β : Type} [DecidableEq α] {m : List (α × β)}
    {a c : α} (h : c ≠ a) : lookupA (eraseA m a) c = lookupA m c := by
  induction m with
  | nil => simp [eraseA]
  | cons q rest ih =>
    obtain ⟨k, v⟩ := q
    by_cases hk : k = a
    · subst hk
      simp only [eraseA, if_pos rfl]
      have : k ≠ c := fun hh => h hh.symm
      simp [lookupA, this]
    · by_cases hkc : k = c
      · subst hkc
        simp [eraseA, lookupA, hk]
      · simp [eraseA, lookupA, hk, hkc, ih]

theorem keys_eraseA_sublist {α β : Type} [DecidableEq α]
    (m : List (α × β)) (a : α) :
    ((eraseA m a).map Prod.fst).Sublist (m.map Prod.fst) := by
  induction m with
  | nil => simp [eraseA]
  | cons q rest ih =>
    obtain ⟨k, v⟩ := q
    by_cases hk : k = a
    · subst hk
      simp only [eraseA, if_pos rfl, List.map_cons]
      exact List.sublist_cons_of_sublist _ (List.Sublist.refl _)
    · simp only [eraseA, if_neg hk, List.map_cons]
      exact List.Sublist.cons₂ _ ih

theorem memA_eraseA_self {α β : Type} [DecidableEq α] {m : List (α × β)}
    {a : α} (hnd : (m.map Prod.fst).Nodup) : memA (eraseA m a) a = false := by
  induction m with
  | nil => simp [eraseA, memA, lookupA]
  | cons q rest ih =>
    obtain ⟨k, v⟩ := q
    simp only [List.map_cons, List.nodup_cons] at hnd
    by_cases hk : k = a
    · subst hk
      have he : eraseA ((k, v) :: rest) k = rest := by simp [eraseA]
      rw [he]
      cases hb : memA rest k with
      | false => rfl
      | true => exact absurd (memA_iff_keys.1 hb) hnd.1
    · simp only [eraseA, if_neg hk, memA, lookupA, if_neg hk]
      exact ih hnd.2

theorem nodup_keys_length_le {α : Type} {l₁ l₂ : List α} (h₁ : l₁.Nodup)
    (h₂ : ∀ a ∈ l₁, a ∈ l₂) : l₁.length ≤ l₂.length :=
  (List.subperm_of_subset h₁ h₂).length_le

/-! ### Watcher phase lemmas -/

theorem honestScan_report_ids {chain : SimpleBlockchain} {wid : String}
    {L : List EId} (hwf : ∀ q ∈ chain.events, q.2.event_id = q.1) :
    ∀ r ∈ (honestScan chain wid L).1, r.event_id ∈ L := by
  induction L with
  | nil => simp [honestScan]
  | cons id rest ih =>
    intro r hr
    simp only [honestScan] at hr
    cases he : chain.get_event id with
    | none =>
      rw [he] at hr
      exact List.mem_cons_of_mem _ (ih r hr)
    | some e =>
      rw [he] at hr
      rcases List.mem_cons.1 hr with h' | h'
      · have : e.event_id = id := hwf (id, e) (lookupA_mem he)
        subst h'
        simp [this]
      · exact List.mem_cons_of_mem _ (ih r h')

theorem honestScan_found_sub {chain : SimpleBlockchain} {wid : String}
    {L : List EId} : ∀ id ∈ (honestScan chain wid L).2, id ∈ L := by
  induction L with
  | nil => simp [honestScan]
  | cons id rest ih =>
    intro x hx
    simp only [honestScan] at hx
    cases he : chain.get_event id with
    | none =>
      rw [he] at hx
      exact List.mem_cons_of_mem _ (ih x hx)
    | some e =>
      rw [he] at hx
      rcases List.mem_cons.1 hx with h' | h'
      · simp [h']
      · exact List.mem_cons_of_mem _ (ih x h')

theorem honestScan_found_of_mem {chain : SimpleBlockchain} {wid : String}
    {L : List EId} : ∀ id ∈ L, (chain.get_event id).isSome →
      id ∈ (honestScan chain wid L).2 := by
  induction L with
  | nil => simp
  | cons hd rest ih =>
    intro id hid hsome
    simp only [honestScan]
    rcases List.mem_cons.1 hid with h' | h'
    · subst h'
      cases he : chain.get_event id with
      | none => rw [he] at hsome; simp at hsome
      | some e => simp
    · cases he : chain.get_event hd with
      | none => exact ih id h' hsome
      | some e => exact List.mem_cons_of_mem _ (ih id h' hsome)

theorem monitor_honest_eq {chains : List (String × SimpleBlockchain)}
    {w : Watcher} {uuid : Nat} {rng : List Nat}
    (hmal : w.is_malicious = false) :
    Watcher.monitor_and_report chains w uuid rng =
      match lookupA chains w.monitored_chain_id with
      | none => ([], w, uuid, rng)
      | some chain =>
        ((honestScan chain w.watcher_id
            (chain.get_all_event_ids.filter
              (fun id => decide (id ∉ w.seen_event_ids)))).1,
          { w with seen_event_ids := w.seen_event_ids ++
              (honestScan chain w.watcher_id
                (chain.get_all_event_ids.filter
                  (fun id => decide (id ∉ w.seen_event_ids)))).2 },
          uuid, rng) := by
  unfold Watcher.monitor_and_report
  rw [hmal]
  rfl

theorem monitor_malicious_eq {chains : List (String × SimpleBlockchain)}
    {w : Watcher} {uuid : Nat} {rng : List Nat}
    (hmal : w.is_malicious = true) :
    Watcher.monitor_and_report chains w uuid rng =
      ([⟨EId.fake uuid, w.monitored_chain_id, "target-chain-malicious",
          ⟨some ((500 : Int) + ((drawNat rng).1 % 4501 : Nat)),
            some "attacker_addr", none⟩, w.watcher_id⟩],
        w, uuid + 1, (drawNat rng).2) := by
  unfold Watcher.monitor_and_report
  rw [hmal]
  rfl

theorem monitor_honest {chains : List (String × SimpleBlockchain)}
    {w : Watcher} {uuid : Nat} {rng : List Nat}
    (hmal : w.is_malicious = false)
    (hwf : ∀ c, lookupA chains w.monitored_chain_id = some c →
      ∀ q ∈ c.events, q.2.event_id = q.1) :
    (∀ r ∈ (Watcher.monitor_and_report chains w uuid rng).1,
      r.event_id ∈ chainIdsOf chains w.monitored_chain_id ∧
        r.event_id ∉ w.seen_event_ids) ∧
    WatcherStep chains w (Watcher.monitor_and_report chains w uuid rng).2.1 ∧
    (Watcher.monitor_and_report chains w uuid rng).2.2.1 = uuid ∧
    (Watcher.monitor_and_report chains w uuid rng).2.2.2 = rng := by
  rw [monitor_honest_eq hmal]
  cases hc : lookupA chains w.monitored_chain_id with
  | none =>
    refine ⟨by simp, ⟨rfl, rfl, rfl, fun id h => h, fun id h => Or.inl h, ?_⟩,
      rfl, rfl⟩
    intro _ id hid
    simp [chainIdsOf, hc] at hid
  | some chain =>
    have hwf' := hwf chain hc
    constructor
    · intro r hr
      have hinL := honestScan_report_ids hwf' r hr
      have hmem := List.mem_filter.1 hinL
      refine ⟨?_, by simpa using hmem.2⟩
      simp only [chainIdsOf, hc]
      exact hmem.1
    · refine ⟨⟨rfl, rfl, rfl, ?_, ?_, ?_⟩, rfl, rfl⟩
      · intro id hid
        simp only [List.mem_append]
        exact Or.inl hid
      · intro id hid
        simp only [List.mem_append] at hid
        rcases hid with h' | h'
        · exact Or.inl h'
        · right
          have h1 := honestScan_found_sub id h'
          have h2 := (List.mem_filter.1 h1).1
          simpa [chainIdsOf, hc] using h2
      · intro _ id hid
        simp only [chainIdsOf, hc] at hid
        simp only [List.mem_append]
        by_cases hseen : id ∈ w.seen_event_ids
        · exact Or.inl hseen
        · right
          apply honestScan_found_of_mem
          · simp only [List.mem_filter]
            exact ⟨hid, by simpa using hseen⟩
          · have hm : memA chain.events id = true := memA_iff_keys.2 hid
            simpa [SimpleBlockchain.get_event, memA] using hm

theorem monitor_malicious {chains : List (String × SimpleBlockchain)}
    {w : Watcher} {uuid : Nat} {rng : List Nat}
    (hmal : w.is_malicious = true) :
    (∀ r ∈ (Watcher.monitor_and_report chains w uuid rng).1,
      r.event_id = EId.fake uuid) ∧
    (Watcher.monitor_and_report chains w uuid rng).2.1 = w ∧
    (Watcher.monitor_and_report chains w uuid rng).2.2.1 = uuid + 1 := by
  rw [monitor_malicious_eq hmal]
  simp

theorem watcherStep_of_mal {chains : List (String × SimpleBlockchain)}
    {w : Watcher} (hmal : w.is_malicious = true) : WatcherStep chains w w :=
  ⟨rfl, rfl, rfl, fun _ h => h, fun _ h => Or.inl h,
    fun hh => absurd (hmal ▸ hh) (by simp)⟩

theorem monitorList_spec (chains : List (String × SimpleBlockchain))
    (ws : List Watcher) (u : Nat) (rng : List Nat) (P : EId → Prop)
    (hfresh : ∀ m, u ≤ m → P (EId.fake m))
    (hhon : ∀ w ∈ ws, w.is_malicious = false →
      ∀ id ∈ chainIdsOf chains w.monitored_chain_id,
        id ∉ w.seen_event_ids → P id)
    (hbound : ∀ cid c, lookupA chains cid = some c →
      ∀ q ∈ c.events, q.1.tok < u)
    (hwf : ∀ cid c, lookupA chains cid = some c →
      ∀ q ∈ c.events, q.2.event_id = q.1) :
    u ≤ (monitorList chains ws u rng).2.2.1 ∧
    (∀ r ∈ (monitorList chains ws u rng).1,
      P r.event_id ∧ r.event_id.tok < (monitorList chains ws u rng).2.2.1) ∧
    List.Forall₂ (WatcherStep chains) ws (monitorList chains ws u rng).2.1 := by
  induction ws generalizing u rng with
  | nil => simp [monitorList]
  | cons w ws ih =>
    cases hmal : w.is_malicious with
    | false =>
      have hm := @monitor_honest chains w u rng hmal (fun c hc => hwf _ c hc)
      obtain ⟨hreps, hstep, huuid, hrng⟩ := hm
      have ihs := ih u (Watcher.monitor_and_report chains w u rng).2.2.2 hfresh
        (fun w' hw' => hhon w' (List.mem_cons_of_mem _ hw')) hbound
      simp only [monitorList, huuid]
      refine ⟨ihs.1, ?_, List.Forall₂.cons hstep ihs.2.2⟩
      intro r hr
      rcases List.mem_append.1 hr with h' | h'
      · have h1 := hreps r h'
        have hP := hhon w (List.mem_cons_self _ _) hmal r.event_id h1.1 h1.2
        refine ⟨hP, ?_⟩
        have hidchain := h1.1
        simp only [chainIdsOf] at hidchain
        cases hc : lookupA chains w.monitored_chain_id with
        | none => rw [hc] at hidchain; simp at hidchain
        | some c =>
          rw [hc] at hidchain
          simp only [SimpleBlockchain.get_all_event_ids] at hidchain
          rcases List.mem_map.1 hidchain with ⟨q, hq, hq'⟩
          have := hbound _ c hc q hq
          have h2 : r.event_id.tok < u := by rw [← hq']; exact this
          exact lt_of_lt_of_le h2 ihs.1
      · exact ihs.2.1 r h'
    | true =>
      have hm := @monitor_malicious chains w u rng hmal
      obtain ⟨hreps, hw, huuid⟩ := hm
      have hfresh' : ∀ m, u + 1 ≤ m → P (EId.fake m) :=
        fun m hm' => hfresh m (le_trans (Nat.le_succ u) hm')
      have hbound' : ∀ cid c, lookupA chains cid = some c →
          ∀ q ∈ c.events, q.1.tok < u + 1 :=
        fun cid c hc q hq => lt_trans (hbound cid c hc q hq) (Nat.lt_succ_self u)
      have ihs := ih (u + 1) (Watcher.monitor_and_report chains w u rng).2.2.2
        hfresh' (fun w' hw' => hhon w' (List.mem_cons_of_mem _ hw')) hbound'
      simp only [monitorList, huuid]
      refine ⟨le_trans (Nat.le_succ u) ihs.1, ?_, ?_⟩
      · intro r hr
        rcases List.mem_append.1 hr with h' | h'
        · have h1 := hreps r h'
          rw [h1]
          exact ⟨hfresh u le_rfl, lt_of_lt_of_le (Nat.lt_succ_self u) ihs.1⟩
        · exact ihs.2.1 r h'
      · rw [hw]
        exact List.Forall₂.cons (watcherStep_of_mal hmal) ihs.2.2

theorem NewId_of_fresh {s : SimState} (hInv : SimInv s) {id : EId}
    (h : s.nextUuid ≤ id.tok) : NewId s id := by
  refine ⟨?_, ?_, ?_, ?_⟩
  · intro hmem
    exact absurd (hInv.boundProc id hmem) (not_lt.2 h)
  · intro hmem
    exact absurd (hInv.boundFin id hmem) (not_lt.2 h)
  · rw [memA_false_iff]
    cases hl : lookupA s.pending_reports id with
    | none => rfl
    | some b =>
      exact absurd (hInv.boundPending _ (lookupA_mem hl)) (not_lt.2 h)
  · rw [memA_false_iff]
    cases hl : lookupA s.event_first_reported_step id with
    | none => rfl
    | some b =>
      exact absurd (hInv.boundFirst _ (lookupA_mem hl)) (not_lt.2 h)

/-! ### Collation phase lemmas -/

theorem nodup_append_singleton {α : Type} {l : List α} {a : α}
    (h : l.Nodup) (ha : a ∉ l) : (l ++ [a]).Nodup := by
  simp [List.nodup_append, h, ha]

theorem lookupA_appendPending_self {m : List (EId × List ReportedEvent)}
    {id : EId} {r : ReportedEvent} :
    lookupA (appendPending m id r) id =
      some ((lookupA m id).getD [] ++ [r]) := by
  unfold appendPending
  cases hl : lookupA m id with
  | some l => simpa using lookupA_setA_self
  | none =>
    rw [lookupA_append_right hl]
    simp [lookupA]

theorem lookupA_appendPending_ne {m : List (EId × List ReportedEvent)}
    {id x : EId} {r : ReportedEvent} (h : x ≠ id) :
    lookupA (appendPending m id r) x = lookupA m x := by
  unfold appendPending
  cases hl : lookupA m id with
  | some l => exact lookupA_setA_ne h
  | none =>
    cases hx : lookupA m x with
    | some v => exact lookupA_append_left hx
    | none =>
      rw [lookupA_append_right hx]
      have hix : id ≠ x := fun hh => h hh.symm
      simp [lookupA, hix]

theorem memA_appendPending_self {m : List (EId × List ReportedEvent)}
    {id : EId} {r : ReportedEvent} : memA (appendPending m id r) id = true := by
  simp [memA, lookupA_appendPending_self]

theorem memA_appendPending_mono {m : List (EId × List ReportedEvent)}
    {id x : EId} {r : ReportedEvent} (h : memA m x = true) :
    memA (appendPending m id r) x = true := by
  by_cases hx : x = id
  · subst hx; exact memA_appendPending_self
  · unfold memA
    rw [lookupA_appendPending_ne hx]
    exact h

theorem memA_appendPending_elim {m : List (EId × List ReportedEvent)}
    {id x : EId} {r : ReportedEvent}
    (h : memA (appendPending m id r) x = true) :
    memA m x = true ∨ x = id := by
  by_cases hx : x = id
  · exact Or.inr hx
  · left
    unfold memA at h
    rwa [lookupA_appendPending_ne hx] at h

theorem keys_appendPending_of_not_mem {m : List (EId × List ReportedEvent)}
    {id : EId} {r : ReportedEvent} (h : memA m id = false) :
    (appendPending m id r).map Prod.fst = m.map Prod.fst ++ [id] := by
  unfold appendPending
  rw [memA_false_iff.1 h]
  simp

theorem keys_appendPending_of_mem {m : List (EId × List ReportedEvent)}
    {id : EId} {r : ReportedEvent} (h : memA m id = true) :
    (appendPending m id r).map Prod.fst = m.map Prod.fst := by
  unfold appendPending
  unfold memA at h
  cases hl : lookupA m id with
  | none => rw [hl] at h; simp at h
  | some l =>
    exact keys_setA_of_mem _ (by simp [memA, hl])

theorem mem_appendPending {m : List (EId × List ReportedEvent)}
    {id : EId} {r : ReportedEvent} {p : EId × List ReportedEvent}
    (h : p ∈ appendPending m id r) :
    p ∈ m ∨ (p.1 = id ∧ p.2 = (lookupA m id).getD [] ++ [r]) := by
  unfold appendPending at h
  cases hl : lookupA m id with
  | some l =>
    rw [hl] at h
    rcases mem_setA h with h' | h'
    · exact Or.inl h'
    · right
      subst h'
      simp
  | none =>
    rw [hl] at h
    rcases List.mem_append.1 h with h' | h'
    · exact Or.inl h'
    · right
      simp only [List.mem_singleton] at h'
      subst h'
      simp

theorem collateOne_eq_pos {s : SimState} {n : Nat} {r : ReportedEvent}
    (h : (!memA s.pending_reports r.event_id &&
        !decide (r.event_id ∈ s.finalized_events) &&
        !decide (r.event_id ∈ s.processed_event_ids) &&
        !memA s.event_first_reported_step r.event_id) = true) :
    collateOne s n r =
      { s with
        event_first_reported_step :=
          s.event_first_reported_step ++ [(r.event_id, n)]
        stats_fabricated_events_reported :=
          if r.event_id.isFake then s.stats_fabricated_events_reported + 1
          else s.stats_fabricated_events_reported
        pending_reports := appendPending s.pending_reports r.event_id r } := by
  simp only [collateOne]
  rw [if_pos h]

theorem collateOne_eq_neg {s : SimState} {n : Nat} {r : ReportedEvent}
    (h : (!memA s.pending_reports r.event_id &&
        !decide (r.event_id ∈ s.finalized_events) &&
        !decide (r.event_id ∈ s.processed_event_ids) &&
        !memA s.event_first_reported_step r.event_id) = false) :
    collateOne s n r =
      { s with
        pending_reports := appendPending s.pending_reports r.event_id r } := by
  simp only [collateOne]
  rw [if_neg (by simp [h])]

theorem not_mem_keys_of_memA_false {α β : Type} [DecidableEq α]
    {m : List (α × β)} {a : α} (h : memA m a = false) :
    a ∉ m.map Prod.fst := by
  intro hk
  rw [memA_iff_keys.2 hk] at h
  cases h

theorem pendingWF_appendPending {m : List (EId × List ReportedEvent)}
    {r : ReportedEvent}
    (hwf : ∀ p ∈ m, p.2 ≠ [] ∧ ∀ q ∈ p.2, q.event_id = p.1) :
    ∀ p ∈ appendPending m r.event_id r,
      p.2 ≠ [] ∧ ∀ q ∈ p.2, q.event_id = p.1 := by
  intro p hp
  rcases mem_appendPending hp with h' | h'
  · exact hwf p h'
  · obtain ⟨hp1, hp2⟩ := h'
    constructor
    · rw [hp2]; simp
    · intro q hq
      rw [hp2] at hq
      rcases List.mem_append.1 hq with hq' | hq'
      · cases hl : lookupA m r.event_id with
        | none => rw [hl] at hq'; simp at hq'
        | some l =>
          rw [hl] at hq'
          simp only [Option.getD_some] at hq'
          have := (hwf _ (lookupA_mem hl)).2 q hq'
          rw [this, hp1]
      · simp only [List.mem_singleton] at hq'
        rw [hq', hp1]

theorem collSpec_refl (s1 : SimState) (n : Nat) (R : EId → Prop)
    (hnp : (s1.pending_reports.map Prod.fst).Nodup)
    (hnf : (s1.event_first_reported_step.map Prod.fst).Nodup)
    (hwf : ∀ p ∈ s1.pending_reports, p.2 ≠ [] ∧ ∀ q ∈ p.2, q.event_id = p.1) :
    CollSpec s1 n R s1 where
  frameGuards := rfl
  frameWatchers := rfl
  frameChains := rfl
  frameSigs := rfl
  frameFin := rfl
  frameProc := rfl
  frameLat := rfl
  frameUuid := rfl
  frameRng := rfl
  frameThreshold := rfl
  pendingKeys := fun p hp =>
    Or.inl (memA_of_mem (show (p.1, p.2) ∈ _ by simpa using hp))
  firstEntries := fun p hp => Or.inl hp
  pendingNodup := hnp
  firstNodup := hnf
  pendingWF := hwf
  pendingOld := fun _ _ => rfl
  firstOld := fun _ _ => rfl
  pendingNewFirst := fun _ hx => Or.inl hx
  pendingNewFree := fun _ hx => Or.inl hx
  firstPendOld := fun p hp => Or.inl hp

theorem collateOne_spec {s1 sc : SimState} {n : Nat} {R : EId → Prop}
    {r : ReportedEvent} (hc : CollSpec s1 n R sc)
    (hnew : NewId s1 r.event_id) (hR : R r.event_id) :
    CollSpec s1 n R (collateOne sc n r) := by
  obtain ⟨hproc1, hfin1, hpend1, hfirst1⟩ := hnew
  cases hpm : memA sc.pending_reports r.event_id with
  | true =>
    have hcond : (!memA sc.pending_reports r.event_id &&
        !decide (r.event_id ∈ sc.finalized_events) &&
        !decide (r.event_id ∈ sc.processed_event_ids) &&
        !memA sc.event_first_reported_step r.event_id) = false := by
      simp [hpm]
    rw [collateOne_eq_neg hcond]
    refine
      { frameGuards := hc.frameGuards
        frameWatchers := hc.frameWatchers
        frameChains := hc.frameChains
        frameSigs := hc.frameSigs
        frameFin := hc.frameFin
        frameProc := hc.frameProc
        frameLat := hc.frameLat
        frameUuid := hc.frameUuid
        frameRng := hc.frameRng
        frameThreshold := hc.frameThreshold
        pendingKeys := ?_
        firstEntries := hc.firstEntries
        pendingNodup := ?_
        firstNodup := hc.firstNodup
        pendingWF := pendingWF_appendPending hc.pendingWF
        pendingOld := ?_
        firstOld := hc.firstOld
        pendingNewFirst := ?_
        pendingNewFree := ?_
        firstPendOld := ?_ }
    · intro p hp
      rcases mem_appendPending hp with h' | h'
      · exact hc.pendingKeys p h'
      · right
        rw [h'.1]
        exact hR
    · rw [keys_appendPending_of_mem hpm]
      exact hc.pendingNodup
    · intro x hx
      have hxne : x ≠ r.event_id := by
        intro he
        rw [he, hpend1] at hx
        cases hx
      rw [lookupA_appendPending_ne hxne]
      exact hc.pendingOld x hx
    · intro x hx
      rcases memA_appendPending_elim hx with h' | h'
      · exact hc.pendingNewFirst x h'
      · rw [h']
        rcases hc.pendingNewFirst r.event_id hpm with hA | hB
        · rw [hpend1] at hA
          cases hA
        · exact Or.inr hB
    · intro x hx
      rcases memA_appendPending_elim hx with h' | h'
      · exact hc.pendingNewFree x h'
      · rw [h']
        exact Or.inr ⟨hproc1, hfin1⟩
    · intro p hp
      rcases hc.firstPendOld p hp with h' | h'
      · exact Or.inl h'
      · exact Or.inr (memA_appendPending_mono h')
  | false =>
    have hfin : r.event_id ∉ sc.finalized_events := by
      rw [hc.frameFin]; exact hfin1
    have hproc : r.event_id ∉ sc.processed_event_ids := by
      rw [hc.frameProc]; exact hproc1
    have hff : memA sc.event_first_reported_step r.event_id = false := by
      cases hb : memA sc.event_first_reported_step r.event_id with
      | false => rfl
      | true =>
        exfalso
        unfold memA at hb
        cases hl : lookupA sc.event_first_reported_step r.event_id with
        | none => rw [hl] at hb; cases hb
        | some v =>
          rcases hc.firstPendOld _ (lookupA_mem hl) with hold | hpend
          · have := memA_of_mem hold
            rw [hfirst1] at this
            cases this
          · rw [hpm] at hpend
            cases hpend
    have hcond : (!memA sc.pending_reports r.event_id &&
        !decide (r.event_id ∈ sc.finalized_events) &&
        !decide (r.event_id ∈ sc.processed_event_ids) &&
        !memA sc.event_first_reported_step r.event_id) = true := by
      simp [hpm, hfin, hproc, hff]
    rw [collateOne_eq_pos hcond]
    refine
      { frameGuards := hc.frameGuards
        frameWatchers := hc.frameWatchers
        frameChains := hc.frameChains
        frameSigs := hc.frameSigs
        frameFin := hc.frameFin
        frameProc := hc.frameProc
        frameLat := hc.frameLat
        frameUuid := hc.frameUuid
        frameRng := hc.frameRng
        frameThreshold := hc.frameThreshold
        pendingKeys := ?_
        firstEntries := ?_
        pendingNodup := ?_
        firstNodup := ?_
        pendingWF := pendingWF_appendPending hc.pendingWF
        pendingOld := ?_
        firstOld := ?_
        pendingNewFirst := ?_
        pendingNewFree := ?_
        firstPendOld := ?_ }
    · intro p hp
      rcases mem_appendPending hp with h' | h'
      · exact hc.pendingKeys p h'
      · right
        rw [h'.1]
        exact hR
    · intro p hp
      rcases List.mem_append.1 hp with h' | h'
      · exact hc.firstEntries p h'
      · simp only [List.mem_singleton] at h'
        right
        rw [h']
        exact ⟨hR, rfl⟩
    · rw [keys_appendPending_of_not_mem hpm]
      exact nodup_append_singleton hc.pendingNodup (not_mem_keys_of_memA_false hpm)
    · rw [List.map_append]
      exact nodup_append_singleton hc.firstNodup
        (not_mem_keys_of_memA_false hff)
    · intro x hx
      have hxne : x ≠ r.event_id := by
        intro he
        rw [he, hpend1] at hx
        cases hx
      rw [lookupA_appendPending_ne hxne]
      exact hc.pendingOld x hx
    · intro x hx
      have hxne : x ≠ r.event_id := by
        intro he
        rw [he, hfirst1] at hx
        cases hx
      have h1 := hc.firstOld x hx
      unfold memA at hx
      cases hl : lookupA s1.event_first_reported_step x with
      | none => rw [hl] at hx; cases hx
      | some v =>
        rw [hl] at h1
        exact lookupA_append_left h1
    · intro x hx
      rcases memA_appendPending_elim hx with h' | h'
      · rcases hc.pendingNewFirst x h' with hA | hB
        · exact Or.inl hA
        · right
          exact lookupA_append_left hB
      · rw [h']
        right
        rw [lookupA_append_right (memA_false_iff.1 hff)]
        simp [lookupA]
    · intro x hx
      rcases memA_appendPending_elim hx with h' | h'
      · exact hc.pendingNewFree x h'
      · rw [h']
        exact Or.inr ⟨hproc1, hfin1⟩
    · intro p hp
      rcases List.mem_append.1 hp with h' | h'
      · rcases hc.firstPendOld p h' with h'' | h''
        · exact Or.inl h''
        · exact Or.inr (memA_appendPending_mono h'')
      · simp only [List.mem_singleton] at h'
        right
        rw [h']
        exact memA_appendPending_self

theorem collateList_spec {s1 sc : SimState} {n : Nat} {R : EId → Prop}
    {reports : List ReportedEvent} (hc : CollSpec s1 n R sc)
    (hreps : ∀ r ∈ reports, NewId s1 r.event_id ∧ R r.event_id) :
    CollSpec s1 n R (collateList sc n reports) := by
  induction reports generalizing sc with
  | nil => exact hc
  | cons r rest ih =>
    have hr := hreps r (List.mem_cons_self _ _)
    exact ih (collateOne_spec hc hr.1 hr.2)
      (fun q hq => hreps q (List.mem_cons_of_mem _ hq))

/-! ### Verification phase lemmas -/

theorem guardVotes_spec (chains : List (String × SimpleBlockchain))
    (gs : List Guard) (rep : ReportedEvent) (inner : List (String × Bool))
    (rng : List Nat) :
    ∃ extra, (guardVotes chains gs rep inner rng).1 = inner ++ extra ∧
      (extra.map Prod.fst).Nodup ∧
      (∀ q ∈ extra, q.1 ∈ gs.map Guard.guard_id ∧ q.1 ∉ inner.map Prod.fst) ∧
      (∀ g ∈ gs, g.guard_id ∈ inner.map Prod.fst ∨
        g.guard_id ∈ extra.map Prod.fst) := by
  induction gs generalizing inner rng with
  | nil => exact ⟨[], by simp [guardVotes], by simp, by simp, by simp⟩
  | cons g gs ih =>
    cases hm : memA inner g.guard_id with
    | true =>
      obtain ⟨extra, heq, hnd, hprops, hcov⟩ := ih inner rng
      refine ⟨extra, ?_, hnd, ?_, ?_⟩
      · simpa [guardVotes, hm] using heq
      · intro q hq
        exact ⟨List.mem_cons_of_mem _ (hprops q hq).1, (hprops q hq).2⟩
      · intro g' hg'
        rcases List.mem_cons.1 hg' with h' | h'
        · subst h'
          exact Or.inl (memA_iff_keys.1 hm)
        · exact hcov g' h'
    | false =>
      have hset := setA_eq_append
        ((Guard.verify_event chains g rep rng).1) hm
      obtain ⟨extra, heq, hnd, hprops, hcov⟩ :=
        ih (inner ++ [(g.guard_id, (Guard.verify_event chains g rep rng).1)])
          ((Guard.verify_event chains g rep rng).2)
      have hres : (guardVotes chains (g :: gs) rep inner rng).1 =
          (inner ++ [(g.guard_id, (Guard.verify_event chains g rep rng).1)]) ++
            extra := by
        simp only [guardVotes, hm]
        rw [← hset] at heq ⊢
        exact heq
      refine ⟨(g.guard_id, (Guard.verify_event chains g rep rng).1) :: extra,
        by simpa using hres, ?_, ?_, ?_⟩
      · simp only [List.map_cons, List.nodup_cons]
        refine ⟨?_, hnd⟩
        intro hmem
        rcases List.mem_map.1 hmem with ⟨q, hq, hq'⟩
        have := (hprops q hq).2
        rw [hq'] at this
        exact this (by simp)
      · intro q hq
        rcases List.mem_cons.1 hq with h' | h'
        · subst h'
          exact ⟨by simp, not_mem_keys_of_memA_false hm⟩
        · refine ⟨List.mem_cons_of_mem _ (hprops q h').1, ?_⟩
          intro hk
          exact (hprops q h').2 (by simp [hk])
      · intro g' hg'
        rcases List.mem_cons.1 hg' with h' | h'
        · subst h'
          exact Or.inr (by simp)
        · rcases hcov g' h' with h'' | h''
          · rw [List.map_append] at h''
            rcases List.mem_append.1 h'' with h3 | h3
            · exact Or.inl h3
            · simp only [List.map_cons, List.map_nil,
                List.mem_singleton] at h3
              exact Or.inr (by simp [h3])
          · exact Or.inr (List.mem_cons_of_mem _ h'')

theorem verifyOne_eq_skip {sc : SimState} {id : EId}
    (h : id ∈ sc.finalized_events ∨ id ∈ sc.processed_event_ids) :
    verifyOne sc id = sc := by
  simp only [verifyOne]
  rw [if_pos h]

theorem verifyOne_eq_empty {sc : SimState} {id : EId}
    (hn : ¬(id ∈ sc.finalized_events ∨ id ∈ sc.processed_event_ids))
    (hp : (lookupA sc.pending_reports id).getD [] = []) :
    verifyOne sc id = sc := by
  simp only [verifyOne]
  rw [if_neg hn, hp]

theorem verifyOne_eq_run {sc : SimState} {id : EId} {rep : ReportedEvent}
    {rest : List ReportedEvent}
    (hn : ¬(id ∈ sc.finalized_events ∨ id ∈ sc.processed_event_ids))
    (hp : (lookupA sc.pending_reports id).getD [] = rep :: rest) :
    verifyOne sc id =
      { sc with
        processed_event_ids := sc.processed_event_ids ++ [id]
        guard_signatures :=
          if (lookupA sc.guard_signatures id).isNone &&
              (guardVotes sc.blockchains sc.guards rep
                ((lookupA sc.guard_signatures id).getD []) sc.rng).1.isEmpty
          then sc.guard_signatures
          else setA sc.guard_signatures id
            (guardVotes sc.blockchains sc.guards rep
              ((lookupA sc.guard_signatures id).getD []) sc.rng).1
        rng := (guardVotes sc.blockchains sc.guards rep
          ((lookupA sc.guard_signatures id).getD []) sc.rng).2 } := by
  simp only [verifyOne]
  rw [if_neg hn, hp]

theorem verifyOne_proc_mono {sc : SimState} {id : EId} :
    ∀ x ∈ sc.processed_event_ids, x ∈ (verifyOne sc id).processed_event_ids := by
  intro x hx
  by_cases h : id ∈ sc.finalized_events ∨ id ∈ sc.processed_event_ids
  · rw [verifyOne_eq_skip h]; exact hx
  · cases hp : (lookupA sc.pending_reports id).getD [] with
    | nil => rw [verifyOne_eq_empty h hp]; exact hx
    | cons rep rest =>
      rw [verifyOne_eq_run h hp]
      exact List.mem_append.2 (Or.inl hx)

theorem verifyList_proc_mono {sc : SimState} {L : List EId} :
    ∀ x ∈ sc.processed_event_ids, x ∈ (verifyList sc L).processed_event_ids := by
  induction L generalizing sc with
  | nil => intro x hx; exact hx
  | cons id rest ih =>
    intro x hx
    exact ih _ (verifyOne_proc_mono x hx)

theorem lookupA_snoc_ne {α β : Type} [DecidableEq α] {m : List (α × β)}
    {k x : α} {v : β} (h : x ≠ k) :
    lookupA (m ++ [(k, v)]) x = lookupA m x := by
  cases hm : lookupA m x with
  | some b => exact lookupA_append_left hm
  | none =>
    rw [lookupA_append_right hm]
    have hkx : k ≠ x := fun hh => h hh.symm
    simp [lookupA, hkx]

theorem lookupA_snoc_self {α β : Type} [DecidableEq α] {m : List (α × β)}
    {k : α} {v : β} (h : lookupA m k = none) :
    lookupA (m ++ [(k, v)]) k = some v := by
  rw [lookupA_append_right h]
  simp [lookupA]

theorem verifyOne_spec {s2 sc : SimState} {id : EId} (hc : VerSpec s2 sc)
    (hid : memA s2.pending_reports id = true)
    (hwf : ∀ p ∈ s2.pending_reports, p.2 ≠ [] ∧
      ∀ r ∈ p.2, r.event_id = p.1) :
    VerSpec s2 (verifyOne sc id) ∧
      (id ∈ (verifyOne sc id).processed_event_ids ∨
        id ∈ s2.finalized_events) := by
  by_cases hskip : id ∈ sc.finalized_events ∨ id ∈ sc.processed_event_ids
  · rw [verifyOne_eq_skip hskip]
    refine ⟨hc, ?_⟩
    rcases hskip with h' | h'
    · exact Or.inr (hc.frameFin ▸ h')
    · exact Or.inl h'
  · have hpend : lookupA sc.pending_reports id =
        lookupA s2.pending_reports id := by rw [hc.framePending]
    obtain ⟨l, hl⟩ : ∃ l, lookupA s2.pending_reports id = some l := by
      unfold memA at hid
      cases hq : lookupA s2.pending_reports id with
      | none => rw [hq] at hid; cases hid
      | some l => exact ⟨l, rfl⟩
    have hlz : l ≠ [] := (hwf (id, l) (lookupA_mem hl)).1
    obtain ⟨rep, rest, hrep⟩ : ∃ rep rest, l = rep :: rest := by
      cases l with
      | nil => exact absurd rfl hlz
      | cons a b => exact ⟨a, b, rfl⟩
    have hp : (lookupA sc.pending_reports id).getD [] = rep :: rest := by
      rw [hpend, hl, hrep]; rfl
    have hprocid : id ∉ sc.processed_event_ids := fun hh => hskip (Or.inr hh)
    have hprev : lookupA sc.guard_signatures id = none := by
      cases hq : lookupA sc.guard_signatures id with
      | none => rfl
      | some v =>
        exact absurd (hc.sigsProcessed _ (lookupA_mem hq)) hprocid
    have hid2proc : id ∉ s2.processed_event_ids :=
      fun hh => hprocid (hc.procSuper id hh)
    rw [verifyOne_eq_run hskip hp, hprev]
    simp only [Option.getD_none, Option.isNone_none, Bool.true_and]
    obtain ⟨extra, hveq, hvnd, hvprops, hvcov⟩ :=
      guardVotes_spec sc.blockchains sc.guards rep [] sc.rng
    simp only [List.nil_append] at hveq
    simp only [List.map_nil, List.not_mem_nil, not_false_iff, and_true]
      at hvprops
    simp only [List.map_nil, List.not_mem_nil, false_or] at hvcov
    rw [hveq]
    cases he : extra.isEmpty with
    | true =>
      have hex : extra = [] := List.isEmpty_iff.mp he
      have hguards : sc.guards = [] := by
        cases hg : sc.guards with
        | nil => rfl
        | cons g gs =>
          have := hvcov g (hg ▸ List.mem_cons_self g gs)
          rw [hex] at this
          simp at this
      rw [if_pos rfl]
      refine ⟨?_, Or.inl (List.mem_append.2 (Or.inr (by simp)))⟩
      refine
        { framePending := hc.framePending
          frameFirst := hc.frameFirst
          frameFin := hc.frameFin
          frameLat := hc.frameLat
          frameWatchers := hc.frameWatchers
          frameChains := hc.frameChains
          frameGuards := hc.frameGuards
          frameUuid := hc.frameUuid
          frameThreshold := hc.frameThreshold
          procSuper := ?_
          procSub := ?_
          sigsDichot := ?_
          sigsKeysNodup := hc.sigsKeysNodup
          sigsProcessed := ?_
          sigsInnerNodup := hc.sigsInnerNodup
          sigsInnerGuards := hc.sigsInnerGuards
          processedFull := ?_ }
      · intro x hx
        exact List.mem_append.2 (Or.inl (hc.procSuper x hx))
      · intro x hx
        rcases List.mem_append.1 hx with h' | h'
        · exact hc.procSub x h'
        · simp only [List.mem_singleton] at h'
          subst h'
          exact Or.inr hid
      · intro x
        rcases hc.sigsDichot x with h' | h'
        · exact Or.inl h'
        · exact Or.inr ⟨h'.1, h'.2.1,
            List.mem_append.2 (Or.inl h'.2.2)⟩
      · intro p hp'
        exact List.mem_append.2 (Or.inl (hc.sigsProcessed p hp'))
      · intro x hx g hg
        have hg2 : g ∈ sc.guards := hc.frameGuards ▸ hg
        rw [hguards] at hg2
        simp at hg2
    | false =>
      rw [if_neg (by simp), setA_eq_append extra (memA_false_iff.2 hprev)]
      have hlook : ∀ x, x ≠ id →
          lookupA (sc.guard_signatures ++ [(id, extra)]) x =
            lookupA sc.guard_signatures x :=
        fun x hx => lookupA_snoc_ne hx
      have hlookid : lookupA (sc.guard_signatures ++ [(id, extra)]) id =
          some extra := lookupA_snoc_self hprev
      refine ⟨?_, Or.inl (List.mem_append.2 (Or.inr (by simp)))⟩
      refine
        { framePending := hc.framePending
          frameFirst := hc.frameFirst
          frameFin := hc.frameFin
          frameLat := hc.frameLat
          frameWatchers := hc.frameWatchers
          frameChains := hc.frameChains
          frameGuards := hc.frameGuards
          frameUuid := hc.frameUuid
          frameThreshold := hc.frameThreshold
          procSuper := ?_
          procSub := ?_
          sigsDichot := ?_
          sigsKeysNodup := ?_
          sigsProcessed := ?_
          sigsInnerNodup := ?_
          sigsInnerGuards := ?_
          processedFull := ?_ }
      · intro x hx
        exact List.mem_append.2 (Or.inl (hc.procSuper x hx))
      · intro x hx
        rcases List.mem_append.1 hx with h' | h'
        · exact hc.procSub x h'
        · simp only [List.mem_singleton] at h'
          subst h'
          exact Or.inr hid
      · intro x
        by_cases hx : x = id
        · subst hx
          exact Or.inr ⟨hid2proc, hid, List.mem_append.2 (Or.inr (by simp))⟩
        · rw [hlook x hx]
          rcases hc.sigsDichot x with h' | h'
          · exact Or.inl h'
          · exact Or.inr ⟨h'.1, h'.2.1,
              List.mem_append.2 (Or.inl h'.2.2)⟩
      · rw [List.map_append]
        exact nodup_append_singleton hc.sigsKeysNodup
          (not_mem_keys_of_memA_false (memA_false_iff.2 hprev))
      · intro p hp'
        rcases List.mem_append.1 hp' with h' | h'
        · exact List.mem_append.2 (Or.inl (hc.sigsProcessed p h'))
        · simp only [List.mem_singleton] at h'
          rw [h']
          exact List.mem_append.2 (Or.inr (by simp))
      · intro x
        unfold sigsOf
        by_cases hx : x = id
        · subst hx
          rw [hlookid]
          exact hvnd
        · rw [hlook x hx]
          exact hc.sigsInnerNodup x
      · intro x q hq
        unfold sigsOf at hq
        by_cases hx : x = id
        · subst hx
          rw [hlookid] at hq
          simp only [Option.getD_some] at hq
          exact hc.frameGuards ▸ hvprops q hq
        · rw [hlook x hx] at hq
          exact hc.sigsInnerGuards x q hq
      · intro x hx g hg
        unfold sigsOf
        by_cases hxid : x = id
        · subst hxid
          rw [hlookid]
          simp only [Option.getD_some]
          exact hvcov g (hc.frameGuards ▸ hg)
        · rw [hlook x hxid]
          rcases List.mem_append.1 hx with h' | h'
          · exact hc.processedFull x h' g hg
          · simp only [List.mem_singleton] at h'
            exact absurd h' hxid

theorem verifyList_spec {s2 sc : SimState} {L : List EId} (hc : VerSpec s2 sc)
    (hL : ∀ id ∈ L, memA s2.pending_reports id = true)
    (hwf : ∀ p ∈ s2.pending_reports, p.2 ≠ [] ∧
      ∀ r ∈ p.2, r.event_id = p.1) :
    VerSpec s2 (verifyList sc L) ∧
      ∀ id ∈ L, id ∈ (verifyList sc L).processed_event_ids ∨
        id ∈ s2.finalized_events := by
  induction L generalizing sc with
  | nil => exact ⟨hc, by simp⟩
  | cons id rest ih =>
    have h1 := verifyOne_spec hc (hL id (List.mem_cons_self _ _)) hwf
    have h2 := ih h1.1 (fun x hx => hL x (List.mem_cons_of_mem _ hx))
    refine ⟨h2.1, ?_⟩
    intro x hx
    rcases List.mem_cons.1 hx with h' | h'
    · subst h'
      rcases h1.2 with h'' | h''
      · exact Or.inl (@verifyList_proc_mono (verifyOne sc x) rest x h'')
      · exact Or.inr h''
    · exact h2.2 x h'

theorem verSpec_refl (s2 : SimState)
    (h1 : (s2.guard_signatures.map Prod.fst).Nodup)
    (h2 : ∀ p ∈ s2.guard_signatures, p.1 ∈ s2.processed_event_ids)
    (h3 : ∀ id, ((sigsOf s2 id).map Prod.fst).Nodup)
    (h4 : ∀ id, ∀ q ∈ sigsOf s2 id, q.1 ∈ s2.guards.map Guard.guard_id)
    (h5 : ∀ id ∈ s2.processed_event_ids, ∀ g ∈ s2.guards,
      g.guard_id ∈ (sigsOf s2 id).map Prod.fst) : VerSpec s2 s2 where
  framePending := rfl
  frameFirst := rfl
  frameFin := rfl
  frameLat := rfl
  frameWatchers := rfl
  frameChains := rfl
  frameGuards := rfl
  frameUuid := rfl
  frameThreshold := rfl
  procSuper := fun _ hx => hx
  procSub := fun _ hx => Or.inl hx
  sigsDichot := fun _ => Or.inl rfl
  sigsKeysNodup := h1
  sigsProcessed := h2
  sigsInnerNodup := h3
  sigsInnerGuards := h4
  processedFull := h5

/-! ### Finalization phase lemmas -/

theorem finSpec_refl (s3 : SimState) : FinSpec s3 s3 [] where
  framePending := rfl
  frameSigs := rfl
  frameProc := rfl
  frameFirst := rfl
  frameWatchers := rfl
  frameChains := rfl
  frameGuards := rfl
  frameRng := rfl
  frameUuid := rfl
  frameThreshold := rfl
  finEq := (List.append_nil _).symm
  latNew := fun _ hx => Or.inl hx
  newlySigs := fun id hid => absurd hid (List.not_mem_nil id)

theorem finalizeOne_frames (sc : SimState) (n : Nat) (id : EId) :
    (finalizeOne sc n id).1.pending_reports = sc.pending_reports ∧
    (finalizeOne sc n id).1.guard_signatures = sc.guard_signatures ∧
    (finalizeOne sc n id).1.processed_event_ids = sc.processed_event_ids ∧
    (finalizeOne sc n id).1.event_first_reported_step =
      sc.event_first_reported_step ∧
    (finalizeOne sc n id).1.watchers = sc.watchers ∧
    (finalizeOne sc n id).1.blockchains = sc.blockchains ∧
    (finalizeOne sc n id).1.guards = sc.guards ∧
    (finalizeOne sc n id).1.rng = sc.rng ∧
    (finalizeOne sc n id).1.nextUuid = sc.nextUuid ∧
    (finalizeOne sc n id).1.guard_threshold = sc.guard_threshold := by
  refine ⟨?_, ?_, ?_, ?_, ?_, ?_, ?_, ?_, ?_, ?_⟩ <;>
  · simp only [finalizeOne]
    split
    · rfl
    · split
      · split
        · rfl
        · split
          · rfl
          · rfl
      · rfl

theorem finalizeOne_false {sc : SimState} {n : Nat} {id : EId}
    (h : (finalizeOne sc n id).2 = false) :
    (finalizeOne sc n id).1 = sc ∧
      (id ∈ sc.finalized_events ∨
        posCount (sigsOf sc id) < sc.guard_threshold) := by
  by_cases h1 : id ∈ sc.finalized_events
  · refine ⟨?_, Or.inl h1⟩
    simp only [finalizeOne]
    rw [if_pos h1]
  · by_cases h2 : sc.guard_threshold ≤ posCount (sigsOf sc id)
    · exfalso
      have ht : (finalizeOne sc n id).2 = true := by
        simp only [finalizeOne]
        rw [if_neg h1, if_pos h2]
      rw [h] at ht
      cases ht
    · refine ⟨?_, Or.inr (not_le.mp h2)⟩
      simp only [finalizeOne]
      rw [if_neg h1, if_neg h2]

theorem finalizeOne_true {sc : SimState} {n : Nat} {id : EId}
    (h : (finalizeOne sc n id).2 = true) :
    id ∉ sc.finalized_events ∧
    sc.guard_threshold ≤ posCount (sigsOf sc id) ∧
    (finalizeOne sc n id).1.finalized_events = sc.finalized_events ++ [id] ∧
    (finalizeOne sc n id).1.confirmation_latencies =
      sc.confirmation_latencies ++
        [(n : Int) -
          (((lookupA sc.event_first_reported_step id).getD n : Nat) : Int)] := by
  by_cases h1 : id ∈ sc.finalized_events
  · exfalso
    have hf : (finalizeOne sc n id).2 = false := by
      simp only [finalizeOne]
      rw [if_pos h1]
    rw [h] at hf
    cases hf
  · by_cases h2 : sc.guard_threshold ≤ posCount (sigsOf sc id)
    · refine ⟨h1, h2, ?_, ?_⟩ <;>
      · simp only [finalizeOne]
        rw [if_neg h1, if_pos h2]
        split
        · rfl
        · split
          · rfl
          · rfl
    · exfalso
      have hf : (finalizeOne sc n id).2 = false := by
        simp only [finalizeOne]
        rw [if_neg h1, if_neg h2]
      rw [h] at hf
      cases hf

theorem finalizeOne_spec {s3 sc : SimState} {n : Nat} {newly : List EId}
    {id : EId} (hf : FinSpec s3 sc newly)
    (hth : 1 ≤ s3.guard_threshold)
    (hfirstn : ∀ x, x ∉ s3.finalized_events →
      s3.guard_threshold ≤ posCount (sigsOf s3 x) →
      lookupA s3.event_first_reported_step x = some n) :
    FinSpec s3 (finalizeOne sc n id).1
      (newly ++ if (finalizeOne sc n id).2 then [id] else []) ∧
    (id ∈ (finalizeOne sc n id).1.finalized_events ∨
      posCount (sigsOf s3 id) < s3.guard_threshold) := by
  have hsigseq : sigsOf sc id = sigsOf s3 id := by
    unfold sigsOf
    rw [hf.frameSigs]
  cases hb : (finalizeOne sc n id).2 with
  | false =>
    obtain ⟨heq, hcase⟩ := finalizeOne_false hb
    rw [heq]
    simp only [Bool.false_eq_true, if_false, List.append_nil]
    refine ⟨hf, ?_⟩
    rcases hcase with h' | h'
    · exact Or.inl h'
    · right
      rw [← hsigseq, ← hf.frameThreshold]
      exact h'
  | true =>
    obtain ⟨hnotfin, hge, hfin, hlat⟩ := finalizeOne_true hb
    have hnotfin3 : id ∉ s3.finalized_events := by
      intro hh
      apply hnotfin
      rw [hf.finEq]
      exact List.mem_append.2 (Or.inl hh)
    have hge3 : s3.guard_threshold ≤ posCount (sigsOf s3 id) := by
      rw [← hsigseq, ← hf.frameThreshold]
      exact hge
    have hfirst := hfirstn id hnotfin3 hge3
    have hfirst' : lookupA sc.event_first_reported_step id = some n := by
      rw [hf.frameFirst]
      exact hfirst
    have hfr := finalizeOne_frames sc n id
    refine ⟨?_, Or.inl (by rw [hfin]; exact List.mem_append.2 (Or.inr (by simp)))⟩
    show FinSpec s3 (finalizeOne sc n id).1 (newly ++ [id])
    refine
      { framePending := hfr.1.trans hf.framePending
        frameSigs := hfr.2.1.trans hf.frameSigs
        frameProc := hfr.2.2.1.trans hf.frameProc
        frameFirst := hfr.2.2.2.1.trans hf.frameFirst
        frameWatchers := hfr.2.2.2.2.1.trans hf.frameWatchers
        frameChains := hfr.2.2.2.2.2.1.trans hf.frameChains
        frameGuards := hfr.2.2.2.2.2.2.1.trans hf.frameGuards
        frameRng := hfr.2.2.2.2.2.2.2.1.trans hf.frameRng
        frameUuid := hfr.2.2.2.2.2.2.2.2.1.trans hf.frameUuid
        frameThreshold := hfr.2.2.2.2.2.2.2.2.2.trans hf.frameThreshold
        finEq := ?_
        latNew := ?_
        newlySigs := ?_ }
    · rw [hfin, hf.finEq, List.append_assoc]
    · intro x hx
      rw [hlat] at hx
      rcases List.mem_append.1 hx with h' | h'
      · exact hf.latNew x h'
      · simp only [List.mem_singleton] at h'
        right
        rw [h', hfirst']
        simp
    · intro x hx
      rcases List.mem_append.1 hx with h' | h'
      · exact hf.newlySigs x h'
      · simp only [List.mem_singleton] at h'
        subst h'
        unfold memA
        cases hq : lookupA s3.guard_signatures x with
        | some v => rfl
        | none =>
          exfalso
          have : sigsOf s3 x = [] := by
            unfold sigsOf
            rw [hq]
            rfl
          rw [this] at hge3
          simp only [posCount, List.filter_nil, List.length_nil] at hge3
          exact absurd (le_trans hth hge3) (by simp)

theorem finalizeList_spec {s3 sc : SimState} {n : Nat} {newly : List EId}
    {L : List EId} (hf : FinSpec s3 sc newly)
    (hth : 1 ≤ s3.guard_threshold)
    (hfirstn : ∀ x, x ∉ s3.finalized_events →
      s3.guard_threshold ≤ posCount (sigsOf s3 x) →
      lookupA s3.event_first_reported_step x = some n) :
    FinSpec s3 (finalizeList sc n L).1 (newly ++ (finalizeList sc n L).2) ∧
    ∀ id ∈ L, id ∈ (finalizeList sc n L).1.finalized_events ∨
      posCount (sigsOf s3 id) < s3.guard_threshold := by
  induction L generalizing sc newly with
  | nil =>
    simp only [finalizeList, List.append_nil]
    exact ⟨hf, by simp⟩
  | cons id rest ih =>
    obtain ⟨h1, h2⟩ := finalizeOne_spec hf hth hfirstn
    obtain ⟨h3, h4⟩ := ih h1
    simp only [finalizeList]
    constructor
    · rw [List.append_assoc] at h3
      exact h3
    · intro x hx
      rcases List.mem_cons.1 hx with h' | h'
      · subst h'
        rcases h2 with h'' | h''
        · left
          have hmono : ∀ y ∈ (finalizeOne sc n x).1.finalized_events,
              y ∈ (finalizeList (finalizeOne sc n x).1 n rest).1.finalized_events := by
            intro y hy
            rw [h3.finEq]
            rw [h1.finEq] at hy
            rcases List.mem_append.1 hy with hz | hz
            · exact List.mem_append.2 (Or.inl hz)
            · exact List.mem_append.2 (Or.inr (List.mem_append.2 (Or.inl hz)))
          exact hmono x h''
        · exact Or.inr h''
      · exact h4 x h'

/-! ### Cleanup phase lemmas -/

theorem memA_false_of_sub {α β : Type} [DecidableEq α]
    {m m' : List (α × β)} (hsub : ∀ q ∈ m', q ∈ m) {a : α}
    (h : memA m a = false) : memA m' a = false := by
  cases hb : memA m' a with
  | false => rfl
  | true =>
    exfalso
    unfold memA at hb
    cases hq : lookupA m' a with
    | none => rw [hq] at hb; cases hb
    | some v =>
      have := memA_of_mem (hsub _ (lookupA_mem hq))
      rw [this] at h
      cases h

theorem erasePendingList_sub {p : List (EId × List ReportedEvent)}
    {newly : List EId} :
    ∀ q ∈ erasePendingList p newly, q ∈ p := by
  induction newly generalizing p with
  | nil => intro q hq; exact hq
  | cons id rest ih =>
    intro q hq
    simp only [erasePendingList] at hq
    have := ih q hq
    by_cases hm : memA p id = true
    · rw [if_pos hm] at this
      exact mem_eraseA this
    · rw [if_neg hm] at this
      exact this

theorem erasePendingList_nodup {p : List (EId × List ReportedEvent)}
    {newly : List EId} (hnd : (p.map Prod.fst).Nodup) :
    ((erasePendingList p newly).map Prod.fst).Nodup := by
  induction newly generalizing p with
  | nil => exact hnd
  | cons id rest ih =>
    simp only [erasePendingList]
    apply ih
    by_cases hm : memA p id = true
    · rw [if_pos hm]
      exact ((keys_eraseA_sublist p id).nodup hnd)
    · rw [if_neg hm]
      exact hnd

theorem erasePendingList_not_mem {p : List (EId × List ReportedEvent)}
    {newly : List EId} (hnd : (p.map Prod.fst).Nodup) :
    ∀ id ∈ newly, memA (erasePendingList p newly) id = false := by
  induction newly generalizing p with
  | nil => simp
  | cons x rest ih =>
    intro id hid
    simp only [erasePendingList]
    rcases List.mem_cons.1 hid with h' | h'
    · subst h'
      have h1 : memA (if memA p id = true then eraseA p id else p) id = false := by
        by_cases hm : memA p id = true
        · rw [if_pos hm]
          exact memA_eraseA_self hnd
        · rw [if_neg hm]
          exact Bool.eq_false_iff.mpr hm
      exact memA_false_of_sub erasePendingList_sub h1
    · apply ih _ id h'
      by_cases hm : memA p x = true
      · rw [if_pos hm]
        exact ((keys_eraseA_sublist p x).nodup hnd)
      · rw [if_neg hm]
        exact hnd

theorem erasePendingList_lookup {p : List (EId × List ReportedEvent)}
    {newly : List EId} :
    ∀ id, id ∉ newly →
      lookupA (erasePendingList p newly) id = lookupA p id := by
  induction newly generalizing p with
  | nil => intro id _; rfl
  | cons x rest ih =>
    intro id hid
    have hne : id ≠ x := fun hh => hid (hh ▸ List.mem_cons_self x rest)
    have hrest : id ∉ rest := fun hh => hid (List.mem_cons_of_mem _ hh)
    simp only [erasePendingList]
    rw [ih id hrest]
    by_cases hm : memA p x = true
    · rw [if_pos hm]
      exact lookupA_eraseA_ne hne
    · rw [if_neg hm]

/-! ### Invariant preservation through one simulation step -/

theorem forall2_mem_right {α β : Type} {R : α → β → Prop} {l₁ : List α}
    {l₂ : List β} (h : List.Forall₂ R l₁ l₂) :
    ∀ b ∈ l₂, ∃ a ∈ l₁, R a b := by
  induction h with
  | nil => simp
  | cons hr _ ih =>
    intro b hb
    rcases List.mem_cons.1 hb with h' | h'
    · exact ⟨_, List.mem_cons_self _ _, h' ▸ hr⟩
    · rcases ih b h' with ⟨a, ha, hra⟩
      exact ⟨a, List.mem_cons_of_mem _ ha, hra⟩

theorem sigsOf_congr {a b : SimState}
    (h : a.guard_signatures = b.guard_signatures) :
    ∀ x, sigsOf a x = sigsOf b x := by
  intro x
  unfold sigsOf
  rw [h]

theorem inv_step_assembled {s s1 s2 s3 s5 : SimState}
    {M : List ReportedEvent × List Watcher × Nat × List Nat}
    {F : SimState × List EId} {n : Nat} (hInv : SimInv s)
    (hM : M = monitorList s.blockchains s.watchers s.nextUuid s.rng)
    (hs1 : s1 =
      { s with
        watchers := M.2.1
        nextUuid := M.2.2.1
        rng := M.2.2.2 })
    (hs2 : s2 = collateList s1 n M.1)
    (hs3 : s3 = verifyPhase s2)
    (hF : F = finalizePhase s3 n)
    (hs5 : s5 =
      { F.1 with
        pending_reports := erasePendingList F.1.pending_reports F.2 }) :
    SimInv s5 := by
  -- phase 1: the watcher reports
  have hmon := monitorList_spec s.blockchains s.watchers s.nextUuid s.rng
    (NewId s)
    (fun m hm => NewId_of_fresh hInv hm)
    (fun w hw hmal id hid hseen => hInv.watcherFresh w hw hmal id hid hseen)
    (fun cid c hc q hq => hInv.boundChains (cid, c) (lookupA_mem hc) q hq)
    (fun cid c hc q hq => ((hInv.chainWF (cid, c) (lookupA_mem hc)).2 q hq).1)
  rw [← hM] at hmon
  obtain ⟨hu, hreps, hws⟩ := hmon
  -- basic equalities for the collation start state
  have hs1p : s1.pending_reports = s.pending_reports := by rw [hs1]
  have hs1f : s1.event_first_reported_step = s.event_first_reported_step := by
    rw [hs1]
  have hs1fin : s1.finalized_events = s.finalized_events := by rw [hs1]
  have hs1proc : s1.processed_event_ids = s.processed_event_ids := by rw [hs1]
  have hs1sig : s1.guard_signatures = s.guard_signatures := by rw [hs1]
  have hs1bc : s1.blockchains = s.blockchains := by rw [hs1]
  have hs1g : s1.guards = s.guards := by rw [hs1]
  have hs1th : s1.guard_threshold = s.guard_threshold := by rw [hs1]
  have hs1lat : s1.confirmation_latencies = s.confirmation_latencies := by
    rw [hs1]
  have hs1w : s1.watchers = M.2.1 := by rw [hs1]
  have hs1u : s1.nextUuid = M.2.2.1 := by rw [hs1]
  have hNew1 : ∀ r ∈ M.1, NewId s1 r.event_id := by
    intro r hr
    obtain ⟨h1, h2, h3, h4⟩ := (hreps r hr).1
    exact ⟨by rwa [hs1proc], by rwa [hs1fin], by rwa [hs1p], by rwa [hs1f]⟩
  -- phase 1 collation
  have hcoll : CollSpec s1 n
      (fun id => id ∈ M.1.map (fun r => r.event_id)) s2 := by
    rw [hs2]
    refine collateList_spec (collSpec_refl s1 n _ ?_ ?_ ?_) ?_
    · rw [hs1p]; exact hInv.pendingKeysNodup
    · rw [hs1f]; exact hInv.firstKeysNodup
    · rw [hs1p]; exact hInv.pendingWF
    · intro r hr
      exact ⟨hNew1 r hr, List.mem_map.2 ⟨r, hr, rfl⟩⟩
  have hRprops : ∀ id, id ∈ M.1.map (fun r => r.event_id) →
      NewId s id ∧ id.tok < M.2.2.1 := by
    intro id hid
    rcases List.mem_map.1 hid with ⟨r, hr, hr2⟩
    exact hr2 ▸ ⟨(hreps r hr).1, (hreps r hr).2⟩
  -- membership in the s2 pending buffer is bounded and fresh-or-old
  have hmem2 : ∀ x, memA s2.pending_reports x = true →
      memA s.pending_reports x = true ∨
        (NewId s x ∧ x.tok < M.2.2.1) := by
    intro x hx
    unfold memA at hx
    cases hq : lookupA s2.pending_reports x with
    | none => rw [hq] at hx; cases hx
    | some v =>
      rcases hcoll.pendingKeys _ (lookupA_mem hq) with h1 | h1
      · rw [hs1p] at h1
        exact Or.inl h1
      · exact Or.inr (hRprops x h1)
  have hbound2 : ∀ x, memA s2.pending_reports x = true →
      x.tok < M.2.2.1 := by
    intro x hx
    rcases hmem2 x hx with h1 | h1
    · unfold memA at h1
      cases hq : lookupA s.pending_reports x with
      | none => rw [hq] at h1; cases h1
      | some v =>
        exact lt_of_lt_of_le (hInv.boundPending _ (lookupA_mem hq)) hu
    · exact h1.2
  have hfin2 : ∀ x, memA s2.pending_reports x = true →
      x ∉ s.finalized_events := by
    intro x hx hmemfin
    rcases hmem2 x hx with h1 | h1
    · rw [hInv.finPending x hmemfin] at h1
      cases h1
    · exact h1.1.2.1 hmemfin
  -- phase 2: verification
  have hVbase : VerSpec s2 s2 := by
    refine verSpec_refl s2 ?_ ?_ ?_ ?_ ?_
    · rw [hcoll.frameSigs, hs1sig]; exact hInv.sigsKeysNodup
    · intro p hp
      rw [hcoll.frameSigs, hs1sig] at hp
      rw [hcoll.frameProc, hs1proc]
      exact hInv.sigsProcessed p hp
    · intro id
      rw [sigsOf_congr (hcoll.frameSigs.trans hs1sig) id]
      exact hInv.sigsInnerNodup id
    · intro id q hq
      rw [sigsOf_congr (hcoll.frameSigs.trans hs1sig) id] at hq
      rw [hcoll.frameGuards, hs1g]
      exact hInv.sigsInnerGuards id q hq
    · intro id hid g hg
      rw [hcoll.frameProc, hs1proc] at hid
      rw [hcoll.frameGuards, hs1g] at hg
      rw [sigsOf_congr (hcoll.frameSigs.trans hs1sig) id]
      exact hInv.processedFull id hid g hg
  have hver := @verifyList_spec s2 s2 (s2.pending_reports.map Prod.fst)
    hVbase (fun id hid => memA_iff_keys.2 hid) hcoll.pendingWF
  rw [show verifyList s2 (s2.pending_reports.map Prod.fst) = s3 by
    rw [hs3]; rfl] at hver
  obtain ⟨V, hcover⟩ := hver
  -- phase 3: finalization
  have hth3 : 1 ≤ s3.guard_threshold := by
    rw [V.frameThreshold, hcoll.frameThreshold, hs1th]
    exact hInv.thresholdPos
  have hfirstn : ∀ x, x ∉ s3.finalized_events →
      s3.guard_threshold ≤ posCount (sigsOf s3 x) →
      lookupA s3.event_first_reported_step x = some n := by
    intro x hxfin hge
    rcases V.sigsDichot x with heq | hnewx
    · exfalso
      have hsx : sigsOf s3 x = sigsOf s x := by
        unfold sigsOf
        rw [heq, hcoll.frameSigs, hs1sig]
      have hxs : x ∉ s.finalized_events := by
        rw [V.frameFin, hcoll.frameFin, hs1fin] at hxfin
        exact hxfin
      have hst := hInv.stuck x hxs
      rw [← hsx] at hst
      rw [V.frameThreshold, hcoll.frameThreshold, hs1th] at hge
      exact absurd (lt_of_le_of_lt hge hst) (lt_irrefl _)
    · obtain ⟨hxproc2, hxpend2, _⟩ := hnewx
      rcases hcoll.pendingNewFirst x hxpend2 with h1 | h1
      · exfalso
        rw [hs1p] at h1
        unfold memA at h1
        cases hq : lookupA s.pending_reports x with
        | none => rw [hq] at h1; cases h1
        | some v =>
          have := hInv.pendingProcessed _ (lookupA_mem hq)
          apply hxproc2
          rw [hcoll.frameProc, hs1proc]
          exact this
      · rw [V.frameFirst]
        exact h1
  have hfin := @finalizeList_spec s3 s3 n []
    (s3.guard_signatures.map Prod.fst) (finSpec_refl s3) hth3 hfirstn
  rw [show finalizeList s3 n (s3.guard_signatures.map Prod.fst) = F by
    rw [hF]; rfl] at hfin
  simp only [List.nil_append] at hfin
  obtain ⟨FS, hstuckCover⟩ := hfin
  -- equalities for the final state
  have f_pend : s5.pending_reports =
      erasePendingList F.1.pending_reports F.2 := by rw [hs5]
  have f_sigs : s5.guard_signatures = F.1.guard_signatures := by rw [hs5]
  have f_proc : s5.processed_event_ids = F.1.processed_event_ids := by
    rw [hs5]
  have f_first : s5.event_first_reported_step =
      F.1.event_first_reported_step := by rw [hs5]
  have f_fin : s5.finalized_events = F.1.finalized_events := by rw [hs5]
  have f_lat : s5.confirmation_latencies = F.1.confirmation_latencies := by
    rw [hs5]
  have f_bc : s5.blockchains = F.1.blockchains := by rw [hs5]
  have f_g : s5.guards = F.1.guards := by rw [hs5]
  have f_th : s5.guard_threshold = F.1.guard_threshold := by rw [hs5]
  have f_w : s5.watchers = F.1.watchers := by rw [hs5]
  have f_u : s5.nextUuid = F.1.nextUuid := by rw [hs5]
  have e_pend : F.1.pending_reports = s2.pending_reports := by
    rw [FS.framePending, V.framePending]
  have e_sigs : s5.guard_signatures = s3.guard_signatures := by
    rw [f_sigs, FS.frameSigs]
  have e_proc : s5.processed_event_ids = s3.processed_event_ids := by
    rw [f_proc, FS.frameProc]
  have e_first : s5.event_first_reported_step =
      s2.event_first_reported_step := by
    rw [f_first, FS.frameFirst, V.frameFirst]
  have e_bc : s5.blockchains = s.blockchains := by
    rw [f_bc, FS.frameChains, V.frameChains, hcoll.frameChains, hs1bc]
  have e_g : s5.guards = s.guards := by
    rw [f_g, FS.frameGuards, V.frameGuards, hcoll.frameGuards, hs1g]
  have e_th : s5.guard_threshold = s.guard_threshold := by
    rw [f_th, FS.frameThreshold, V.frameThreshold, hcoll.frameThreshold, hs1th]
  have e_w : s5.watchers = M.2.1 := by
    rw [f_w, FS.frameWatchers, V.frameWatchers, hcoll.frameWatchers, hs1w]
  have e_u : s5.nextUuid = M.2.2.1 := by
    rw [f_u, FS.frameUuid, V.frameUuid, hcoll.frameUuid, hs1u]
  have e_fin : s5.finalized_events = s.finalized_events ++ F.2 := by
    rw [f_fin, FS.finEq, V.frameFin, hcoll.frameFin, hs1fin]
  have e_lat : s5.confirmation_latencies = F.1.confirmation_latencies := f_lat
  have e_sigsOf : ∀ x, sigsOf s5 x = sigsOf s3 x := sigsOf_congr e_sigs
  -- processed ids of s3 are bounded and either old or were pending in s2
  have hproc3 : ∀ x ∈ s3.processed_event_ids,
      x ∈ s.processed_event_ids ∨ memA s2.pending_reports x = true := by
    intro x hx
    rcases V.procSub x hx with h1 | h1
    · rw [hcoll.frameProc, hs1proc] at h1
      exact Or.inl h1
    · exact Or.inr h1
  have hbound3 : ∀ x ∈ s3.processed_event_ids, x.tok < M.2.2.1 := by
    intro x hx
    rcases hproc3 x hx with h1 | h1
    · exact lt_of_lt_of_le (hInv.boundProc x h1) hu
    · exact hbound2 x h1
  have hbound_sigs3 : ∀ p ∈ s3.guard_signatures, p.1.tok < M.2.2.1 := by
    intro p hp
    exact hbound3 p.1 (V.sigsProcessed p hp)
  -- pending keys of s2 end up processed
  have hpendproc : ∀ x, memA s2.pending_reports x = true →
      x ∈ s3.processed_event_ids := by
    intro x hx
    have hxkeys : x ∈ s2.pending_reports.map Prod.fst := memA_iff_keys.1 hx
    rcases hcover x hxkeys with h1 | h1
    · exact h1
    · exfalso
      rw [hcoll.frameFin, hs1fin] at h1
      exact hfin2 x hx h1
  -- assemble the invariant for the final state
  refine
    { boundChains := ?_
      boundPending := ?_
      boundSigs := ?_
      boundFin := ?_
      boundProc := ?_
      boundFirst := ?_
      boundSeen := ?_
      chainWF := ?_
      pendingKeysNodup := ?_
      sigsKeysNodup := ?_
      firstKeysNodup := ?_
      pendingWF := ?_
      pendingProcessed := ?_
      sigsProcessed := ?_
      sigsInnerNodup := ?_
      sigsInnerGuards := ?_
      processedFull := ?_
      stuck := ?_
      thresholdPos := ?_
      finPending := ?_
      firstProcessed := ?_
      watcherFresh := ?_
      latencies := ?_ }
  · intro p hp q hq
    rw [e_bc] at hp
    rw [e_u]
    exact lt_of_lt_of_le (hInv.boundChains p hp q hq) hu
  · intro p hp
    rw [f_pend] at hp
    have hp2 := erasePendingList_sub p hp
    rw [e_pend] at hp2
    rw [e_u]
    exact hbound2 p.1 (memA_of_mem (show (p.1, p.2) ∈ _ by simpa using hp2))
  · intro p hp
    rw [e_sigs] at hp
    rw [e_u]
    exact hbound_sigs3 p hp
  · intro id hid
    rw [e_fin] at hid
    rw [e_u]
    rcases List.mem_append.1 hid with h1 | h1
    · exact lt_of_lt_of_le (hInv.boundFin id h1) hu
    · have hm3 := FS.newlySigs id h1
      unfold memA at hm3
      cases hq : lookupA s3.guard_signatures id with
      | none => rw [hq] at hm3; cases hm3
      | some v => exact hbound_sigs3 _ (lookupA_mem hq)
  · intro id hid
    rw [e_proc] at hid
    rw [e_u]
    exact hbound3 id hid
  · intro p hp
    rw [e_first] at hp
    rw [e_u]
    rcases hcoll.firstEntries p hp with h1 | h1
    · rw [hs1f] at h1
      exact lt_of_lt_of_le (hInv.boundFirst p h1) hu
    · exact (hRprops p.1 h1.1).2
  · intro w hw id hid
    rw [e_w] at hw
    rw [e_u]
    rcases forall2_mem_right hws w hw with ⟨w0, hw0, hstep⟩
    rcases hstep.2.2.2.2.1 id hid with h1 | h1
    · exact lt_of_lt_of_le (hInv.boundSeen w0 hw0 id h1) hu
    · simp only [chainIdsOf] at h1
      cases hc : lookupA s.blockchains w0.monitored_chain_id with
      | none => rw [hc] at h1; simp at h1
      | some c =>
        rw [hc] at h1
        simp only [SimpleBlockchain.get_all_event_ids] at h1
        rcases List.mem_map.1 h1 with ⟨q, hq, hq2⟩
        rw [← hq2]
        exact lt_of_lt_of_le
          (hInv.boundChains _ (lookupA_mem hc) q hq) hu
  · intro p hp
    rw [e_bc] at hp
    exact hInv.chainWF p hp
  · rw [f_pend]
    apply erasePendingList_nodup
    rw [e_pend]
    exact hcoll.pendingNodup
  · rw [e_sigs]
    exact V.sigsKeysNodup
  · rw [e_first]
    exact hcoll.firstNodup
  · intro p hp
    rw [f_pend] at hp
    have hp2 := erasePendingList_sub p hp
    rw [e_pend] at hp2
    exact hcoll.pendingWF p hp2
  · intro p hp
    rw [f_pend] at hp
    have hp2 := erasePendingList_sub p hp
    rw [e_pend] at hp2
    rw [e_proc]
    exact hpendproc p.1
      (memA_of_mem (show (p.1, p.2) ∈ _ by simpa using hp2))
  · intro p hp
    rw [e_sigs] at hp
    rw [e_proc]
    exact V.sigsProcessed p hp
  · intro id
    rw [e_sigsOf id]
    exact V.sigsInnerNodup id
  · intro id q hq
    rw [e_sigsOf id] at hq
    rw [e_g]
    have hg2 := V.sigsInnerGuards id q hq
    rw [hcoll.frameGuards, hs1g] at hg2
    exact hg2
  · intro id hid g hg
    rw [e_proc] at hid
    rw [e_g] at hg
    rw [e_sigsOf id]
    refine V.processedFull id hid g ?_
    rw [hcoll.frameGuards, hs1g]
    exact hg
  · intro id hid
    rw [e_fin] at hid
    rw [e_sigsOf id, e_th]
    by_cases hkeys : id ∈ s3.guard_signatures.map Prod.fst
    · rcases hstuckCover id hkeys with h1 | h1
      · exfalso
        apply hid
        rw [FS.finEq, V.frameFin, hcoll.frameFin, hs1fin] at h1
        exact h1
      · rw [V.frameThreshold, hcoll.frameThreshold, hs1th] at h1
        exact h1
    · have hz : sigsOf s3 id = [] := by
        unfold sigsOf
        cases hq : lookupA s3.guard_signatures id with
        | none => rfl
        | some v =>
          exact absurd (List.mem_map.2 ⟨_, lookupA_mem hq, rfl⟩) hkeys
      rw [hz]
      simp only [posCount, List.filter_nil, List.length_nil]
      exact hInv.thresholdPos
  · rw [e_th]
    exact hInv.thresholdPos
  · intro id hid
    rw [e_fin] at hid
    rw [f_pend]
    rcases List.mem_append.1 hid with h1 | h1
    · have hmem2false : memA s2.pending_reports id = false := by
        cases hb : memA s2.pending_reports id with
        | false => rfl
        | true => exact absurd h1 (hfin2 id hb)
      apply memA_false_of_sub erasePendingList_sub
      rw [e_pend]
      exact hmem2false
    · apply erasePendingList_not_mem
      · rw [e_pend]
        exact hcoll.pendingNodup
      · exact h1
  · intro p hp
    rw [e_first] at hp
    rw [e_proc]
    rcases hcoll.firstEntries p hp with h1 | h1
    · rw [hs1f] at h1
      have hpp := hInv.firstProcessed p h1
      apply V.procSuper
      rw [hcoll.frameProc, hs1proc]
      exact hpp
    · rcases hcoll.firstPendOld p hp with h2 | h2
      · rw [hs1f] at h2
        have hpp := hInv.firstProcessed p h2
        apply V.procSuper
        rw [hcoll.frameProc, hs1proc]
        exact hpp
      · exact hpendproc p.1 h2
  · intro w hw hmal id hid hseen
    exfalso
    rw [e_w] at hw
    rcases forall2_mem_right hws w hw with ⟨w0, hw0, hstep⟩
    have hmal0 : w0.is_malicious = false := by
      rw [← hstep.2.2.1]
      exact hmal
    have hchain : chainIdsOf s5.blockchains w.monitored_chain_id =
        chainIdsOf s.blockchains w0.monitored_chain_id := by
      simp only [chainIdsOf]
      rw [e_bc, hstep.2.1]
    rw [hchain] at hid
    exact hseen (hstep.2.2.2.2.2 hmal0 id hid)
  · intro x hx
    rw [e_lat] at hx
    rcases FS.latNew x hx with h1 | h1
    · rw [V.frameLat, hcoll.frameLat, hs1lat] at h1
      exact hInv.latencies x h1
    · exact h1

theorem inv_step {s : SimState} (hInv : SimInv s) (n : Nat) :
    SimInv (run_simulation_step s n) :=
  inv_step_assembled hInv rfl rfl rfl rfl rfl rfl

/-! ### Invariant preservation through triggers and setup -/

theorem trigger_none_eq {s : SimState} {src tgt : String} {d : Payload}
    (h : lookupA s.blockchains src = none) :
    trigger_event s src tgt d = (none, s) := by
  simp only [trigger_event]
  rw [h]

theorem trigger_some_eq {s : SimState} {src tgt : String} {d : Payload}
    {c : SimpleBlockchain} (h : lookupA s.blockchains src = some c) :
    trigger_event s src tgt d =
      (some (c.add_event s.nextUuid tgt d).1,
        { s with
          blockchains := setA s.blockchains src (c.add_event s.nextUuid tgt d).2
          nextUuid := s.nextUuid + 1
          stats_valid_events_created := s.stats_valid_events_created + 1 }) := by
  simp only [trigger_event]
  rw [h]

theorem inv_trigger {s : SimState} (hInv : SimInv s) (src tgt : String)
    (d : Payload) : SimInv (trigger_event s src tgt d).2 := by
  cases hc : lookupA s.blockchains src with
  | none =>
    rw [trigger_none_eq hc]
    exact hInv
  | some c =>
    rw [trigger_some_eq hc]
    have hcwf := hInv.chainWF (src, c) (lookupA_mem hc)
    have hcbound := hInv.boundChains (src, c) (lookupA_mem hc)
    have hadd : (c.add_event s.nextUuid tgt d).2.events =
        c.events ++ [(EId.real s.nextUuid,
          ⟨EId.real s.nextUuid, c.chain_id, tgt, d, true⟩)] := rfl
    refine
      { boundChains := ?_
        boundPending := ?_
        boundSigs := ?_
        boundFin := ?_
        boundProc := ?_
        boundFirst := ?_
        boundSeen := ?_
        chainWF := ?_
        pendingKeysNodup := hInv.pendingKeysNodup
        sigsKeysNodup := hInv.sigsKeysNodup
        firstKeysNodup := hInv.firstKeysNodup
        pendingWF := hInv.pendingWF
        pendingProcessed := hInv.pendingProcessed
        sigsProcessed := hInv.sigsProcessed
        sigsInnerNodup := hInv.sigsInnerNodup
        sigsInnerGuards := hInv.sigsInnerGuards
        processedFull := hInv.processedFull
        stuck := hInv.stuck
        thresholdPos := hInv.thresholdPos
        finPending := hInv.finPending
        firstProcessed := hInv.firstProcessed
        watcherFresh := ?_
        latencies := hInv.latencies }
    · intro p hp q hq
      rcases mem_setA hp with h1 | h1
      · exact lt_trans (hInv.boundChains p h1 q hq) (Nat.lt_succ_self _)
      · rw [h1] at hq
        rw [hadd] at hq
        rcases List.mem_append.1 hq with h2 | h2
        · exact lt_trans (hcbound q h2) (Nat.lt_succ_self _)
        · simp only [List.mem_singleton] at h2
          rw [h2]
          exact Nat.lt_succ_self _
    · intro p hp
      exact lt_trans (hInv.boundPending p hp) (Nat.lt_succ_self _)
    · intro p hp
      exact lt_trans (hInv.boundSigs p hp) (Nat.lt_succ_self _)
    · intro id hid
      exact lt_trans (hInv.boundFin id hid) (Nat.lt_succ_self _)
    · intro id hid
      exact lt_trans (hInv.boundProc id hid) (Nat.lt_succ_self _)
    · intro p hp
      exact lt_trans (hInv.boundFirst p hp) (Nat.lt_succ_self _)
    · intro w hw id hid
      exact lt_trans (hInv.boundSeen w hw id hid) (Nat.lt_succ_self _)
    · intro p hp
      rcases mem_setA hp with h1 | h1
      · exact hInv.chainWF p h1
      · rw [h1, hadd]
        constructor
        · rw [List.map_append]
          refine nodup_append_singleton hcwf.1 ?_
          intro hk
          rcases List.mem_map.1 hk with ⟨q, hq, hq2⟩
          have := hcbound q hq
          rw [hq2] at this
          simp only [EId.tok] at this
          exact absurd this (lt_irrefl _)
        · intro q hq
          rcases List.mem_append.1 hq with h2 | h2
          · exact hcwf.2 q h2
          · simp only [List.mem_singleton] at h2
            rw [h2]
            exact ⟨rfl, rfl⟩
    · intro w hw hmal id hid hseen
      have hNew : NewId s id := by
        by_cases hch : w.monitored_chain_id = src
        · rw [hch] at hid
          simp only [chainIdsOf, lookupA_setA_self] at hid
          simp only [SimpleBlockchain.get_all_event_ids, hadd,
            List.map_append] at hid
          rcases List.mem_append.1 hid with h1 | h1
          · apply hInv.watcherFresh w hw hmal id _ hseen
            rw [hch]
            simp only [chainIdsOf, hc, SimpleBlockchain.get_all_event_ids]
            exact h1
          · simp only [List.map_cons, List.map_nil,
              List.mem_singleton] at h1
            apply NewId_of_fresh hInv
            rw [h1]
            exact le_refl _
        · apply hInv.watcherFresh w hw hmal id _ hseen
          simp only [chainIdsOf] at hid ⊢
          rw [lookupA_setA_ne hch] at hid
          exact hid
      exact hNew

theorem inv_of_initial {s : SimState}
    (h1 : s.pending_reports = [])
    (h2 : s.guard_signatures = [])
    (h3 : s.finalized_events = [])
    (h4 : s.processed_event_ids = [])
    (h5 : s.event_first_reported_step = [])
    (h6 : s.confirmation_latencies = [])
    (h7 : ∀ p ∈ s.blockchains, p.2.events = [])
    (h8 : ∀ w ∈ s.watchers, w.seen_event_ids = [])
    (h9 : 1 ≤ s.guard_threshold) : SimInv s := by
  have hsigsOf : ∀ id, sigsOf s id = [] := by
    intro id
    unfold sigsOf
    rw [h2]
    rfl
  refine
    { boundChains := ?_
      boundPending := by rw [h1]; simp
      boundSigs := by rw [h2]; simp
      boundFin := by rw [h3]; simp
      boundProc := by rw [h4]; simp
      boundFirst := by rw [h5]; simp
      boundSeen := ?_
      chainWF := ?_
      pendingKeysNodup := by rw [h1]; simp
      sigsKeysNodup := by rw [h2]; simp
      firstKeysNodup := by rw [h5]; simp
      pendingWF := by rw [h1]; simp
      pendingProcessed := by rw [h1]; simp
      sigsProcessed := by rw [h2]; simp
      sigsInnerNodup := ?_
      sigsInnerGuards := ?_
      processedFull := by rw [h4]; simp
      stuck := ?_
      thresholdPos := h9
      finPending := by rw [h3]; simp
      firstProcessed := by rw [h5]; simp
      watcherFresh := ?_
      latencies := by rw [h6]; simp }
  · intro p hp q hq
    rw [h7 p hp] at hq
    simp at hq
  · intro w hw id hid
    rw [h8 w hw] at hid
    simp at hid
  · intro p hp
    rw [h7 p hp]
    simp
  · intro id
    rw [hsigsOf id]
    simp
  · intro id q hq
    rw [hsigsOf id] at hq
    simp at hq
  · intro id hid
    rw [hsigsOf id]
    simp only [posCount, List.filter_nil, List.length_nil]
    exact h9
  · intro w hw hmal id hid hseen
    exfalso
    simp only [chainIdsOf] at hid
    cases hc : lookupA s.blockchains w.monitored_chain_id with
    | none => rw [hc] at hid; simp at hid
    | some c =>
      rw [hc] at hid
      simp only [SimpleBlockchain.get_all_event_ids] at hid
      rw [h7 (w.monitored_chain_id, c) (lookupA_mem hc)] at hid
      simp at hid

theorem chainsFold_empty (L : List String)
    (m : List (String × SimpleBlockchain))
    (hm : ∀ p ∈ m, p.2.events = []) :
    ∀ p ∈ L.foldl (fun m cid => setA m cid ⟨cid, []⟩) m, p.2.events = [] := by
  induction L generalizing m with
  | nil => exact hm
  | cons cid rest ih =>
    refine ih _ ?_
    intro p hp
    rcases mem_setA hp with h1 | h1
    · exact hm p h1
    · rw [h1]

theorem setupWatchers_seen (av : List SimpleBlockchain) (mal picks : List Nat) :
    ∀ k, ∀ w ∈ setupWatchers av mal picks k, w.seen_event_ids = [] := by
  intro k
  induction k with
  | zero => simp [setupWatchers]
  | succ m ih =>
    intro w hw
    simp only [setupWatchers] at hw
    rcases List.mem_append.1 hw with h1 | h1
    · exact ih w h1
    · simp only [List.mem_singleton] at h1
      rw [h1]

theorem mkSimulation_threshold_pos (cfg : Config) (rng : List Nat) :
    1 ≤ (mkSimulation cfg rng).guard_threshold := by
  show 1 ≤ (max 1 (ratTrunc (floatMul (floatOfNat cfg.num_guards)
    cfg.guard_threshold_ratio))).toNat
  have h1 : (1 : Int) ≤ max 1 (ratTrunc (floatMul (floatOfNat cfg.num_guards)
      cfg.guard_threshold_ratio)) := le_max_left _ _
  exact Int.toNat_le_toNat h1

theorem setup_eq_empty {s : SimState} {chain_ids : List String}
    {mw mg picks : List Nat}
    (h : ((chain_ids.foldl (fun m cid => setA m cid ⟨cid, []⟩)
      s.blockchains)).isEmpty = true) :
    setup s chain_ids mw mg picks =
      { s with blockchains :=
          chain_ids.foldl (fun m cid => setA m cid ⟨cid, []⟩) s.blockchains } := by
  simp only [setup]
  rw [if_pos h]

theorem setup_eq_nonempty {s : SimState} {chain_ids : List String}
    {mw mg picks : List Nat}
    (h : ((chain_ids.foldl (fun m cid => setA m cid ⟨cid, []⟩)
      s.blockchains)).isEmpty = false) :
    setup s chain_ids mw mg picks =
      { s with
        blockchains :=
          chain_ids.foldl (fun m cid => setA m cid ⟨cid, []⟩) s.blockchains
        watchers := s.watchers ++
          setupWatchers ((chain_ids.foldl (fun m cid => setA m cid ⟨cid, []⟩)
            s.blockchains).map Prod.snd) mw picks s.num_watchers
        guards := s.guards ++ setupGuards mg s.num_guards } := by
  simp only [setup]
  rw [if_neg (by simp [h])]

theorem inv_init (cfg : Config) (rng : List Nat) (chain_ids : List String)
    (mw mg picks : List Nat) :
    SimInv (setup (mkSimulation cfg rng) chain_ids mw mg picks) := by
  have hchains := chainsFold_empty chain_ids
    (mkSimulation cfg rng).blockchains (by simp [mkSimulation])
  cases hb : ((chain_ids.foldl (fun m cid => setA m cid ⟨cid, []⟩)
      (mkSimulation cfg rng).blockchains)).isEmpty with
  | true =>
    rw [setup_eq_empty hb]
    refine inv_of_initial rfl rfl rfl rfl rfl rfl hchains ?_
      (mkSimulation_threshold_pos cfg rng)
    intro w hw
    simp [mkSimulation] at hw
  | false =>
    rw [setup_eq_nonempty hb]
    refine inv_of_initial rfl rfl rfl rfl rfl rfl hchains ?_
      (mkSimulation_threshold_pos cfg rng)
    intro w hw
    simp only [List.mem_append] at hw
    rcases hw with h1 | h1
    · simp [mkSimulation] at h1
    · exact setupWatchers_seen _ mw picks _ w h1

theorem reachable_inv {s : SimState} (h : Reachable s) : SimInv s := by
  induction h with
  | init cfg rng chain_ids mw mg picks => exact inv_init cfg rng chain_ids mw mg picks
  | next _ ht ih =>
    cases ht with
    | trigger src tgt d => exact inv_trigger ih src tgt d
    | step n => exact inv_step ih n

/-! ### Frame lemmas over arbitrary states -/

theorem collateOne_frames (s : SimState) (n : Nat) (r : ReportedEvent) :
    (collateOne s n r).guard_signatures = s.guard_signatures ∧
    (collateOne s n r).processed_event_ids = s.processed_event_ids ∧
    (collateOne s n r).finalized_events = s.finalized_events ∧
    (collateOne s n r).guards = s.guards ∧
    (collateOne s n r).watchers = s.watchers ∧
    (collateOne s n r).blockchains = s.blockchains ∧
    (collateOne s n r).confirmation_latencies = s.confirmation_latencies ∧
    (collateOne s n r).nextUuid = s.nextUuid ∧
    (collateOne s n r).rng = s.rng ∧
    (collateOne s n r).guard_threshold = s.guard_threshold := by
  cases hcnd : (!memA s.pending_reports r.event_id &&
      !decide (r.event_id ∈ s.finalized_events) &&
      !decide (r.event_id ∈ s.processed_event_ids) &&
      !memA s.event_first_reported_step r.event_id) with
  | true =>
    rw [collateOne_eq_pos hcnd]
    exact ⟨rfl, rfl, rfl, rfl, rfl, rfl, rfl, rfl, rfl, rfl⟩
  | false =>
    rw [collateOne_eq_neg hcnd]
    exact ⟨rfl, rfl, rfl, rfl, rfl, rfl, rfl, rfl, rfl, rfl⟩

theorem collateList_frames (s : SimState) (n : Nat)
    (rs : List ReportedEvent) :
    (collateList s n rs).guard_signatures = s.guard_signatures ∧
    (collateList s n rs).processed_event_ids = s.processed_event_ids ∧
    (collateList s n rs).finalized_events = s.finalized_events ∧
    (collateList s n rs).guards = s.guards ∧
    (collateList s n rs).watchers = s.watchers ∧
    (collateList s n rs).blockchains = s.blockchains ∧
    (collateList s n rs).confirmation_latencies = s.confirmation_latencies ∧
    (collateList s n rs).nextUuid = s.nextUuid ∧
    (collateList s n rs).rng = s.rng ∧
    (collateList s n rs).guard_threshold = s.guard_threshold := by
  induction rs generalizing s with
  | nil => exact ⟨rfl, rfl, rfl, rfl, rfl, rfl, rfl, rfl, rfl, rfl⟩
  | cons r rest ih =>
    have h1 := collateOne_frames s n r
    have h2 := ih (collateOne s n r)
    simp only [collateList]
    refine ⟨h2.1.trans h1.1, h2.2.1.trans h1.2.1, h2.2.2.1.trans h1.2.2.1,
      h2.2.2.2.1.trans h1.2.2.2.1, h2.2.2.2.2.1.trans h1.2.2.2.2.1,
      h2.2.2.2.2.2.1.trans h1.2.2.2.2.2.1,
      h2.2.2.2.2.2.2.1.trans h1.2.2.2.2.2.2.1,
      h2.2.2.2.2.2.2.2.1.trans h1.2.2.2.2.2.2.2.1,
      h2.2.2.2.2.2.2.2.2.1.trans h1.2.2.2.2.2.2.2.2.1,
      h2.2.2.2.2.2.2.2.2.2.trans h1.2.2.2.2.2.2.2.2.2⟩

theorem verifyOne_frames (s : SimState) (id : EId) :
    (verifyOne s id).pending_reports = s.pending_reports ∧
    (verifyOne s id).event_first_reported_step =
      s.event_first_reported_step ∧
    (verifyOne s id).finalized_events = s.finalized_events ∧
    (verifyOne s id).confirmation_latencies = s.confirmation_latencies ∧
    (verifyOne s id).watchers = s.watchers ∧
    (verifyOne s id).blockchains = s.blockchains ∧
    (verifyOne s id).guards = s.guards ∧
    (verifyOne s id).nextUuid = s.nextUuid ∧
    (verifyOne s id).guard_threshold = s.guard_threshold := by
  by_cases h : id ∈ s.finalized_events ∨ id ∈ s.processed_event_ids
  · rw [verifyOne_eq_skip h]
    exact ⟨rfl, rfl, rfl, rfl, rfl, rfl, rfl, rfl, rfl⟩
  · cases hp : (lookupA s.pending_reports id).getD [] with
    | nil =>
      rw [verifyOne_eq_empty h hp]
      exact ⟨rfl, rfl, rfl, rfl, rfl, rfl, rfl, rfl, rfl⟩
    | cons rep rest =>
      rw [verifyOne_eq_run h hp]
      exact ⟨rfl, rfl, rfl, rfl, rfl, rfl, rfl, rfl, rfl⟩

theorem verifyList_frames (s : SimState) (L : List EId) :
    (verifyList s L).pending_reports = s.pending_reports ∧
    (verifyList s L).event_first_reported_step =
      s.event_first_reported_step ∧
    (verifyList s L).finalized_events = s.finalized_events ∧
    (verifyList s L).confirmation_latencies = s.confirmation_latencies ∧
    (verifyList s L).watchers = s.watchers ∧
    (verifyList s L).blockchains = s.blockchains ∧
    (verifyList s L).guards = s.guards ∧
    (verifyList s L).nextUuid = s.nextUuid ∧
    (verifyList s L).guard_threshold = s.guard_threshold := by
  induction L generalizing s with
  | nil => exact ⟨rfl, rfl, rfl, rfl, rfl, rfl, rfl, rfl, rfl⟩
  | cons id rest ih =>
    have h1 := verifyOne_frames s id
    have h2 := ih (verifyOne s id)
    simp only [verifyList]
    refine ⟨h2.1.trans h1.1, h2.2.1.trans h1.2.1, h2.2.2.1.trans h1.2.2.1,
      h2.2.2.2.1.trans h1.2.2.2.1, h2.2.2.2.2.1.trans h1.2.2.2.2.1,
      h2.2.2.2.2.2.1.trans h1.2.2.2.2.2.1,
      h2.2.2.2.2.2.2.1.trans h1.2.2.2.2.2.2.1,
      h2.2.2.2.2.2.2.2.1.trans h1.2.2.2.2.2.2.2.1,
      h2.2.2.2.2.2.2.2.2.trans h1.2.2.2.2.2.2.2.2⟩

theorem finalizeList_frames (s : SimState) (n : Nat) (L : List EId) :
    (finalizeList s n L).1.pending_reports = s.pending_reports ∧
    (finalizeList s n L).1.guard_signatures = s.guard_signatures ∧
    (finalizeList s n L).1.processed_event_ids = s.processed_event_ids ∧
    (finalizeList s n L).1.event_first_reported_step =
      s.event_first_reported_step ∧
    (finalizeList s n L).1.watchers = s.watchers ∧
    (finalizeList s n L).1.blockchains = s.blockchains ∧
    (finalizeList s n L).1.guards = s.guards ∧
    (finalizeList s n L).1.rng = s.rng ∧
    (finalizeList s n L).1.nextUuid = s.nextUuid ∧
    (finalizeList s n L).1.guard_threshold = s.guard_threshold := by
  induction L generalizing s with
  | nil => exact ⟨rfl, rfl, rfl, rfl, rfl, rfl, rfl, rfl, rfl, rfl⟩
  | cons id rest ih =>
    have h1 := finalizeOne_frames s n id
    have h2 := ih (finalizeOne s n id).1
    simp only [finalizeList]
    refine ⟨h2.1.trans h1.1, h2.2.1.trans h1.2.1, h2.2.2.1.trans h1.2.2.1,
      h2.2.2.2.1.trans h1.2.2.2.1, h2.2.2.2.2.1.trans h1.2.2.2.2.1,
      h2.2.2.2.2.2.1.trans h1.2.2.2.2.2.1,
      h2.2.2.2.2.2.2.1.trans h1.2.2.2.2.2.2.1,
      h2.2.2.2.2.2.2.2.1.trans h1.2.2.2.2.2.2.2.1,
      h2.2.2.2.2.2.2.2.2.1.trans h1.2.2.2.2.2.2.2.2.1,
      h2.2.2.2.2.2.2.2.2.2.trans h1.2.2.2.2.2.2.2.2.2⟩

theorem step_frames (s : SimState) (n : Nat) :
    (run_simulation_step s n).guards = s.guards ∧
    (run_simulation_step s n).blockchains = s.blockchains ∧
    (run_simulation_step s n).guard_threshold = s.guard_threshold := by
  have hM : run_simulation_step s n =
      { (finalizePhase (verifyPhase (collateList
          { s with
            watchers := (monitorList s.blockchains s.watchers s.nextUuid
              s.rng).2.1
            nextUuid := (monitorList s.blockchains s.watchers s.nextUuid
              s.rng).2.2.1
            rng := (monitorList s.blockchains s.watchers s.nextUuid
              s.rng).2.2.2 } n
          (monitorList s.blockchains s.watchers s.nextUuid s.rng).1)) n).1 with
        pending_reports := erasePendingList
          (finalizePhase (verifyPhase (collateList
            { s with
              watchers := (monitorList s.blockchains s.watchers s.nextUuid
                s.rng).2.1
              nextUuid := (monitorList s.blockchains s.watchers s.nextUuid
                s.rng).2.2.1
              rng := (monitorList s.blockchains s.watchers s.nextUuid
                s.rng).2.2.2 } n
            (monitorList s.blockchains s.watchers s.nextUuid s.rng).1)) n).1.pending_reports
          (finalizePhase (verifyPhase (collateList
            { s with
              watchers := (monitorList s.blockchains s.watchers s.nextUuid
                s.rng).2.1
              nextUuid := (monitorList s.blockchains s.watchers s.nextUuid
                s.rng).2.2.1
              rng := (monitorList s.blockchains s.watchers s.nextUuid
                s.rng).2.2.2 } n
            (monitorList s.blockchains s.watchers s.nextUuid s.rng).1)) n).2 } :=
    rfl
  rw [hM]
  have hc := collateList_frames
    { s with
      watchers := (monitorList s.blockchains s.watchers s.nextUuid s.rng).2.1
      nextUuid := (monitorList s.blockchains s.watchers s.nextUuid s.rng).2.2.1
      rng := (monitorList s.blockchains s.watchers s.nextUuid s.rng).2.2.2 } n
    (monitorList s.blockchains s.watchers s.nextUuid s.rng).1
  have hv := verifyList_frames (collateList
    { s with
      watchers := (monitorList s.blockchains s.watchers s.nextUuid s.rng).2.1
      nextUuid := (monitorList s.blockchains s.watchers s.nextUuid s.rng).2.2.1
      rng := (monitorList s.blockchains s.watchers s.nextUuid s.rng).2.2.2 } n
    (monitorList s.blockchains s.watchers s.nextUuid s.rng).1)
    ((collateList
      { s with
        watchers := (monitorList s.blockchains s.watchers s.nextUuid s.rng).2.1
        nextUuid := (monitorList s.blockchains s.watchers s.nextUuid s.rng).2.2.1
        rng := (monitorList s.blockchains s.watchers s.nextUuid s.rng).2.2.2 } n
      (monitorList s.blockchains s.watchers s.nextUuid s.rng).1).pending_reports.map
        Prod.fst)
  have hfz := finalizeList_frames (verifyPhase (collateList
    { s with
      watchers := (monitorList s.blockchains s.watchers s.nextUuid s.rng).2.1
      nextUuid := (monitorList s.blockchains s.watchers s.nextUuid s.rng).2.2.1
      rng := (monitorList s.blockchains s.watchers s.nextUuid s.rng).2.2.2 } n
    (monitorList s.blockchains s.watchers s.nextUuid s.rng).1)) n
    ((verifyPhase (collateList
      { s with
        watchers := (monitorList s.blockchains s.watchers s.nextUuid s.rng).2.1
        nextUuid := (monitorList s.blockchains s.watchers s.nextUuid s.rng).2.2.1
        rng := (monitorList s.blockchains s.watchers s.nextUuid s.rng).2.2.2 } n
      (monitorList s.blockchains s.watchers s.nextUuid s.rng).1)).guard_signatures.map
        Prod.fst)
  refine ⟨?_, ?_, ?_⟩
  · exact (hfz.2.2.2.2.2.2.1).trans ((hv.2.2.2.2.2.2.1).trans hc.2.2.2.1)
  · exact (hfz.2.2.2.2.2.1).trans ((hv.2.2.2.2.2.1).trans hc.2.2.2.2.2.1)
  · exact (hfz.2.2.2.2.2.2.2.2.2).trans
      ((hv.2.2.2.2.2.2.2.2).trans hc.2.2.2.2.2.2.2.2.2)

/-! ### Transport lemmas along transitions and runs -/

theorem run_step_eq (s : SimState) (n : Nat) :
    run_simulation_step s n =
      { (stepFin s n).1 with
        pending_reports := erasePendingList (stepFin s n).1.pending_reports
          (stepFin s n).2 } := rfl

theorem trigger_frames (s : SimState) (src tgt : String) (d : Payload) :
    (trigger_event s src tgt d).2.pending_reports = s.pending_reports ∧
    (trigger_event s src tgt d).2.guard_signatures = s.guard_signatures ∧
    (trigger_event s src tgt d).2.finalized_events = s.finalized_events ∧
    (trigger_event s src tgt d).2.processed_event_ids =
      s.processed_event_ids ∧
    (trigger_event s src tgt d).2.event_first_reported_step =
      s.event_first_reported_step ∧
    (trigger_event s src tgt d).2.confirmation_latencies =
      s.confirmation_latencies ∧
    (trigger_event s src tgt d).2.watchers = s.watchers ∧
    (trigger_event s src tgt d).2.guards = s.guards ∧
    (trigger_event s src tgt d).2.guard_threshold = s.guard_threshold ∧
    (trigger_event s src tgt d).2.rng = s.rng := by
  cases hc : lookupA s.blockchains src with
  | none =>
    rw [trigger_none_eq hc]
    exact ⟨rfl, rfl, rfl, rfl, rfl, rfl, rfl, rfl, rfl, rfl⟩
  | some c =>
    rw [trigger_some_eq hc]
    exact ⟨rfl, rfl, rfl, rfl, rfl, rfl, rfl, rfl, rfl, rfl⟩

theorem finalizeOne_fin_append (s : SimState) (n : Nat) (id : EId) :
    ∃ t, (finalizeOne s n id).1.finalized_events =
      s.finalized_events ++ t := by
  cases hb : (finalizeOne s n id).2 with
  | false =>
    refine ⟨[], ?_⟩
    rw [(finalizeOne_false hb).1, List.append_nil]
  | true => exact ⟨[id], (finalizeOne_true hb).2.2.1⟩

theorem finalizeList_fin_append (s : SimState) (n : Nat) (L : List EId) :
    ∃ t, (finalizeList s n L).1.finalized_events =
      s.finalized_events ++ t := by
  induction L generalizing s with
  | nil => exact ⟨[], (List.append_nil _).symm⟩
  | cons id rest ih =>
    obtain ⟨t1, h1⟩ := finalizeOne_fin_append s n id
    obtain ⟨t2, h2⟩ := ih (finalizeOne s n id).1
    refine ⟨t1 ++ t2, ?_⟩
    simp only [finalizeList]
    rw [h2, h1, List.append_assoc]

theorem step_fin_append (s : SimState) (n : Nat) :
    ∃ t, (run_simulation_step s n).finalized_events =
      s.finalized_events ++ t := by
  obtain ⟨t, ht⟩ := finalizeList_fin_append (stepS3 s n) n
    ((stepS3 s n).guard_signatures.map Prod.fst)
  refine ⟨t, ?_⟩
  have h0 : (run_simulation_step s n).finalized_events =
      (stepFin s n).1.finalized_events := by rw [run_step_eq]
  have h3 : (stepS3 s n).finalized_events = s.finalized_events := by
    have hv := verifyList_frames (stepS2 s n)
      ((stepS2 s n).pending_reports.map Prod.fst)
    have hc := collateList_frames (stepS1 s) n (stepM s).1
    exact (hv.2.2.1).trans hc.2.2.1
  rw [h0]
  exact ht.trans (by rw [h3])

theorem trans_fin_mono {s t : SimState} (h : SimTrans s t) :
    ∃ u, t.finalized_events = s.finalized_events ++ u := by
  cases h with
  | trigger src tgt d =>
    exact ⟨[], ((trigger_frames s src tgt d).2.2.1).trans
      (List.append_nil _).symm⟩
  | step n => exact step_fin_append s n

theorem star_fin_mono {s t : SimState} (h : SimStar s t) :
    ∃ u, t.finalized_events = s.finalized_events ++ u := by
  induction h with
  | refl => exact ⟨[], (List.append_nil _).symm⟩
  | tail hst htu ih =>
    obtain ⟨u1, h1⟩ := ih
    obtain ⟨u2, h2⟩ := trans_fin_mono htu
    exact ⟨u1 ++ u2, by rw [h2, h1, List.append_assoc]⟩

theorem reachable_star {s t : SimState} (hs : Reachable s)
    (h : SimStar s t) : Reachable t := by
  induction h with
  | refl => exact hs
  | tail hst htu ih => exact Reachable.next ih htu

theorem verifyOne_sigs_frozen {sc : SimState} {id x : EId}
    (hx : x ∈ sc.processed_event_ids) :
    sigsOf (verifyOne sc id) x = sigsOf sc x := by
  by_cases h : id ∈ sc.finalized_events ∨ id ∈ sc.processed_event_ids
  · rw [verifyOne_eq_skip h]
  · have hne : x ≠ id := by
      intro he
      exact h (Or.inr (he ▸ hx))
    cases hp : (lookupA sc.pending_reports id).getD [] with
    | nil => rw [verifyOne_eq_empty h hp]
    | cons rep rest =>
      rw [verifyOne_eq_run h hp]
      unfold sigsOf
      split
      · rfl
      · rw [lookupA_setA_ne hne]

theorem verifyList_sigs_frozen {sc : SimState} {L : List EId} {x : EId}
    (hx : x ∈ sc.processed_event_ids) :
    sigsOf (verifyList sc L) x = sigsOf sc x := by
  induction L generalizing sc with
  | nil => rfl
  | cons id rest ih =>
    have h1 := @verifyOne_sigs_frozen sc id x hx
    have h2 := @ih (verifyOne sc id) (@verifyOne_proc_mono sc id x hx)
    exact h2.trans h1

theorem step_sigs_frozen {s : SimState} {x : EId} (n : Nat)
    (hx : x ∈ s.processed_event_ids) :
    sigsOf (run_simulation_step s n) x = sigsOf s x := by
  have hc := collateList_frames (stepS1 s) n (stepM s).1
  have hx2 : x ∈ (stepS2 s n).processed_event_ids := by
    rw [stepS2, hc.2.1]
    exact hx
  have h3 : sigsOf (stepS3 s n) x = sigsOf (stepS2 s n) x :=
    verifyList_sigs_frozen hx2
  have hf := finalizeList_frames (stepS3 s n) n
    ((stepS3 s n).guard_signatures.map Prod.fst)
  have hfe : (stepFin s n).1.guard_signatures =
      (stepS3 s n).guard_signatures := hf.2.1
  have h0 : sigsOf (run_simulation_step s n) x = sigsOf (stepFin s n).1 x := by
    rw [run_step_eq]
    exact sigsOf_congr rfl x
  have hce : (stepS2 s n).guard_signatures = (stepS1 s).guard_signatures :=
    hc.1
  rw [h0, sigsOf_congr hfe x, h3, sigsOf_congr hce x]
  rfl

theorem step_proc_mono {s : SimState} {x : EId} (n : Nat)
    (hx : x ∈ s.processed_event_ids) :
    x ∈ (run_simulation_step s n).processed_event_ids := by
  have hc := collateList_frames (stepS1 s) n (stepM s).1
  have hx2 : x ∈ (stepS2 s n).processed_event_ids := by
    rw [stepS2, hc.2.1]
    exact hx
  have hx3 : x ∈ (stepS3 s n).processed_event_ids :=
    verifyList_proc_mono x hx2
  have hf := finalizeList_frames (stepS3 s n) n
    ((stepS3 s n).guard_signatures.map Prod.fst)
  have hfe : (stepFin s n).1.processed_event_ids =
      (stepS3 s n).processed_event_ids := hf.2.2.1
  have h0 : (run_simulation_step s n).processed_event_ids =
      (stepFin s n).1.processed_event_ids := by rw [run_step_eq]
  rw [h0, hfe]
  exact hx3

/-! ### Guard verdict lemmas -/

theorem verify_event_unknown {chains : List (String × SimpleBlockchain)}
    {re : ReportedEvent} (h : lookupA chains re.source_chain_id = none)
    (g : Guard) (rng : List Nat) :
    Guard.verify_event chains g re rng = (false, rng) := by
  unfold Guard.verify_event
  rw [h]

theorem verify_event_honest {chains : List (String × SimpleBlockchain)}
    {g : Guard} (re : ReportedEvent) (rng : List Nat)
    (hmal : g.is_malicious = false) :
    Guard.verify_event chains g re rng = (actually_valid chains re, rng) := by
  unfold Guard.verify_event actually_valid
  cases hc : lookupA chains re.source_chain_id with
  | none => rfl
  | some c =>
    rw [hmal]
    rfl

theorem actually_valid_missing {chains : List (String × SimpleBlockchain)}
    {re : ReportedEvent} {c : SimpleBlockchain}
    (hc : lookupA chains re.source_chain_id = some c)
    (he : c.get_event re.event_id = none) :
    actually_valid chains re = false := by
  simp only [actually_valid, hc, he]

/-! ### The finalization mismatch branch -/

theorem finalizeOne_mismatch {s : SimState} {n : Nat} {id : EId}
    (h1 : id ∉ s.finalized_events)
    (h2 : s.guard_threshold ≤ posCount (sigsOf s id))
    (hfake : id.isFake = false)
    (hl : ledgerAgrees s id
      (((lookupA s.pending_reports id).getD []).headD defaultReport) = false) :
    (finalizeOne s n id).1.stats_fabricated_events_finalized =
      s.stats_fabricated_events_finalized + 1 ∧
    (finalizeOne s n id).1.stats_attack_impact_value =
      s.stats_attack_impact_value +
        (((lookupA s.pending_reports id).getD
          []).headD defaultReport).data.get_amount ∧
    (finalizeOne s n id).1.stats_valid_events_finalized =
      s.stats_valid_events_finalized := by
  simp only [finalizeOne]
  rw [if_neg h1, if_pos h2, hfake]
  rw [if_neg (fun hff : false = true => by cases hff)]
  refine ⟨?_, ?_, ?_⟩ <;>
  · split
    · next hag =>
        exfalso
        have hag2 : ledgerAgrees s id
            (((lookupA s.pending_reports id).getD
              []).headD defaultReport) = true := hag
        rw [hl] at hag2
        cases hag2
    · rfl

/-! ### Runs with no guards -/

theorem setup_sigs_fin (s : SimState) (chain_ids : List String)
    (mw mg picks : List Nat) :
    (setup s chain_ids mw mg picks).guard_signatures = s.guard_signatures ∧
    (setup s chain_ids mw mg picks).finalized_events = s.finalized_events := by
  cases hb : ((chain_ids.foldl (fun m cid => setA m cid ⟨cid, []⟩)
      s.blockchains)).isEmpty with
  | true =>
    rw [setup_eq_empty hb]
    exact ⟨rfl, rfl⟩
  | false =>
    rw [setup_eq_nonempty hb]
    exact ⟨rfl, rfl⟩

theorem verifyOne_sigs_nil {sc : SimState} {id : EId}
    (hg : sc.guards = []) (hs : sc.guard_signatures = []) :
    (verifyOne sc id).guard_signatures = [] := by
  by_cases h : id ∈ sc.finalized_events ∨ id ∈ sc.processed_event_ids
  · rw [verifyOne_eq_skip h]
    exact hs
  · cases hp : (lookupA sc.pending_reports id).getD [] with
    | nil =>
      rw [verifyOne_eq_empty h hp]
      exact hs
    | cons rep rest =>
      rw [verifyOne_eq_run h hp]
      show (if (lookupA sc.guard_signatures id).isNone &&
          (guardVotes sc.blockchains sc.guards rep
            ((lookupA sc.guard_signatures id).getD []) sc.rng).1.isEmpty
        then sc.guard_signatures
        else setA sc.guard_signatures id
          (guardVotes sc.blockchains sc.guards rep
            ((lookupA sc.guard_signatures id).getD []) sc.rng).1) = []
      rw [hs, hg]
      rfl

theorem verifyList_sigs_nil {sc : SimState} {L : List EId}
    (hg : sc.guards = []) (hs : sc.guard_signatures = []) :
    (verifyList sc L).guard_signatures = [] := by
  induction L generalizing sc with
  | nil => exact hs
  | cons id rest ih =>
    have hg1 : (verifyOne sc id).guards = [] :=
      ((verifyOne_frames sc id).2.2.2.2.2.2.1).trans hg
    exact @ih (verifyOne sc id) hg1 (verifyOne_sigs_nil hg hs)

theorem step_zero_guards {s : SimState} (n : Nat) (hg : s.guards = [])
    (hs : s.guard_signatures = []) (hf : s.finalized_events = []) :
    (run_simulation_step s n).guard_signatures = [] ∧
    (run_simulation_step s n).finalized_events = [] := by
  have hc := collateList_frames (stepS1 s) n (stepM s).1
  have hg2 : (stepS2 s n).guards = [] := by
    have : (stepS2 s n).guards = (stepS1 s).guards := hc.2.2.2.1
    rw [this]
    exact hg
  have hs2 : (stepS2 s n).guard_signatures = [] := by
    have : (stepS2 s n).guard_signatures = (stepS1 s).guard_signatures := hc.1
    rw [this]
    exact hs
  have hs3 : (stepS3 s n).guard_signatures = [] :=
    verifyList_sigs_nil hg2 hs2
  have hf3 : (stepS3 s n).finalized_events = [] := by
    have hv := verifyList_frames (stepS2 s n)
      ((stepS2 s n).pending_reports.map Prod.fst)
    have h1 : (stepS3 s n).finalized_events = (stepS2 s n).finalized_events :=
      hv.2.2.1
    have h2 : (stepS2 s n).finalized_events = (stepS1 s).finalized_events :=
      hc.2.2.1
    rw [h1, h2]
    exact hf
  have hFin : stepFin s n = ((stepS3 s n), []) := by
    show finalizeList (stepS3 s n) n
      ((stepS3 s n).guard_signatures.map Prod.fst) = ((stepS3 s n), [])
    rw [hs3]
    rfl
  constructor
  · show (stepFin s n).1.guard_signatures = []
    rw [hFin]
    exact hs3
  · show (stepFin s n).1.finalized_events = []
    rw [hFin]
    exact hf3

theorem zero_guards_frozen {s : SimState} (hr : Reachable s)
    (hg : s.guards = []) :
    s.guard_signatures = [] ∧ s.finalized_events = [] := by
  induction hr with
  | init cfg rng chain_ids mw mg picks =>
    have h := setup_sigs_fin (mkSimulation cfg rng) chain_ids mw mg picks
    exact ⟨h.1, h.2⟩
  | next hs htr ih =>
    rename_i a b
    cases htr with
    | trigger src tgt d =>
      have hfr := trigger_frames a src tgt d
      have hga : a.guards = [] := by
        rw [← hfr.2.2.2.2.2.2.2.1]
        exact hg
      obtain ⟨h1, h2⟩ := ih hga
      exact ⟨hfr.2.1.trans h1, hfr.2.2.1.trans h2⟩
    | step n =>
      have hga : a.guards = [] := by
        rw [← (step_frames a n).1]
        exact hg
      obtain ⟨h1, h2⟩ := ih hga
      exact step_zero_guards n hga h1 h2

/-! ### Honest-watcher idempotence -/

theorem honestScan_ids_eq {chain : SimpleBlockchain} {wid : String}
    {L : List EId} (hwf : ∀ q ∈ chain.events, q.2.event_id = q.1) :
    (honestScan chain wid L).1.map ReportedEvent.event_id =
      (honestScan chain wid L).2 := by
  induction L with
  | nil => rfl
  | cons id rest ih =>
    simp only [honestScan]
    cases he : chain.get_event id with
    | none => exact ih
    | some e =>
      have hid : e.event_id = id := hwf (id, e) (lookupA_mem he)
      simp only [List.map_cons, hid, ih]

theorem honestScan_found_sublist {chain : SimpleBlockchain} {wid : String}
    {L : List EId} : List.Sublist (honestScan chain wid L).2 L := by
  induction L with
  | nil => exact List.Sublist.refl []
  | cons id rest ih =>
    simp only [honestScan]
    cases he : chain.get_event id with
    | none => exact List.Sublist.cons id ih
    | some e => exact List.Sublist.cons₂ id ih

theorem monitor_honest_call {chains : List (String × SimpleBlockchain)}
    {w : Watcher} {uuid : Nat} {rng : List Nat}
    (hmal : w.is_malicious = false)
    (hwf : ∀ p ∈ chains, (p.2.events.map Prod.fst).Nodup ∧
      ∀ q ∈ p.2.events, q.2.event_id = q.1) :
    ((Watcher.monitor_and_report chains w uuid rng).1.map
      ReportedEvent.event_id).Nodup ∧
    (∀ r ∈ (Watcher.monitor_and_report chains w uuid rng).1,
      r.event_id ∉ w.seen_event_ids ∧
      r.event_id ∈
        (Watcher.monitor_and_report chains w uuid rng).2.1.seen_event_ids) ∧
    (∀ id ∈ w.seen_event_ids,
      id ∈ (Watcher.monitor_and_report chains w uuid rng).2.1.seen_event_ids) ∧
    (Watcher.monitor_and_report chains w uuid rng).2.1.is_malicious = false := by
  rw [monitor_honest_eq hmal]
  cases hc : lookupA chains w.monitored_chain_id with
  | none =>
    refine ⟨List.nodup_nil, ?_, fun id h => h, hmal⟩
    intro r hr
    cases hr
  | some chain =>
    have hcwf := hwf (w.monitored_chain_id, chain) (lookupA_mem hc)
    have hcwf2 : ∀ q ∈ chain.events, q.2.event_id = q.1 := hcwf.2
    have hids : (honestScan chain w.watcher_id
        (chain.get_all_event_ids.filter
          (fun id => decide (id ∉ w.seen_event_ids)))).1.map
        ReportedEvent.event_id =
        (honestScan chain w.watcher_id
          (chain.get_all_event_ids.filter
            (fun id => decide (id ∉ w.seen_event_ids)))).2 :=
      honestScan_ids_eq hcwf2
    have hsub : List.Sublist (honestScan chain w.watcher_id
        (chain.get_all_event_ids.filter
          (fun id => decide (id ∉ w.seen_event_ids)))).2
        (chain.get_all_event_ids.filter
          (fun id => decide (id ∉ w.seen_event_ids))) :=
      honestScan_found_sublist
    refine ⟨?_, ?_, ?_, hmal⟩
    · rw [hids]
      exact (hsub.trans (List.filter_sublist _)).nodup hcwf.1
    · intro r hr
      have hmem : r.event_id ∈ (honestScan chain w.watcher_id
          (chain.get_all_event_ids.filter
            (fun id => decide (id ∉ w.seen_event_ids)))).2 := by
        rw [← hids]
        exact List.mem_map_of_mem ReportedEvent.event_id hr
      constructor
      · have hfil := hsub.subset hmem
        have := List.of_mem_filter hfil
        simpa using this
      · exact List.mem_append.2 (Or.inr hmem)
    · intro id hid
      exact List.mem_append.2 (Or.inl hid)

theorem monRun_spec (w : Watcher)
    (ctxs : List (List (String × SimpleBlockchain) × Nat × List Nat))
    (hmal : w.is_malicious = false)
    (hwf : ∀ ctx ∈ ctxs, ∀ p ∈ ctx.1, (p.2.events.map Prod.fst).Nodup ∧
      ∀ q ∈ p.2.events, q.2.event_id = q.1) :
    ((monRun w ctxs).1.map ReportedEvent.event_id).Nodup ∧
    (∀ r ∈ (monRun w ctxs).1, r.event_id ∉ w.seen_event_ids ∧
      r.event_id ∈ (monRun w ctxs).2.seen_event_ids) ∧
    (∀ id ∈ w.seen_event_ids, id ∈ (monRun w ctxs).2.seen_event_ids) ∧
    (monRun w ctxs).2.is_malicious = false := by
  induction ctxs generalizing w with
  | nil =>
    refine ⟨List.nodup_nil, ?_, fun id h => h, hmal⟩
    intro r hr
    cases hr
  | cons c rest ih =>
    have hcall := @monitor_honest_call c.1 w c.2.1 c.2.2
      hmal (hwf c (List.mem_cons_self c rest))
    have htail := ih (Watcher.monitor_and_report c.1 w c.2.1 c.2.2).2.1
      hcall.2.2.2
      (fun ctx hctx => hwf ctx (List.mem_cons_of_mem c hctx))
    simp only [monRun, List.map_append]
    refine ⟨?_, ?_, ?_, htail.2.2.2⟩
    · refine List.Nodup.append hcall.1 htail.1 ?_
      intro x hx1 hx2
      obtain ⟨r1, hr1, he1⟩ := List.mem_map.1 hx1
      obtain ⟨r2, hr2, he2⟩ := List.mem_map.1 hx2
      have h1 := (hcall.2.1 r1 hr1).2
      have h2 := (htail.2.1 r2 hr2).1
      rw [he1] at h1
      rw [he2] at h2
      exact h2 h1
    · intro r hr
      rcases List.mem_append.1 hr with h' | h'
      · refine ⟨(hcall.2.1 r h').1, ?_⟩
        exact htail.2.2.1 r.event_id (hcall.2.1 r h').2
      · refine ⟨?_, (htail.2.1 r h').2⟩
        intro hseen
        exact (htail.2.1 r h').1 (hcall.2.2.1 r.event_id hseen)
    · intro id hid
      exact htail.2.2.1 id (hcall.2.2.1 id hid)

/-! ### Guard-order independence: vote characterisation -/

theorem memA_congr_keys {α β : Type} [DecidableEq α]
    {m₁ m₂ : List (α × β)} (h : m₁.map Prod.fst = m₂.map Prod.fst)
    (x : α) : memA m₁ x = memA m₂ x := by
  cases hm : memA m₂ x with
  | true => exact memA_iff_keys.2 (h ▸ memA_iff_keys.1 hm)
  | false =>
    cases hm1 : memA m₁ x with
    | false => rfl
    | true =>
      have := memA_iff_keys.1 hm1
      rw [h] at this
      rw [memA_iff_keys.2 this] at hm
      cases hm

theorem memA_eq_of_perm {α β : Type} [DecidableEq α]
    {l₁ l₂ : List (α × β)} (h : l₁.Perm l₂) (x : α) :
    memA l₁ x = memA l₂ x := by
  cases hm : memA l₂ x with
  | true =>
    refine memA_iff_keys.2 ?_
    exact (h.map Prod.fst).mem_iff.2 (memA_iff_keys.1 hm)
  | false =>
    cases hm1 : memA l₁ x with
    | false => rfl
    | true =>
      have := (h.map Prod.fst).mem_iff.1 (memA_iff_keys.1 hm1)
      rw [memA_iff_keys.2 this] at hm
      cases hm

theorem posCount_perm {l₁ l₂ : List (String × Bool)} (h : l₁.Perm l₂) :
    posCount l₁ = posCount l₂ := by
  unfold posCount
  exact (h.filter (fun p => p.2)).length_eq

theorem isEmpty_eq_of_perm {α : Type} {l₁ l₂ : List α} (h : l₁.Perm l₂) :
    l₁.isEmpty = l₂.isEmpty := by
  cases l₁ with
  | nil =>
    rw [h.nil_eq.symm]
  | cons a t =>
    cases l₂ with
    | nil => exact absurd h.symm.nil_eq (by simp)
    | cons b u => rfl

theorem guardVotes_honest {chains : List (String × SimpleBlockchain)}
    {gs : List Guard} (rep : ReportedEvent) (inner : List (String × Bool))
    (rng : List Nat) :
    (∀ g ∈ gs, g.is_malicious = false) →
    (gs.map Guard.guard_id).Nodup →
    guardVotes chains gs rep inner rng =
      (inner ++ (gs.filter
        (fun g => !memA inner g.guard_id)).map
          (fun g => (g.guard_id, actually_valid chains rep)), rng) := by
  induction gs generalizing inner with
  | nil =>
    intro _ _
    simp [guardVotes]
  | cons g gs ih =>
    intro hhon hnd
    have hgh : g.is_malicious = false := hhon g (List.mem_cons_self g gs)
    have hth : ∀ x ∈ gs, x.is_malicious = false :=
      fun x hx => hhon x (List.mem_cons_of_mem g hx)
    have hnd2 := List.nodup_cons.1 hnd
    simp only [guardVotes]
    cases hm : memA inner g.guard_id with
    | true =>
      rw [if_pos rfl, ih inner hth hnd2.2, List.filter_cons, hm]
      rfl
    | false =>
      rw [if_neg (fun hc : (false = true) => by cases hc)]
      rw [verify_event_honest rep rng hgh]
      rw [setA_eq_append (actually_valid chains rep, rng).1 hm]
      rw [ih (inner ++ [(g.guard_id, actually_valid chains rep)]) hth hnd2.2]
      rw [List.filter_cons, hm]
      have hfil : gs.filter
          (fun x => !memA (inner ++ [(g.guard_id, actually_valid chains rep)])
            x.guard_id) =
          gs.filter (fun x => !memA inner x.guard_id) := by
        refine List.filter_congr ?_
        intro x hx
        have hxid : x.guard_id ≠ g.guard_id := by
          intro he
          exact hnd2.1 (he ▸ List.mem_map_of_mem Guard.guard_id hx)
        have : memA (inner ++ [(g.guard_id, actually_valid chains rep)])
            x.guard_id = memA inner x.guard_id := by
          unfold memA
          rw [lookupA_snoc_ne hxid]
        rw [this]
      rw [hfil]
      simp

/-! ### Canonical equations for the finalization body -/

theorem ledgerAgrees_congr {a b : SimState} (h : a.blockchains = b.blockchains)
    (id : EId) (rep : ReportedEvent) :
    ledgerAgrees a id rep = ledgerAgrees b id rep := by
  unfold ledgerAgrees
  rw [h]

theorem finalizeOne_eq_fin {s : SimState} {n : Nat} {id : EId}
    (h1 : id ∈ s.finalized_events) : finalizeOne s n id = (s, false) := by
  simp only [finalizeOne]
  rw [if_pos h1]

theorem finalizeOne_eq_below {s : SimState} {n : Nat} {id : EId}
    (h1 : id ∉ s.finalized_events)
    (h2 : ¬s.guard_threshold ≤ posCount (sigsOf s id)) :
    finalizeOne s n id = (s, false) := by
  simp only [finalizeOne]
  rw [if_neg h1, if_neg h2]

theorem finalizeOne_eq_go {s : SimState} {n : Nat} {id : EId}
    (h1 : id ∉ s.finalized_events)
    (h2 : s.guard_threshold ≤ posCount (sigsOf s id)) :
    finalizeOne s n id =
      (if id.isFake then
        { s with
          finalized_events := s.finalized_events ++ [id]
          confirmation_latencies := s.confirmation_latencies ++
            [(n : Int) -
              (((lookupA s.event_first_reported_step id).getD n : Nat) : Int)]
          stats_fabricated_events_finalized :=
            s.stats_fabricated_events_finalized + 1
          stats_attack_impact_value := s.stats_attack_impact_value +
            (((lookupA s.pending_reports id).getD
              []).headD defaultReport).data.get_amount }
      else if ledgerAgrees s id
          (((lookupA s.pending_reports id).getD []).headD defaultReport) then
        { s with
          finalized_events := s.finalized_events ++ [id]
          confirmation_latencies := s.confirmation_latencies ++
            [(n : Int) -
              (((lookupA s.event_first_reported_step id).getD n : Nat) : Int)]
          stats_valid_events_finalized := s.stats_valid_events_finalized + 1 }
      else
        { s with
          finalized_events := s.finalized_events ++ [id]
          confirmation_latencies := s.confirmation_latencies ++
            [(n : Int) -
              (((lookupA s.event_first_reported_step id).getD n : Nat) : Int)]
          stats_fabricated_events_finalized :=
            s.stats_fabricated_events_finalized + 1
          stats_attack_impact_value := s.stats_attack_impact_value +
            (((lookupA s.pending_reports id).getD
              []).headD defaultReport).data.get_amount }, true) := by
  simp only [finalizeOne]
  rw [if_neg h1, if_pos h2]
  by_cases hf : id.isFake = true
  · rw [if_pos hf, if_pos hf]
  · rw [if_neg hf, if_neg hf]
    split
    · next hl =>
        have hl2 : ledgerAgrees s id
            (((lookupA s.pending_reports id).getD []).headD defaultReport)
            = true := hl
        rw [if_pos hl2]
    · next hl =>
        have hl2 : ¬ledgerAgrees s id
            (((lookupA s.pending_reports id).getD []).headD defaultReport)
            = true := fun hh => hl hh
        rw [if_neg hl2]

/-! ### Commutation of the phases with the guard and signature fields -/

theorem collateOne_gs_comm (a : SimState) (g : List Guard)
    (S : List (EId × List (String × Bool))) (n : Nat) (r : ReportedEvent) :
    collateOne { a with guards := g, guard_signatures := S } n r =
      { collateOne a n r with guards := g, guard_signatures := S } := by
  cases hcnd : (!memA a.pending_reports r.event_id &&
      !decide (r.event_id ∈ a.finalized_events) &&
      !decide (r.event_id ∈ a.processed_event_ids) &&
      !memA a.event_first_reported_step r.event_id) with
  | true =>
    rw [@collateOne_eq_pos { a with guards := g, guard_signatures := S }
      n r hcnd]
    rw [collateOne_eq_pos hcnd]
  | false =>
    rw [@collateOne_eq_neg { a with guards := g, guard_signatures := S }
      n r hcnd]
    rw [collateOne_eq_neg hcnd]

theorem collateList_gs_comm (a : SimState) (g : List Guard)
    (S : List (EId × List (String × Bool))) (n : Nat)
    (rs : List ReportedEvent) :
    collateList { a with guards := g, guard_signatures := S } n rs =
      { collateList a n rs with guards := g, guard_signatures := S } := by
  induction rs generalizing a with
  | nil => rfl
  | cons r rest ih =>
    simp only [collateList]
    rw [collateOne_gs_comm]
    exact ih (collateOne a n r)

theorem finalizeOne_gs_comm (a : SimState) (g : List Guard)
    (S : List (EId × List (String × Bool))) (n : Nat) (id : EId)
    (hpos : posCount ((lookupA S id).getD []) = posCount (sigsOf a id)) :
    finalizeOne { a with guards := g, guard_signatures := S } n id =
      ({ (finalizeOne a n id).1 with
          guards := g
          guard_signatures := S },
        (finalizeOne a n id).2) := by
  by_cases h1 : id ∈ a.finalized_events
  · have h1m : id ∈ ({ a with guards := g, guard_signatures := S } :
        SimState).finalized_events := h1
    rw [finalizeOne_eq_fin h1m, finalizeOne_eq_fin h1]
  · have h1m : id ∉ ({ a with guards := g, guard_signatures := S } :
        SimState).finalized_events := h1
    by_cases h2 : a.guard_threshold ≤ posCount (sigsOf a id)
    · have h2m : ({ a with guards := g, guard_signatures := S } :
          SimState).guard_threshold ≤
          posCount (sigsOf { a with guards := g, guard_signatures := S } id) := by
        show a.guard_threshold ≤ posCount ((lookupA S id).getD [])
        rw [hpos]
        exact h2
      rw [finalizeOne_eq_go h1m h2m, finalizeOne_eq_go h1 h2]
      by_cases hf : id.isFake = true
      · rw [if_pos hf, if_pos hf]
      · rw [if_neg hf, if_neg hf]
        by_cases hl : ledgerAgrees a id
            (((lookupA a.pending_reports id).getD []).headD defaultReport) = true
        · have hlm : ledgerAgrees
              { a with guards := g, guard_signatures := S } id
              (((lookupA ({ a with guards := g, guard_signatures := S } :
                SimState).pending_reports id).getD []).headD defaultReport)
              = true := hl
          rw [if_pos hlm, if_pos hl]
        · have hlm : ¬ledgerAgrees
              { a with guards := g, guard_signatures := S } id
              (((lookupA ({ a with guards := g, guard_signatures := S } :
                SimState).pending_reports id).getD []).headD defaultReport)
              = true := fun hh => hl hh
          rw [if_neg hlm, if_neg hl]
    · have h2m : ¬({ a with guards := g, guard_signatures := S } :
          SimState).guard_threshold ≤
          posCount (sigsOf { a with guards := g, guard_signatures := S } id) := by
        intro hh
        refine h2 ?_
        rw [← hpos]
        exact hh
      rw [finalizeOne_eq_below h1m h2m, finalizeOne_eq_below h1 h2]

theorem finalizeList_gs_comm (a : SimState) (g : List Guard)
    (S : List (EId × List (String × Bool))) (n : Nat) (L : List EId)
    (hpos : ∀ x, posCount ((lookupA S x).getD []) = posCount (sigsOf a x)) :
    finalizeList { a with guards := g, guard_signatures := S } n L =
      ({ (finalizeList a n L).1 with
          guards := g
          guard_signatures := S },
        (finalizeList a n L).2) := by
  induction L generalizing a with
  | nil => rfl
  | cons id rest ih =>
    simp only [finalizeList]
    rw [finalizeOne_gs_comm a g S n id (hpos id)]
    have hrec := ih (finalizeOne a n id).1 ?hp
    case hp =>
      intro x
      rw [hpos x]
      have hfr : sigsOf (finalizeOne a n id).1 x = sigsOf a x := by
        cases hb : (finalizeOne a n id).2 with
        | false => rw [(finalizeOne_false hb).1]
        | true =>
          refine sigsOf_congr ?_ x
          by_cases h1 : id ∈ a.finalized_events
          · rw [finalizeOne_eq_fin h1] at hb
            cases hb
          · by_cases h2 : a.guard_threshold ≤ posCount (sigsOf a id)
            · rw [finalizeOne_eq_go h1 h2]
              by_cases hf : id.isFake = true
              · rw [if_pos hf]
              · rw [if_neg hf]
                split
                · rfl
                · rfl
            · rw [finalizeOne_eq_below h1 h2] at hb
              cases hb
      rw [hfr]
    rw [hrec]

theorem verifyOne_pair (a : SimState) (g : List Guard)
    (S : List (EId × List (String × Bool))) (id : EId)
    (hperm : g.Perm a.guards)
    (hhon : ∀ x ∈ a.guards, x.is_malicious = false)
    (hnd : (a.guards.map Guard.guard_id).Nodup)
    (hkeys : S.map Prod.fst = a.guard_signatures.map Prod.fst)
    (hvals : ∀ x, ((lookupA S x).getD []).Perm (sigsOf a x)) :
    ∃ T, verifyOne { a with guards := g, guard_signatures := S } id =
        { verifyOne a id with
            guards := g
            guard_signatures := T } ∧
      T.map Prod.fst = (verifyOne a id).guard_signatures.map Prod.fst ∧
      ∀ x, ((lookupA T x).getD []).Perm (sigsOf (verifyOne a id) x) := by
  by_cases hno : id ∈ a.finalized_events ∨ id ∈ a.processed_event_ids
  · have hnoM : id ∈ ({ a with guards := g, guard_signatures := S } : SimState).finalized_events ∨ id ∈ ({ a with guards := g, guard_signatures := S } : SimState).processed_event_ids := hno
    refine ⟨S, ?_, ?_, ?_⟩
    · rw [verifyOne_eq_skip hnoM, verifyOne_eq_skip hno]
    · rw [verifyOne_eq_skip hno]
      exact hkeys
    · rw [verifyOne_eq_skip hno]
      exact hvals
  · have hnoM : ¬(id ∈ ({ a with guards := g, guard_signatures := S } : SimState).finalized_events ∨ id ∈ ({ a with guards := g, guard_signatures := S } : SimState).processed_event_ids) := hno
    cases hp : (lookupA a.pending_reports id).getD [] with
    | nil =>
      have hpM : (lookupA ({ a with guards := g, guard_signatures := S } : SimState).pending_reports id).getD [] = [] := hp
      refine ⟨S, ?_, ?_, ?_⟩
      · rw [verifyOne_eq_empty hnoM hpM, verifyOne_eq_empty hno hp]
      · rw [verifyOne_eq_empty hno hp]
        exact hkeys
      · rw [verifyOne_eq_empty hno hp]
        exact hvals
    | cons rep rest =>
      have hpM : (lookupA ({ a with guards := g, guard_signatures := S } : SimState).pending_reports id).getD [] = rep :: rest := hp
      have hgB : ∀ x ∈ g, x.is_malicious = false :=
        fun x hx => hhon x (hperm.subset hx)
      have hndB : (g.map Guard.guard_id).Nodup :=
        ((hperm.map Guard.guard_id).nodup_iff).mpr hnd
      have innerPerm : ((lookupA S id).getD []).Perm
          ((lookupA a.guard_signatures id).getD []) := hvals id
      have hmemEq : memA S id = memA a.guard_signatures id :=
        memA_congr_keys hkeys id
      have hA := @guardVotes_honest a.blockchains a.guards rep
        ((lookupA a.guard_signatures id).getD []) a.rng hhon hnd
      have hB := @guardVotes_honest a.blockchains g rep
        ((lookupA S id).getD []) a.rng hgB hndB
      have hredB : verifyOne { a with guards := g, guard_signatures := S } id =
          { a with
            guards := g
            processed_event_ids := a.processed_event_ids ++ [id]
            guard_signatures :=
              if (lookupA S id).isNone &&
                  (guardVotes a.blockchains g rep
                    ((lookupA S id).getD []) a.rng).1.isEmpty
              then S
              else setA S id (guardVotes a.blockchains g rep
                ((lookupA S id).getD []) a.rng).1
            rng := (guardVotes a.blockchains g rep
              ((lookupA S id).getD []) a.rng).2 } :=
        verifyOne_eq_run hnoM hpM
      have hfil : a.guards.filter
          (fun x => !memA ((lookupA S id).getD []) x.guard_id) =
          a.guards.filter
            (fun x => !memA ((lookupA a.guard_signatures id).getD [])
              x.guard_id) := by
        refine List.filter_congr ?_
        intro x hx
        rw [memA_eq_of_perm innerPerm x.guard_id]
      have newPerm : ((g.filter
          (fun x => !memA ((lookupA S id).getD []) x.guard_id)).map
            (fun x => (x.guard_id, actually_valid a.blockchains rep))).Perm
          ((a.guards.filter
            (fun x => !memA ((lookupA a.guard_signatures id).getD [])
              x.guard_id)).map
            (fun x => (x.guard_id, actually_valid a.blockchains rep))) := by
        refine List.Perm.map _ ?_
        rw [← hfil]
        exact hperm.filter _
      have votesPerm : (guardVotes a.blockchains g rep
          ((lookupA S id).getD []) a.rng).1.Perm
          (guardVotes a.blockchains a.guards rep
            ((lookupA a.guard_signatures id).getD []) a.rng).1 := by
        rw [hA, hB]
        exact innerPerm.append newPerm
      refine ⟨if (lookupA S id).isNone &&
          (guardVotes a.blockchains g rep
            ((lookupA S id).getD []) a.rng).1.isEmpty
        then S
        else setA S id (guardVotes a.blockchains g rep
          ((lookupA S id).getD []) a.rng).1, ?_, ?_, ?_⟩
      · rw [hredB, verifyOne_eq_run hno hp]
        rw [hA, hB]
      · rw [verifyOne_eq_run hno hp]
        show _ = (if (lookupA a.guard_signatures id).isNone &&
            (guardVotes a.blockchains a.guards rep
              ((lookupA a.guard_signatures id).getD []) a.rng).1.isEmpty
          then a.guard_signatures
          else setA a.guard_signatures id
            (guardVotes a.blockchains a.guards rep
              ((lookupA a.guard_signatures id).getD [])
              a.rng).1).map Prod.fst
        have hcond : ((lookupA S id).isNone &&
            (guardVotes a.blockchains g rep
              ((lookupA S id).getD []) a.rng).1.isEmpty) =
            ((lookupA a.guard_signatures id).isNone &&
              (guardVotes a.blockchains a.guards rep
                ((lookupA a.guard_signatures id).getD []) a.rng).1.isEmpty) := by
          have h1 : (lookupA S id).isNone =
              (lookupA a.guard_signatures id).isNone := by
            unfold memA at hmemEq
            cases hx : lookupA S id with
            | none =>
              cases hy : lookupA a.guard_signatures id with
              | none => rfl
              | some v =>
                rw [hx, hy] at hmemEq
                cases hmemEq
            | some v =>
              cases hy : lookupA a.guard_signatures id with
              | none =>
                rw [hx, hy] at hmemEq
                cases hmemEq
              | some w => rfl
          rw [h1, isEmpty_eq_of_perm votesPerm]
        rw [hcond]
        cases hc : ((lookupA a.guard_signatures id).isNone &&
            (guardVotes a.blockchains a.guards rep
              ((lookupA a.guard_signatures id).getD []) a.rng).1.isEmpty) with
        | true =>
          rw [if_pos rfl, if_pos rfl]
          exact hkeys
        | false =>
          rw [if_neg (fun hc2 : (false = true) => by cases hc2),
            if_neg (fun hc2 : (false = true) => by cases hc2)]
          cases hmem : memA a.guard_signatures id with
          | true =>
            rw [keys_setA_of_mem _ (hmemEq.trans hmem),
              keys_setA_of_mem _ hmem]
            exact hkeys
          | false =>
            rw [setA_eq_append _ (hmemEq.trans hmem), setA_eq_append _ hmem]
            rw [List.map_append, List.map_append, hkeys]
            rfl
      · intro x
        rw [verifyOne_eq_run hno hp]
        show ((lookupA (if (lookupA S id).isNone &&
            (guardVotes a.blockchains g rep
              ((lookupA S id).getD []) a.rng).1.isEmpty
          then S
          else setA S id (guardVotes a.blockchains g rep
            ((lookupA S id).getD []) a.rng).1) x).getD []).Perm
          ((lookupA (if (lookupA a.guard_signatures id).isNone &&
              (guardVotes a.blockchains a.guards rep
                ((lookupA a.guard_signatures id).getD []) a.rng).1.isEmpty
            then a.guard_signatures
            else setA a.guard_signatures id
              (guardVotes a.blockchains a.guards rep
                ((lookupA a.guard_signatures id).getD [])
                a.rng).1) x).getD [])
        have hcond : ((lookupA S id).isNone &&
            (guardVotes a.blockchains g rep
              ((lookupA S id).getD []) a.rng).1.isEmpty) =
            ((lookupA a.guard_signatures id).isNone &&
              (guardVotes a.blockchains a.guards rep
                ((lookupA a.guard_signatures id).getD []) a.rng).1.isEmpty) := by
          have h1 : (lookupA S id).isNone =
              (lookupA a.guard_signatures id).isNone := by
            unfold memA at hmemEq
            cases hx : lookupA S id with
            | none =>
              cases hy : lookupA a.guard_signatures id with
              | none => rfl
              | some v =>
                rw [hx, hy] at hmemEq
                cases hmemEq
            | some v =>
              cases hy : lookupA a.guard_signatures id with
              | none =>
                rw [hx, hy] at hmemEq
                cases hmemEq
              | some w => rfl
          rw [h1, isEmpty_eq_of_perm votesPerm]
        rw [hcond]
        cases hc : ((lookupA a.guard_signatures id).isNone &&
            (guardVotes a.blockchains a.guards rep
              ((lookupA a.guard_signatures id).getD []) a.rng).1.isEmpty) with
        | true =>
          rw [if_pos rfl, if_pos rfl]
          exact hvals x
        | false =>
          rw [if_neg (fun hc2 : (false = true) => by cases hc2),
            if_neg (fun hc2 : (false = true) => by cases hc2)]
          by_cases hx : x = id
          · subst hx
            rw [lookupA_setA_self, lookupA_setA_self]
            exact votesPerm
          · rw [lookupA_setA_ne hx, lookupA_setA_ne hx]
            exact hvals x

theorem verifyList_pair (a : SimState) (g : List Guard)
    (S : List (EId × List (String × Bool))) (L : List EId) :
    g.Perm a.guards →
    (∀ x ∈ a.guards, x.is_malicious = false) →
    (a.guards.map Guard.guard_id).Nodup →
    S.map Prod.fst = a.guard_signatures.map Prod.fst →
    (∀ x, ((lookupA S x).getD []).Perm (sigsOf a x)) →
    ∃ T, verifyList { a with guards := g, guard_signatures := S } L =
        { verifyList a L with
            guards := g
            guard_signatures := T } ∧
      T.map Prod.fst = (verifyList a L).guard_signatures.map Prod.fst ∧
      ∀ x, ((lookupA T x).getD []).Perm (sigsOf (verifyList a L) x) := by
  induction L generalizing a S with
  | nil =>
    intro hperm hhon hnd hkeys hvals
    exact ⟨S, rfl, hkeys, hvals⟩
  | cons id rest ih =>
    intro hperm hhon hnd hkeys hvals
    obtain ⟨T1, h1, h1k, h1v⟩ := verifyOne_pair a g S id hperm hhon hnd
      hkeys hvals
    have hfr := verifyOne_frames a id
    have hperm2 : g.Perm (verifyOne a id).guards := by
      rw [hfr.2.2.2.2.2.2.1]
      exact hperm
    have hhon2 : ∀ x ∈ (verifyOne a id).guards, x.is_malicious = false := by
      rw [hfr.2.2.2.2.2.2.1]
      exact hhon
    have hnd2 : ((verifyOne a id).guards.map Guard.guard_id).Nodup := by
      rw [hfr.2.2.2.2.2.2.1]
      exact hnd
    obtain ⟨T, hT, hTk, hTv⟩ := @ih (verifyOne a id) T1 hperm2 hhon2 hnd2
      h1k h1v
    refine ⟨T, ?_, hTk, hTv⟩
    show verifyList (verifyOne { a with guards := g, guard_signatures := S } id)
      rest = _
    rw [h1]
    exact hT

theorem step_guard_perm (a : SimState) (g : List Guard) (n : Nat)
    (hperm : g.Perm a.guards)
    (hhon : ∀ x ∈ a.guards, x.is_malicious = false)
    (hnd : (a.guards.map Guard.guard_id).Nodup) :
    ∃ S, run_simulation_step { a with guards := g } n =
        { run_simulation_step a n with
            guards := g
            guard_signatures := S } ∧
      S.map Prod.fst =
        (run_simulation_step a n).guard_signatures.map Prod.fst ∧
      ∀ id, ((lookupA S id).getD []).Perm
        (sigsOf (run_simulation_step a n) id) := by
  have hcf := collateList_frames (stepS1 a) n (stepM a).1
  have hguards2 : (stepS2 a n).guards = a.guards := hcf.2.2.2.1
  have hsigs2 : (stepS2 a n).guard_signatures = a.guard_signatures := hcf.1
  have h2 : stepS2 { a with guards := g, guard_signatures := a.guard_signatures } n =
      { stepS2 a n with
        guards := g
        guard_signatures := a.guard_signatures } := by
    show collateList (stepS1 { a with guards := g, guard_signatures := a.guard_signatures }) n
      (stepM { a with guards := g, guard_signatures := a.guard_signatures }).1 = _
    have e1 : stepS1 { a with guards := g, guard_signatures := a.guard_signatures } =
        { stepS1 a with
          guards := g
          guard_signatures := a.guard_signatures } := rfl
    have e2 : stepM { a with guards := g, guard_signatures := a.guard_signatures } =
        stepM a := rfl
    rw [e1, e2, collateList_gs_comm]
    rfl
  have hperm2 : g.Perm (stepS2 a n).guards := by
    rw [hguards2]
    exact hperm
  have hhon2 : ∀ x ∈ (stepS2 a n).guards, x.is_malicious = false := by
    rw [hguards2]
    exact hhon
  have hnd2 : ((stepS2 a n).guards.map Guard.guard_id).Nodup := by
    rw [hguards2]
    exact hnd
  have hkeys2 : a.guard_signatures.map Prod.fst =
      (stepS2 a n).guard_signatures.map Prod.fst := by
    rw [hsigs2]
  have hvals2 : ∀ x, ((lookupA a.guard_signatures x).getD []).Perm
      (sigsOf (stepS2 a n) x) := by
    intro x
    rw [sigsOf_congr hsigs2 x]
    exact List.Perm.refl _
  obtain ⟨T, hT, hTk, hTv⟩ := verifyList_pair (stepS2 a n) g
    a.guard_signatures ((stepS2 a n).pending_reports.map Prod.fst)
    hperm2 hhon2 hnd2 hkeys2 hvals2
  have h3 : stepS3 { a with guards := g, guard_signatures := a.guard_signatures } n =
      { stepS3 a n with
        guards := g
        guard_signatures := T } := by
    show verifyPhase (stepS2 { a with guards := g, guard_signatures := a.guard_signatures } n) = _
    rw [h2]
    exact hT
  have hTk3 : T.map Prod.fst = (stepS3 a n).guard_signatures.map Prod.fst := hTk
  have hTv3 : ∀ x, ((lookupA T x).getD []).Perm (sigsOf (stepS3 a n) x) := hTv
  have hpos : ∀ x, posCount ((lookupA T x).getD []) =
      posCount (sigsOf (stepS3 a n) x) := fun x => posCount_perm (hTv3 x)
  have h4 : stepFin { a with guards := g, guard_signatures := a.guard_signatures } n =
      ({ (stepFin a n).1 with
          guards := g
          guard_signatures := T },
        (stepFin a n).2) := by
    show finalizePhase (stepS3 { a with guards := g, guard_signatures := a.guard_signatures } n) n = _
    rw [h3]
    show finalizeList { stepS3 a n with guards := g, guard_signatures := T } n
      (T.map Prod.fst) = _
    rw [hTk3]
    exact finalizeList_gs_comm (stepS3 a n) g T n _ hpos
  have hff := finalizeList_frames (stepS3 a n) n
    ((stepS3 a n).guard_signatures.map Prod.fst)
  have hsigsF : (stepFin a n).1.guard_signatures =
      (stepS3 a n).guard_signatures := hff.2.1
  refine ⟨T, ?_, ?_, ?_⟩
  · show run_simulation_step { a with guards := g, guard_signatures := a.guard_signatures } n = _
    rw [@run_step_eq { a with guards := g, guard_signatures := a.guard_signatures } n,
      @run_step_eq a n, h4]
  · show T.map Prod.fst =
      (stepFin a n).1.guard_signatures.map Prod.fst
    rw [hsigsF]
    exact hTk3
  · intro id
    show ((lookupA T id).getD []).Perm (sigsOf (stepFin a n).1 id)
    rw [sigsOf_congr hsigsF id]
    exact hTv3 id

/-! ### The threshold formula -/

theorem ratTrunc_eq_floor (q : ℚ) (h : 0 ≤ q) : ratTrunc q = ⌊q⌋ := by
  conv_rhs => rw [← Rat.num_div_den q]
  rw [Rat.floor_intCast_div_natCast]
  exact Int.tdiv_eq_ediv (Rat.num_nonneg.mpr h) (by positivity)

theorem mkq_eq_div (n : Int) (d : Nat) (h1 : d ≠ 0)
    (h2 : n.natAbs.Coprime d) :
    (Rat.mk' n d h1 h2 : ℚ) = (n : ℚ) / (d : ℚ) := by
  rw [Rat.mk'_eq_divInt, Rat.divInt_eq_div]
  push_cast
  ring

theorem floatMul_exact (n : Nat) (r : ℚ) (m : Nat)
    (hfm : floatMul (floatOfNat n) r = ((m : Int) : ℚ))
    (hm : (n : Int) * r.num = (m : Int) * (r.den : Int)) :
    floatMul (floatOfNat n) r = (n : ℚ) * r := by
  rw [hfm]
  conv_rhs => rw [← Rat.num_div_den r]
  have hden : ((r.den : ℕ) : ℚ) ≠ 0 := by positivity
  field_simp
  exact_mod_cast hm.symm

/-! ## The claims -/

/-- C1: in every run, an event id that is a member of the finalized set is
still a member after any further sequence of triggers and steps, and in
any such later state it is absent from the pending-report buffer. -/
theorem claim1 (s t : SimState) (hr : Reachable s) (hst : SimStar s t)
    (id : EId) (hid : id ∈ s.finalized_events) :
    id ∈ t.finalized_events ∧ memA t.pending_reports id = false := by
  obtain ⟨u, hu⟩ := star_fin_mono hst
  have hmem : id ∈ t.finalized_events := by
    rw [hu]
    exact List.mem_append.2 (Or.inl hid)
  have hinv := reachable_inv (reachable_star hr hst)
  exact ⟨hmem, hinv.finPending id hmem⟩

/-- Witness for C1 on a concrete run: the event finalized in step 1 is
still finalized, and no longer pending, after a further step. -/
theorem claim1_witness :
    Reachable witnessStep ∧
    SimStar witnessStep (run_simulation_step witnessStep 2) ∧
    EId.real 0 ∈ witnessStep.finalized_events ∧
    (EId.real 0 ∈ (run_simulation_step witnessStep 2).finalized_events ∧
      memA (run_simulation_step witnessStep 2).pending_reports
        (EId.real 0) = false) := by
  have r1 : Reachable witnessInit :=
    Reachable.init witnessConfig [] ["A"] [] [] [0]
  have r2 : Reachable witnessTrig :=
    r1.next (SimTrans.trigger witnessInit "A" "B" ⟨some 7, none, none⟩)
  have r3 : Reachable witnessStep := r2.next (SimTrans.step witnessTrig 1)
  have hst : SimStar witnessStep (run_simulation_step witnessStep 2) :=
    SimStar.tail (SimStar.refl witnessStep) (SimTrans.step witnessStep 2)
  exact ⟨r3, hst, by decide,
    claim1 witnessStep (run_simulation_step witnessStep 2) r3 hst
      (EId.real 0) (by decide)⟩

/-- C2 counterexample: the constructor truncates the IEEE-double-rounded
product, not the exact one, so the claimed identity fails both ways: with
5 guards and the stored double for 0.6 the program computes threshold 3
while `max 1 ⌊5 * 0.6⌋` over the double's exact value is 2; with 100
guards and the stored double for 0.29 the program computes 28 while the
formula at the written constant 29/100 gives 29. -/
theorem claim2_counterexample :
    ((0 : ℚ) ≤ r06 ∧ r06 ≤ 1 ∧
      (mkSimulation cfg2a []).guard_threshold = 3 ∧
      max 1 ⌊((5 : Nat) : ℚ) * r06⌋ = 2) ∧
    ((0 : ℚ) ≤ r029 ∧ r029 ≤ 1 ∧
      (mkSimulation cfg2b []).guard_threshold = 28 ∧
      max 1 ⌊((100 : Nat) : ℚ) * ((29 : ℚ) / 100)⌋ = 29) := by
  have h06 : r06 = ((5404319552844595 : Int) : ℚ) /
      ((9007199254740992 : Nat) : ℚ) :=
    mkq_eq_div 5404319552844595 9007199254740992 (by norm_num) (by norm_num)
  refine ⟨⟨by decide, by decide, by decide, ?_⟩,
    ⟨by decide, by decide, by decide, ?_⟩⟩
  · have hf : ⌊((5 : Nat) : ℚ) * r06⌋ = 2 := by
      rw [Int.floor_eq_iff]
      constructor
      · rw [h06]
        push_cast
        norm_num
      · rw [h06]
        push_cast
        norm_num
    rw [hf]
    decide
  · have hf : ⌊((100 : Nat) : ℚ) * ((29 : ℚ) / 100)⌋ = 29 := by
      have : ((100 : Nat) : ℚ) * ((29 : ℚ) / 100) = ((29 : Int) : ℚ) := by
        push_cast
        norm_num
      rw [this, Int.floor_intCast]
    rw [hf]
    decide

/-- C2 (amended): the constructor computes
`max(1, int(fl(fl(numGuards) * ratio)))` in binary64 arithmetic; whenever
the double product is exact (no rounding error, as for ratios 0, 1 or any
product representable in 53 bits), this equals the spec's
`max 1 ⌊numGuards * ratio⌋`. -/
theorem claim2_amended (cfg : Config) (rng : List Nat)
    (h0 : 0 ≤ cfg.guard_threshold_ratio)
    ( _h1 : cfg.guard_threshold_ratio ≤ 1)
    (hx : floatMul (floatOfNat cfg.num_guards) cfg.guard_threshold_ratio =
      (cfg.num_guards : ℚ) * cfg.guard_threshold_ratio) :
    ((mkSimulation cfg rng).guard_threshold : Int) =
      max 1 ⌊(cfg.num_guards : ℚ) * cfg.guard_threshold_ratio⌋ := by
  show ((max 1 (ratTrunc (floatMul (floatOfNat cfg.num_guards)
    cfg.guard_threshold_ratio))).toNat : Int) = _
  rw [Int.toNat_of_nonneg (le_trans zero_le_one (le_max_left _ _))]
  rw [hx, ratTrunc_eq_floor _ (mul_nonneg (Nat.cast_nonneg _) h0)]

/-- Witness for C2 (amended): 4 guards at ratio 3/4; the double product
`fl(4 * 0.75) = 3` is exact and the threshold is `max 1 ⌊3⌋ = 3`. -/
theorem claim2_amended_witness :
    (0 : ℚ) ≤ q34 ∧ q34 ≤ 1 ∧
    floatMul (floatOfNat 4) q34 = ((4 : Nat) : ℚ) * q34 ∧
    ((mkSimulation ⟨1, 4, 0, 0, q34⟩ []).guard_threshold : Int) =
      max 1 ⌊((4 : Nat) : ℚ) * q34⌋ := by
  have hx : floatMul (floatOfNat 4) q34 = ((4 : Nat) : ℚ) * q34 :=
    floatMul_exact 4 q34 3 (by decide) (by decide)
  exact ⟨by decide, by decide, hx,
    claim2_amended ⟨1, 4, 0, 0, q34⟩ [] (by decide) (by decide) hx⟩

/-- C3: in every reachable state each signature set maps a guard id to at
most one vote and has no more entries than there are guards, and once an
id has been processed a further step never changes its signature set. -/
theorem claim3 (s : SimState) (hr : Reachable s) (id : EId) :
    ((sigsOf s id).map Prod.fst).Nodup ∧
    (sigsOf s id).length ≤ s.guards.length ∧
    (id ∈ s.processed_event_ids →
      ∀ n, sigsOf (run_simulation_step s n) id = sigsOf s id) := by
  have hinv := reachable_inv hr
  refine ⟨hinv.sigsInnerNodup id, ?_, fun hp n => step_sigs_frozen n hp⟩
  have hsub : ∀ k ∈ (sigsOf s id).map Prod.fst,
      k ∈ s.guards.map Guard.guard_id := by
    intro k hk
    obtain ⟨q, hq, he⟩ := List.mem_map.1 hk
    exact he ▸ hinv.sigsInnerGuards id q hq
  have h1 := nodup_keys_length_le (hinv.sigsInnerNodup id) hsub
  simp only [List.length_map] at h1
  exact h1

/-- Witness for C3 on the concrete run, at the processed id. -/
theorem claim3_witness :
    Reachable witnessStep ∧
    (((sigsOf witnessStep (EId.real 0)).map Prod.fst).Nodup ∧
      (sigsOf witnessStep (EId.real 0)).length ≤ witnessStep.guards.length ∧
      (EId.real 0 ∈ witnessStep.processed_event_ids →
        ∀ n, sigsOf (run_simulation_step witnessStep n) (EId.real 0) =
          sigsOf witnessStep (EId.real 0))) := by
  have r1 : Reachable witnessInit :=
    Reachable.init witnessConfig [] ["A"] [] [] [0]
  have r2 : Reachable witnessTrig :=
    r1.next (SimTrans.trigger witnessInit "A" "B" ⟨some 7, none, none⟩)
  have r3 : Reachable witnessStep := r2.next (SimTrans.step witnessTrig 1)
  exact ⟨r3, claim3 witnessStep r3 (EId.real 0)⟩

/-- C4: a report naming an unknown source chain is rejected by every
guard, honest or malicious; a report naming a known chain without the
reported event has `actuallyValid = false`, so an honest guard rejects
it. -/
theorem claim4 (chains : List (String × SimpleBlockchain)) :
    (∀ (re : ReportedEvent) (g : Guard) (rng : List Nat),
      lookupA chains re.source_chain_id = none →
        Guard.verify_event chains g re rng = (false, rng)) ∧
    (∀ (re : ReportedEvent) (c : SimpleBlockchain) (g : Guard)
        (rng : List Nat),
      lookupA chains re.source_chain_id = some c →
      c.get_event re.event_id = none →
      actually_valid chains re = false ∧
        (g.is_malicious = false →
          Guard.verify_event chains g re rng = (false, rng))) := by
  constructor
  · intro re g rng h
    exact verify_event_unknown h g rng
  · intro re c g rng hc he
    have hav := actually_valid_missing hc he
    refine ⟨hav, fun hmal => ?_⟩
    rw [verify_event_honest re rng hmal, hav]

/-- Witness for C4: a malicious guard rejects a report from the unknown
chain `B`, and an honest guard rejects a report of a missing event on the
known chain `A`. -/
theorem claim4_witness :
    Guard.verify_event [("A", (⟨"A", []⟩ : SimpleBlockchain))] ⟨"G1", true⟩
      ⟨EId.real 0, "B", "T", ⟨none, none, none⟩, "W"⟩ [] = (false, []) ∧
    actually_valid [("A", (⟨"A", []⟩ : SimpleBlockchain))]
      ⟨EId.real 0, "A", "T", ⟨none, none, none⟩, "W"⟩ = false ∧
    Guard.verify_event [("A", (⟨"A", []⟩ : SimpleBlockchain))] ⟨"G0", false⟩
      ⟨EId.real 0, "A", "T", ⟨none, none, none⟩, "W"⟩ [] = (false, []) := by
  have h2 := (claim4 [("A", (⟨"A", []⟩ : SimpleBlockchain))]).2
    ⟨EId.real 0, "A", "T", ⟨none, none, none⟩, "W"⟩ ⟨"A", []⟩ ⟨"G0", false⟩
    [] (by decide) (by decide)
  exact ⟨(claim4 [("A", (⟨"A", []⟩ : SimpleBlockchain))]).1
    ⟨EId.real 0, "B", "T", ⟨none, none, none⟩, "W"⟩ ⟨"G1", true⟩ []
    (by decide), h2.1, h2.2 rfl⟩

/-- C5 counterexample: with zero guards configured, `setup` does not abort
— it completes with one watcher and threshold 1 — and a simulation step
then runs and processes a triggered event. -/
theorem claim5_counterexample :
    zeroGuardState.guards = [] ∧
    zeroGuardState.guard_threshold = 1 ∧
    zeroGuardState.watchers ≠ [] ∧
    zeroGuardStep.processed_event_ids = [EId.real 0] := by
  refine ⟨by decide, by decide, by decide, by decide⟩

/-- C5 (amended): an empty chain list makes `setup` return early with no
participants created; zero guards make `setup` complete with threshold
`max 1 0 = 1`; and in any reachable state of a zero-guard run no
signature is ever recorded and no event is ever finalized. -/
theorem claim5_amended :
    (∀ (cfg : Config) (rng mw mg picks : List Nat),
      setup (mkSimulation cfg rng) [] mw mg picks = mkSimulation cfg rng) ∧
    (∀ (cfg : Config) (rng : List Nat) (chain_ids : List String)
        (mw mg picks : List Nat), cfg.num_guards = 0 →
      (setup (mkSimulation cfg rng) chain_ids mw mg picks).guards = [] ∧
      (setup (mkSimulation cfg rng) chain_ids mw mg picks).guard_threshold
        = 1) ∧
    (∀ s : SimState, Reachable s → s.guards = [] →
      s.guard_signatures = [] ∧ s.finalized_events = []) := by
  refine ⟨?_, ?_, fun s hr hg => zero_guards_frozen hr hg⟩
  · intro cfg rng mw mg picks
    have hb : ((([] : List String).foldl
        (fun m cid => setA m cid ⟨cid, []⟩)
        (mkSimulation cfg rng).blockchains)).isEmpty = true := by
      show ((mkSimulation cfg rng).blockchains).isEmpty = true
      rfl
    rw [setup_eq_empty hb]
    rfl
  · intro cfg rng chain_ids mw mg picks hng
    have hth : (mkSimulation cfg rng).guard_threshold = 1 := by
      show (max 1 (ratTrunc (floatMul (floatOfNat cfg.num_guards)
        cfg.guard_threshold_ratio))).toNat = 1
      rw [hng]
      have h0 : floatOfNat 0 = 0 := rfl
      rw [h0]
      have hm : floatMul 0 cfg.guard_threshold_ratio = 0 := by
        show roundF64Q ((0 : ℚ).num * cfg.guard_threshold_ratio.num)
          ((0 : ℚ).den * cfg.guard_threshold_ratio.den) = 0
        have hz : (0 : ℚ).num * cfg.guard_threshold_ratio.num = 0 := by
          show (0 : Int) * cfg.guard_threshold_ratio.num = 0
          exact zero_mul _
        rw [hz]
        rfl
      rw [hm]
      decide
    have hgd : setupGuards mg cfg.num_guards = [] := by
      rw [hng]
      rfl
    cases hbe : ((chain_ids.foldl (fun m cid => setA m cid ⟨cid, []⟩)
        (mkSimulation cfg rng).blockchains)).isEmpty with
    | true =>
      rw [setup_eq_empty hbe]
      exact ⟨rfl, hth⟩
    | false =>
      rw [setup_eq_nonempty hbe]
      constructor
      · show (mkSimulation cfg rng).guards ++ setupGuards mg cfg.num_guards = []
        rw [hgd]
        rfl
      · exact hth

/-- Witness for C5 (amended) on the concrete zero-guard run. -/
theorem claim5_amended_witness :
    setup (mkSimulation zeroGuardConfig []) [] [] [] [] =
      mkSimulation zeroGuardConfig [] ∧
    ((setup (mkSimulation zeroGuardConfig []) ["A"] [] [] [0]).guards = [] ∧
      (setup (mkSimulation zeroGuardConfig []) ["A"] [] [] [0]).guard_threshold
        = 1) ∧
    (zeroGuardStep.guard_signatures = [] ∧
      zeroGuardStep.finalized_events = []) := by
  refine ⟨claim5_amended.1 zeroGuardConfig [] [] [] [],
    claim5_amended.2.1 zeroGuardConfig [] ["A"] [] [] [0] rfl, ?_⟩
  have r1 : Reachable zeroGuardState :=
    Reachable.init zeroGuardConfig [] ["A"] [] [] [0]
  have r2 : Reachable (trigger_event zeroGuardState "A" "B"
      ⟨some 7, none, none⟩).2 :=
    r1.next (SimTrans.trigger zeroGuardState "A" "B" ⟨some 7, none, none⟩)
  have r3 : Reachable zeroGuardStep :=
    r2.next (SimTrans.step (trigger_event zeroGuardState "A" "B"
      ⟨some 7, none, none⟩).2 1)
  exact claim5_amended.2.2 zeroGuardStep r3 (by decide)

/-- C6 counterexample: with two malicious guards drawing from the shared
random stream, reversing the guard list changes guard `G0`'s recorded
vote on the same pending event, so the verification result of the step
depends on the order in which the guards are evaluated. -/
theorem claim6_counterexample :
    cexStateRev.guards.Perm cexState.guards ∧
    lookupA (sigsOf (run_simulation_step cexState 1) (EId.real 0)) "G0" =
      some true ∧
    lookupA (sigsOf (run_simulation_step cexStateRev 1) (EId.real 0)) "G0" =
      some false := by
  refine ⟨by decide, by decide, by decide⟩

/-- C6 (amended): when every guard is honest (and guard ids are distinct),
permuting the guard list before a step changes nothing observable: the
stepped states agree on every field except that the guard list keeps the
chosen order and each event's signature set is a reordering (same guard
ids, same votes as a multiset). -/
theorem claim6_amended (a : SimState) (g : List Guard) (n : Nat)
    (hperm : g.Perm a.guards)
    (hhon : ∀ x ∈ a.guards, x.is_malicious = false)
    (hnd : (a.guards.map Guard.guard_id).Nodup) :
    ∃ S, run_simulation_step { a with guards := g } n =
        { run_simulation_step a n with
            guards := g
            guard_signatures := S } ∧
      S.map Prod.fst =
        (run_simulation_step a n).guard_signatures.map Prod.fst ∧
      ∀ id, ((lookupA S id).getD []).Perm
        (sigsOf (run_simulation_step a n) id) :=
  step_guard_perm a g n hperm hhon hnd

/-- Witness for C6 (amended): reversing the two honest guards of the
concrete run before its step. -/
theorem claim6_amended_witness :
    witnessTrig.guards.reverse.Perm witnessTrig.guards ∧
    (∀ x ∈ witnessTrig.guards, x.is_malicious = false) ∧
    (witnessTrig.guards.map Guard.guard_id).Nodup ∧
    (∃ S, run_simulation_step
        { witnessTrig with guards := witnessTrig.guards.reverse } 1 =
        { run_simulation_step witnessTrig 1 with
            guards := witnessTrig.guards.reverse
            guard_signatures := S } ∧
      S.map Prod.fst =
        (run_simulation_step witnessTrig 1).guard_signatures.map Prod.fst ∧
      ∀ id, ((lookupA S id).getD []).Perm
        (sigsOf (run_simulation_step witnessTrig 1) id)) :=
  ⟨by decide, by decide, by decide,
    claim6_amended witnessTrig witnessTrig.guards.reverse 1 (by decide)
      (by decide) (by decide)⟩

/-- C7: when a non-fraud-marked id reaches quorum while the ledger
cross-check fails, finalization is counted as fabricated: the fabricated
counter is incremented, the representative amount is added to the attack
impact, and the valid counter is unchanged. -/
theorem claim7 (s : SimState) (n : Nat) (id : EId)
    (h1 : id ∉ s.finalized_events)
    (h2 : s.guard_threshold ≤ posCount (sigsOf s id))
    (hfake : id.isFake = false)
    (hl : ledgerAgrees s id
      (((lookupA s.pending_reports id).getD []).headD defaultReport)
      = false) :
    (finalizeOne s n id).2 = true ∧
    (finalizeOne s n id).1.stats_fabricated_events_finalized =
      s.stats_fabricated_events_finalized + 1 ∧
    (finalizeOne s n id).1.stats_attack_impact_value =
      s.stats_attack_impact_value +
        (((lookupA s.pending_reports id).getD
          []).headD defaultReport).data.get_amount ∧
    (finalizeOne s n id).1.stats_valid_events_finalized =
      s.stats_valid_events_finalized := by
  have hm := finalizeOne_mismatch (n := n) h1 h2 hfake hl
  refine ⟨?_, hm.1, hm.2.1, hm.2.2⟩
  simp only [finalizeOne]
  rw [if_neg h1, if_pos h2]

/-- Witness for C7: a concrete state with a quorum-reaching real id whose
source chain is unknown to the ledger. -/
theorem claim7_witness :
    EId.real 0 ∉ mismatchState.finalized_events ∧
    mismatchState.guard_threshold ≤
      posCount (sigsOf mismatchState (EId.real 0)) ∧
    (EId.real 0).isFake = false ∧
    ledgerAgrees mismatchState (EId.real 0)
      (((lookupA mismatchState.pending_reports (EId.real 0)).getD
        []).headD defaultReport) = false ∧
    ((finalizeOne mismatchState 1 (EId.real 0)).2 = true ∧
      (finalizeOne mismatchState 1
        (EId.real 0)).1.stats_fabricated_events_finalized =
        mismatchState.stats_fabricated_events_finalized + 1 ∧
      (finalizeOne mismatchState 1
        (EId.real 0)).1.stats_attack_impact_value =
        mismatchState.stats_attack_impact_value +
          (((lookupA mismatchState.pending_reports (EId.real 0)).getD
            []).headD defaultReport).data.get_amount ∧
      (finalizeOne mismatchState 1
        (EId.real 0)).1.stats_valid_events_finalized =
        mismatchState.stats_valid_events_finalized) := by
  refine ⟨by decide, by decide, by decide, by decide,
    claim7 mismatchState 1 (EId.real 0) (by decide) (by decide) (by decide)
      (by decide)⟩

/-- C8: an honest watcher driven through any sequence of monitoring calls
over well-formed chain tables never emits two reports with the same event
id: its seen-memory makes reporting idempotent across the whole run. -/
theorem claim8 (w : Watcher)
    (ctxs : List (List (String × SimpleBlockchain) × Nat × List Nat))
    (hmal : w.is_malicious = false)
    (hwf : ∀ ctx ∈ ctxs, ∀ p ∈ ctx.1, (p.2.events.map Prod.fst).Nodup ∧
      ∀ q ∈ p.2.events, q.2.event_id = q.1) :
    ((monRun w ctxs).1.map ReportedEvent.event_id).Nodup :=
  (monRun_spec w ctxs hmal hwf).1

/-- Witness for C8: a fresh honest watcher monitoring the same one-event
chain twice reports the event exactly once in total. -/
theorem claim8_witness :
    w8.is_malicious = false ∧
    (∀ ctx ∈ ctxs8, ∀ p ∈ ctx.1, (p.2.events.map Prod.fst).Nodup ∧
      ∀ q ∈ p.2.events, q.2.event_id = q.1) ∧
    ((monRun w8 ctxs8).1.map ReportedEvent.event_id).Nodup ∧
    (monRun w8 ctxs8).1.length = 1 :=
  ⟨rfl, by decide, claim8 w8 ctxs8 rfl (by decide), by decide⟩

/-- C9: in every reachable state, every value of the confirmation-latency
series is exactly 0: an event is only ever finalized in the very step in
which it was first reported. -/
theorem claim9 (s : SimState) (hr : Reachable s) :
    ∀ x ∈ s.confirmation_latencies, x = 0 :=
  (reachable_inv hr).latencies

/-- Witness for C9: the concrete run records a non-empty latency series
whose sole entry is 0. -/
theorem claim9_witness :
    Reachable witnessStep ∧
    witnessStep.confirmation_latencies = [0] ∧
    ∀ x ∈ witnessStep.confirmation_latencies, x = 0 := by
  have r1 : Reachable witnessInit :=
    Reachable.init witnessConfig [] ["A"] [] [] [0]
  have r2 : Reachable witnessTrig :=
    r1.next (SimTrans.trigger witnessInit "A" "B" ⟨some 7, none, none⟩)
  have r3 : Reachable witnessStep := r2.next (SimTrans.step witnessTrig 1)
  exact ⟨r3, by decide, claim9 witnessStep r3⟩

/-- C10: triggering an event on an unknown source chain returns no event
and leaves the whole simulation state unchanged. -/
theorem claim10 (s : SimState) (src tgt : String) (d : Payload)
    (h : lookupA s.blockchains src = none) :
    (trigger_event s src tgt d).1 = none ∧
    (trigger_event s src tgt d).2 = s := by
  rw [trigger_none_eq h]
  exact ⟨rfl, rfl⟩

/-- Witness for C10: triggering on the unknown chain `Z` of the concrete
configured run. -/
theorem claim10_witness :
    lookupA witnessInit.blockchains "Z" = none ∧
    (trigger_event witnessInit "Z" "A" ⟨some 1, none, none⟩).1 = none ∧
    (trigger_event witnessInit "Z" "A" ⟨some 1, none, none⟩).2 =
      witnessInit := by
  refine ⟨by decide, ?_, ?_⟩
  · exact (claim10 witnessInit "Z" "A" ⟨some 1, none, none⟩ (by decide)).1
  · exact (claim10 witnessInit "Z" "A" ⟨some 1, none, none⟩ (by decide)).2
